import Mathlib

/-!
# DS2482 1-Wire bridge driver with DS18B20 support

A shallow embedding of `wire.c` / `wire.h`: the bridge command layer
(`OWBusyWait`, `OWReset`, `OWWriteByte`, `OWDWriteConfig`,
`DS2482_search_triplet`), the ROM search engine (`OWSearch`, `OWFirst`,
`OWNext`, `OWDeviceSearch`), the device registry (`OWIDU`, `OWGetIDs`,
`OWAddr2Num`) and the addressing part of the sensor session (`DS18B20_init`,
`DS18B20_readTemp`).

Conventions of the embedding.

* Machine integers are natural numbers; a `u8` store is reduced `% 256`
  and a tick difference is taken modulo `2 ^ 32`.
* The link transport (`sw_i2c.h`) and the FreeRTOS tick source are not part
  of the repository; they are the fields of `Env`, over an arbitrary world
  type `W` that is threaded through every call.
* `while (1)` and `do ... while` loops take a fuel argument and return
  `none` when it runs out.
* `OWSearch` reaches the bus through `OWReset`, `OWWriteByte` and
  `DS2482_search_triplet` only; the embedding takes these three callees as
  a `Bus` record, and `realBus` is the record of the functions of `wire.c`.
* `int` variables that only hold small non-negative values
  (`LastDiscrepancy`, `id_bit_number`, ...) are natural numbers, and
  `LastDeviceFlag` is a boolean.
* Logging, the `ASSERT` of `OWDWriteConfig` and the critical-section markers
  `portENTER_CRITICAL` / `portEXIT_CRITICAL` have no counterpart.
-/

namespace DS2482

/-! ## Constants of `wire.c` -/

abbrev StatReg : Nat := 0xF0
abbrev DataReg : Nat := 0xE1
abbrev OWDSConfig : Nat := 0xD2
abbrev OWDSDeviceResetCommand : Nat := 0xF0
abbrev OWDSSetReadPtrCommand : Nat := 0xE1
abbrev OWDSResetCommand : Nat := 0xB4
abbrev OWDSReadByteCommand : Nat := 0x96
abbrev OWDSTriplet : Nat := 0x78
abbrev OWDSWriteByteCommand : Nat := 0xA5

abbrev OWSearchCmd : Nat := 0xF0
abbrev OWMatchROMCmd : Nat := 0x55
abbrev OWConvertTCmd : Nat := 0x44
abbrev OWReadPad : Nat := 0xBE
abbrev OWWritePad : Nat := 0x4E
abbrev OWCopyPad : Nat := 0x48

abbrev STATUS_SBR : Nat := 32
abbrev STATUS_TSB : Nat := 64
abbrev STATUS_DIR : Nat := 128
abbrev STATUS_BUSY : Nat := 1
abbrev STATUS_RST : Nat := 16
abbrev STATUS_PPD : Nat := 2

abbrev OWID_MAX_ELEMENTS : Nat := 16
abbrev RST_TIMEOUT : Nat := 5
abbrev BSY_TIMEOUT : Nat := 10

/-- Difference of two `u32` tick values, as C computes `a - b` on `u32`. -/
def u32sub (a b : Nat) : Nat := (a % 4294967296 + 4294967296 - b % 4294967296) % 4294967296

/-! ## The environment: link transport and tick source -/

/-- The external collaborators of `wire.c`. `SW_I2C_Write_8addr addr cmd data`
sends the command byte `cmd` followed by the bytes `data` to the I2C device
`addr` and reports success; `SW_I2C_Read_Noaddr addr` reads one byte and
reports success together with the byte left in the caller's buffer. -/
structure Env (W : Type) where
  xTaskGetTickCount : W → Nat × W
  SW_I2C_Write_8addr : Nat → Nat → List Nat → W → Bool × W
  SW_I2C_Read_Noaddr : Nat → W → (Bool × Nat) × W
  vTaskDelay : Nat → W → W

/-! ## Program state: the globals of `wire.c` -/

/-- The file-scope variables of `wire.c` and the function-static `iter` of
`OWSearch`. `OWIDU` holds the `ID8` view of each of the 16 union slots; a
store through `OWIDU[iter]` with `iter >= 16` lands outside the array and is
recorded in `oob` as (slot, byte index, value). -/
structure State where
  ROM_NO : List Nat
  OWIDU : List (List Nat)
  oob : List (Nat × Nat × Nat)
  crc8 : Nat
  LastDiscrepancy : Nat
  LastFamilyDiscrepancy : Nat
  LastDeviceFlag : Bool
  OWDAddress : Nat
  iter : Nat
deriving DecidableEq

/-- The state at program start: every global is zero-initialised and the
bridge address is `0x18 << 1`. -/
def State.init : State where
  ROM_NO := List.replicate 8 0
  OWIDU := List.replicate 16 (List.replicate 8 0)
  oob := []
  crc8 := 0
  LastDiscrepancy := 0
  LastFamilyDiscrepancy := 0
  LastDeviceFlag := false
  OWDAddress := 0x30
  iter := 0

/-- The `ID` view of a union slot on the little-endian target: `ID8[0]` is
the least significant byte. -/
def ID (id8 : List Nat) : Nat :=
  id8.getD 0 0 + 256 * (id8.getD 1 0 + 256 * (id8.getD 2 0 + 256 * (id8.getD 3 0
    + 256 * (id8.getD 4 0 + 256 * (id8.getD 5 0 + 256 * (id8.getD 6 0 + 256 * id8.getD 7 0))))))

/-- The value of `OWIDU[i].ID`. -/
def State.slotID (s : State) (i : Nat) : Nat := ID (s.OWIDU.getD i [])

/-! ## Bridge command layer -/

section Bridge
variable {W : Type}

/-- The `while (1)` loop of `OWBusyWait`; returns the result code and the
last byte read into the status buffer. -/
def OWBusyWait_loop (env : Env W) (addr start_time : Nat) : Nat → W → Option ((Nat × Nat) × W)
  | 0, _ => none
  | fuel + 1, w =>
    let r := env.SW_I2C_Read_Noaddr addr w
    let i2c_ret := r.1.1
    let buff := r.1.2 % 256
    if buff &&& STATUS_BUSY = 0 ∧ i2c_ret = true then some ((0, buff), r.2)
    else
      let t := env.xTaskGetTickCount r.2
      if u32sub t.1 start_time > BSY_TIMEOUT then some ((1, buff), t.2)
      else OWBusyWait_loop env addr start_time fuel t.2

/-- The function `OWBusyWait`: result code (0 ready, 1 timeout) and the
content of the status buffer. -/
def OWBusyWait (env : Env W) (fuel addr : Nat) (w : W) : Option ((Nat × Nat) × W) :=
  let t := env.xTaskGetTickCount w
  let wr := env.SW_I2C_Write_8addr addr OWDSSetReadPtrCommand [StatReg] t.2
  if wr.1 = false then some ((1, 0), wr.2)
  else OWBusyWait_loop env addr t.1 fuel wr.2

/-- First `do ... while` of `OWReset`: poll until the presence flag is set
or the reset budget is used up. The tick is read only when the presence flag
is clear. -/
def OWReset_presence (env : Env W) (addr start_time : Nat) : Nat → W → Option (Nat × W)
  | 0, _ => none
  | fuel + 1, w =>
    let r := env.SW_I2C_Read_Noaddr addr w
    let status := r.1.2 % 256
    if status &&& STATUS_PPD = 0 then
      let t := env.xTaskGetTickCount r.2
      if u32sub t.1 start_time < RST_TIMEOUT then OWReset_presence env addr start_time fuel t.2
      else some (status, t.2)
    else some (status, r.2)

/-- Second `do ... while` of `OWReset`: poll until the busy flag is clear or
the busy budget is used up. -/
def OWReset_busy (env : Env W) (addr start_time : Nat) : Nat → W → Option (Nat × W)
  | 0, _ => none
  | fuel + 1, w =>
    let r := env.SW_I2C_Read_Noaddr addr w
    let status := r.1.2 % 256
    if status &&& STATUS_BUSY ≠ 0 then
      let t := env.xTaskGetTickCount r.2
      if u32sub t.1 start_time < BSY_TIMEOUT then OWReset_busy env addr start_time fuel t.2
      else some (status, t.2)
    else some (status, r.2)

/-- The function `OWReset`: true when the last status read has the presence
flag set. -/
def OWReset (env : Env W) (fuel addr : Nat) (w : W) : Option (Bool × W) :=
  let t := env.xTaskGetTickCount w
  let wr := env.SW_I2C_Write_8addr addr OWDSResetCommand [] t.2
  match OWReset_presence env addr t.1 fuel wr.2 with
  | none => none
  | some (_, w1) =>
    match OWReset_busy env addr t.1 fuel w1 with
    | none => none
    | some (status, w2) => some (decide (status &&& STATUS_PPD ≠ 0), w2)

/-- The `while (1)` loop of `OWResetWait`. -/
def OWResetWait_loop (env : Env W) (fuel addr start_time : Nat) : Nat → W → Option (Nat × W)
  | 0, _ => none
  | n + 1, w =>
    match OWReset env fuel addr w with
    | none => none
    | some (reset, w1) =>
      if reset = true then some (0, w1)
      else
        let t := env.xTaskGetTickCount w1
        if u32sub t.1 start_time > RST_TIMEOUT then some (1, t.2)
        else OWResetWait_loop env fuel addr start_time n t.2

/-- The function `OWResetWait`: 0 when a reset saw a presence pulse, 1 on
timeout. -/
def OWResetWait (env : Env W) (fuel addr : Nat) (w : W) : Option (Nat × W) :=
  let t := env.xTaskGetTickCount w
  OWResetWait_loop env fuel addr t.1 fuel t.2

/-- The function `OWWriteByte`. -/
def OWWriteByte (env : Env W) (fuel addr wrByte : Nat) (w : W) : Option (Nat × W) :=
  match OWBusyWait env fuel addr w with
  | none => none
  | some ((ret, _), w1) =>
    if ret = 1 then some (1, w1)
    else some (1, (env.SW_I2C_Write_8addr addr OWDSWriteByteCommand [wrByte % 256] w1).2)

/-- The function `OWDReset`. -/
def OWDReset (env : Env W) (fuel addr : Nat) (w : W) : Option (Nat × W) :=
  let wr := env.SW_I2C_Write_8addr addr OWDSDeviceResetCommand [] w
  match OWBusyWait env fuel addr wr.2 with
  | none => none
  | some ((ret, status), w1) =>
    if ret = 1 then some (1, w1) else some (status &&& STATUS_RST, w1)

/-- The function `DS2482_search_triplet`. The direction byte `hak[0]` is
computed but the transfer that is issued carries no data byte. -/
def DS2482_search_triplet (env : Env W) (fuel addr search_direction : Nat) (w : W) :
    Option (Nat × W) :=
  match OWBusyWait env fuel addr w with
  | none => none
  | some ((ret, _), w1) =>
    if ret = 1 then some (1, w1)
    else
      let _hak0 : Nat := if search_direction ≠ 0 then 0x80 else 0x00
      let wr := env.SW_I2C_Write_8addr addr OWDSTriplet [] w1
      match OWBusyWait env fuel addr wr.2 with
      | none => none
      | some ((ret2, status), w2) =>
        if ret2 = 1 then some (1, w2) else some (status, w2)

/-! ## Bridge configuration (`DS2480Config` of `wire.h`) -/

/-- The bit-field structure `DS2480Config`, fields in declaration order
(bit 0 first). `nAPU`, `nSPU`, `nWS` are the inverted fields that the header
spells with underlined letters. -/
structure DS2480Config where
  APU : Bool
  res_0 : Bool
  SPU : Bool
  WS : Bool
  nAPU : Bool
  res_1 : Bool
  nSPU : Bool
  nWS : Bool
deriving DecidableEq

/-- The byte that `(u8*)pDSconfig` points to. -/
def DS2480Config.toByte (c : DS2480Config) : Nat :=
  (if c.APU then 1 else 0) + (if c.res_0 then 2 else 0) + (if c.SPU then 4 else 0)
    + (if c.WS then 8 else 0) + (if c.nAPU then 16 else 0) + (if c.res_1 then 32 else 0)
    + (if c.nSPU then 64 else 0) + (if c.nWS then 128 else 0)

/-- The structure that a byte read into `(u8*)&tmp` denotes. -/
def DS2480Config.ofByte (b : Nat) : DS2480Config where
  APU := b.testBit 0
  res_0 := b.testBit 1
  SPU := b.testBit 2
  WS := b.testBit 3
  nAPU := b.testBit 4
  res_1 := b.testBit 5
  nSPU := b.testBit 6
  nWS := b.testBit 7

/-- The first five statements of `OWDWriteConfig`: fill in the inverted and
the reserved fields. -/
def DS2480Config.complete (c : DS2480Config) : DS2480Config :=
  { c with nAPU := !c.APU, nSPU := !c.SPU, nWS := !c.WS, res_0 := false, res_1 := true }

/-- The function `OWDWriteConfig`: result code and the caller's structure as
the call leaves it. -/
def OWDWriteConfig (env : Env W) (fuel addr : Nat) (pDSconfig : DS2480Config) (w : W) :
    Option ((Nat × DS2480Config) × W) :=
  let c := pDSconfig.complete
  match OWBusyWait env fuel addr w with
  | none => none
  | some ((ret, _), w1) =>
    if ret = 1 then some ((1, c), w1)
    else
      let wr := env.SW_I2C_Write_8addr addr OWDSConfig [c.toByte] w1
      let rd := env.SW_I2C_Read_Noaddr addr wr.2
      let tmp := DS2480Config.ofByte (rd.1.2 % 256)
      if tmp.APU = c.APU ∧ tmp.SPU = c.SPU ∧ tmp.WS = c.WS ∧ tmp.res_0 = false then
        some ((0, c), rd.2)
      else some ((1, c), rd.2)

end Bridge

/-! ## ROM search engine -/

/-- The three callees through which `OWSearch` reaches the bus. -/
structure Bus (W : Type) where
  OWReset : W → Option (Bool × W)
  OWWriteByte : Nat → W → Option (Nat × W)
  DS2482_search_triplet : Nat → W → Option (Nat × W)

/-- The callees as `wire.c` defines them, over an environment. -/
def realBus {W : Type} (env : Env W) (fuel addr : Nat) : Bus W where
  OWReset := OWReset env fuel addr
  OWWriteByte := OWWriteByte env fuel addr
  DS2482_search_triplet := DS2482_search_triplet env fuel addr

/-- The locals of `OWSearch` that live across iterations of its loop. -/
structure Locals where
  id_bit_number : Nat
  last_zero : Nat
  rom_byte_number : Nat
  rom_byte_mask : Nat
deriving DecidableEq

/-- The locals as `OWSearch` initialises them. -/
def Locals.init : Locals := ⟨1, 0, 0, 1⟩

/-- The locals at the start of the loop iteration for the 0-based bit
position `p`, with `last_zero = lz`: `id_bit_number = p + 1`, byte index
`p / 8`, mask `1 << (p % 8)`. -/
def locAt (p lz : Nat) : Locals := ⟨p + 1, lz, p / 8, 2 ^ (p % 8)⟩

/-- A triplet status with both read bits set: no device answered. -/
def noDevice (status : Nat) : Prop := status &&& 32 = 32 ∧ status &&& 64 = 64

instance (status : Nat) : Decidable (noDevice status) := by
  unfold noDevice; infer_instance

section Search
variable {W : Type}

/-- The direction `OWSearch` passes to the triplet for the current bit. -/
def searchDirection (l : Locals) (s : State) : Nat :=
  if l.id_bit_number < s.LastDiscrepancy then
    (if (s.ROM_NO.getD l.rom_byte_number 0 &&& l.rom_byte_mask) > 0 then 1 else 0)
  else
    (if l.id_bit_number = s.LastDiscrepancy then 1 else 0)

/-- The flag `id_bit` decoded from a triplet status. -/
def idBit (status : Nat) : Bool := decide (status &&& STATUS_SBR = STATUS_SBR)

/-- The flag `cmp_id_bit` decoded from a triplet status. -/
def cmpIdBit (status : Nat) : Bool := decide (status &&& STATUS_TSB = STATUS_TSB)

/-- The direction written, decoded from a triplet status. -/
def dirBit (status : Nat) : Nat := if status &&& STATUS_DIR = STATUS_DIR then 1 else 0

/-- The `else` branch of the loop body of `OWSearch`, for a status that does
not have both read bits set: record a zero-discrepancy, store the direction
in `ROM_NO`, advance the counters. -/
def OWSearch_advance (l : Locals) (s : State) (status : Nat) : Locals × State :=
  let search_direction := dirBit status
  let zero := idBit status = false ∧ cmpIdBit status = false ∧ search_direction = 0
  let last_zero := if zero then l.id_bit_number else l.last_zero
  let lfd := if zero ∧ last_zero < 9 then last_zero else s.LastFamilyDiscrepancy
  let old := s.ROM_NO.getD l.rom_byte_number 0
  let byte :=
    if search_direction = 1 then (old ||| l.rom_byte_mask) % 256
    else (old &&& (255 ^^^ l.rom_byte_mask)) % 256
  let rom := s.ROM_NO.set l.rom_byte_number byte
  let mask := (l.rom_byte_mask <<< 1) % 256
  let l1 : Locals :=
    if mask = 0 then ⟨l.id_bit_number + 1, last_zero, l.rom_byte_number + 1, 1⟩
    else ⟨l.id_bit_number + 1, last_zero, l.rom_byte_number, mask⟩
  (l1, { s with ROM_NO := rom, LastFamilyDiscrepancy := lfd })

/-- The `do ... while (rom_byte_number < 8)` loop of `OWSearch`. -/
def OWSearch_loop (bus : Bus W) : Nat → Locals → State → W → Option (Locals × State × W)
  | 0, _, _, _ => none
  | fuel + 1, l, s, w =>
    match bus.DS2482_search_triplet (searchDirection l s) w with
    | none => none
    | some (status, w1) =>
      if idBit status = true ∧ cmpIdBit status = true then some (l, s, w1)
      else
        let p := OWSearch_advance l s status
        if p.1.rom_byte_number < 8 then OWSearch_loop bus fuel p.1 p.2 w1
        else some (p.1, p.2, w1)

/-- The store `OWIDU[iter].ID8[j] = v`. -/
def State.storeID8 (s : State) (j v : Nat) : State :=
  if s.iter < OWID_MAX_ELEMENTS then
    { s with OWIDU := s.OWIDU.set s.iter ((s.OWIDU.getD s.iter []).set j v) }
  else { s with oob := s.oob ++ [(s.iter, j, v)] }

/-- The loop `for (i=0, j=7; i<8; i++, j--) OWIDU[iter].ID8[j] = ROM_NO[i]`. -/
def State.saveROM (s : State) : State :=
  (List.range 8).foldl (fun t i => t.storeID8 (7 - i) (t.ROM_NO.getD i 0)) s

/-- The part of `OWSearch` after the `if (!LastDeviceFlag)` block, entered
with the value of `search_result`. -/
def OWSearch_finish (search_result : Bool) (s : State) : Nat × State :=
  if search_result = false ∨ s.ROM_NO.getD 0 0 = 0 then
    (0, { s with LastDiscrepancy := 0, LastDeviceFlag := false, LastFamilyDiscrepancy := 0,
                 iter := 0 })
  else
    let s1 := s.saveROM
    let s2 := { s1 with iter := (s1.iter + 1) % 256 }
    if s2.LastDeviceFlag = true then (2, { s2 with iter := 0 })
    else (1, s2)

/-- The part of `OWSearch` that follows its loop, entered with the locals
and the state the loop left: a walk that went through all 64 bits
(`id_bit_number` not below 65) sets `LastDiscrepancy`, `LastDeviceFlag` and
`search_result`. -/
def OWSearch_tail (l : Locals) (s : State) : Nat × State :=
  if ¬ (l.id_bit_number < 65) then
    OWSearch_finish true
      { s with LastDiscrepancy := l.last_zero,
               LastDeviceFlag := if l.last_zero = 0 then true else s.LastDeviceFlag }
  else OWSearch_finish false s

/-- The function `OWSearch`. -/
def OWSearch (bus : Bus W) (fuel : Nat) (s : State) (w : W) : Option (Nat × State × W) :=
  let s0 := { s with crc8 := 0 }
  if s0.LastDeviceFlag = false then
    match bus.OWReset w with
    | none => none
    | some (false, w1) =>
      some (0, { s0 with LastDiscrepancy := 0, LastDeviceFlag := false,
                         LastFamilyDiscrepancy := 0 }, w1)
    | some (true, w1) =>
      match bus.OWWriteByte OWSearchCmd w1 with
      | none => none
      | some (_, w2) =>
        match OWSearch_loop bus fuel Locals.init s0 w2 with
        | none => none
        | some (l, s1, w3) => some ((OWSearch_tail l s1).1, (OWSearch_tail l s1).2, w3)
  else some ((OWSearch_finish false s0).1, (OWSearch_finish false s0).2, w)

/-- The function `OWFirst`. -/
def OWFirst (bus : Bus W) (fuel : Nat) (s : State) (w : W) : Option (Nat × State × W) :=
  OWSearch bus fuel
    { s with LastDiscrepancy := 0, LastDeviceFlag := false, LastFamilyDiscrepancy := 0 } w

/-- The function `OWNext`. -/
def OWNext (bus : Bus W) (fuel : Nat) (s : State) (w : W) : Option (Nat × State × W) :=
  OWSearch bus fuel s w

/-- The loop `while (OWNext() != 0);` of `OWDeviceSearch`; returns the result
codes of the calls it made, the final 0 included. -/
def OWNext_loop (bus : Bus W) (fuel : Nat) : Nat → State → W → Option (List Nat × State × W)
  | 0, _, _ => none
  | n + 1, s, w =>
    match OWNext bus fuel s w with
    | none => none
    | some (r, s1, w1) =>
      if r ≠ 0 then
        match OWNext_loop bus fuel n s1 w1 with
        | none => none
        | some (rs, s2, w2) => some (r :: rs, s2, w2)
      else some ([r], s1, w1)

/-- A full enumeration pass: `OWFirst`, then, when it found a device,
`OWNext` until it returns 0. Returns the result codes of all calls made. -/
def OWPass (bus : Bus W) (fuel : Nat) (s : State) (w : W) : Option (List Nat × State × W) :=
  match OWFirst bus fuel s w with
  | none => none
  | some (r, s1, w1) =>
    if r ≠ 0 then
      match OWNext_loop bus fuel fuel s1 w1 with
      | none => none
      | some (rs, s2, w2) => some (r :: rs, s2, w2)
    else some ([r], s1, w1)

/-- The scan `for (result = 0; result < 16; result++) if (OWIDU[result].ID == 0) break;`
of `OWDeviceSearch`. -/
def scanCount (s : State) : Nat → Nat → Nat
  | 0, result => result
  | n + 1, result =>
    if result < OWID_MAX_ELEMENTS then
      (if s.slotID result = 0 then result else scanCount s n (result + 1))
    else result

/-- The function `OWDeviceSearch`. -/
def OWDeviceSearch (bus : Bus W) (fuel : Nat) (s : State) (w : W) : Option (Nat × State × W) :=
  match OWPass bus fuel s w with
  | none => none
  | some (rs, s1, w1) =>
    if rs.head? = some 0 then some (0, s1, w1)
    else some (scanCount s1 16 0, s1, w1)

/-- The loop `while (OWNext() != 0);` of `OWDeviceSearch` with a ghost
output: the content of `ROM_NO` after each call that returned a non-zero
code, that is, the identifier bytes of each device the call reported. -/
def OWNext_found (bus : Bus W) (fuel : Nat) : Nat → State → W → Option (List (List Nat) × State × W)
  | 0, _, _ => none
  | n + 1, s, w =>
    match OWNext bus fuel s w with
    | none => none
    | some (r, s1, w1) =>
      if r ≠ 0 then
        match OWNext_found bus fuel n s1 w1 with
        | none => none
        | some (ids, s2, w2) => some (s1.ROM_NO :: ids, s2, w2)
      else some ([], s1, w1)

/-- A full enumeration pass with the same ghost output: the identifier bytes
of the devices found by `OWFirst` and by the `OWNext` calls after it, in the
order of the calls. -/
def OWPass_found (bus : Bus W) (fuel : Nat) (s : State) (w : W) :
    Option (List (List Nat) × State × W) :=
  match OWFirst bus fuel s w with
  | none => none
  | some (r, s1, w1) =>
    if r ≠ 0 then
      match OWNext_found bus fuel fuel s1 w1 with
      | none => none
      | some (ids, s2, w2) => some (s1.ROM_NO :: ids, s2, w2)
    else some ([], s1, w1)

/-- The loop of `OWSearch` with a ghost output: for each iteration, the
locals with which it was entered and the status its triplet returned. -/
def OWSearch_loop_iters (bus : Bus W) :
    Nat → Locals → State → W → Option (List (Locals × Nat) × Locals × State × W)
  | 0, _, _, _ => none
  | fuel + 1, l, s, w =>
    match bus.DS2482_search_triplet (searchDirection l s) w with
    | none => none
    | some (status, w1) =>
      if idBit status = true ∧ cmpIdBit status = true then some ([(l, status)], l, s, w1)
      else
        let p := OWSearch_advance l s status
        if p.1.rom_byte_number < 8 then
          match OWSearch_loop_iters bus fuel p.1 p.2 w1 with
          | none => none
          | some (its, r) => some ((l, status) :: its, r)
        else some ([(l, status)], p.1, p.2, w1)

end Search

/-! ## Device registry access -/

/-- The loop `for (i = 0; i < len; i++) IDs[i] = OWIDU[i].ID` of `OWGetIDs`,
from index `i` with `n` rounds left: the values stored into `IDs` and the
indices of the reads that lie outside the 16 slots of `OWIDU`. Such a read
yields what the memory behind the array holds, `beyond i`. -/
def OWGetIDs_loop (s : State) (beyond : Nat → Nat) : Nat → Nat → List Nat × List Nat
  | 0, _ => ([], [])
  | n + 1, i =>
    let rest := OWGetIDs_loop s beyond n (i + 1)
    if i < OWID_MAX_ELEMENTS then (s.slotID i :: rest.1, rest.2)
    else (beyond i :: rest.1, i :: rest.2)

/-- The function `OWGetIDs`, for `len` below `2 ^ 31`: the content of
`IDs[0 .. len)` after the call, the value returned, and the indices of the
reads outside `OWIDU`. -/
def OWGetIDs (s : State) (beyond : Nat → Nat) (len : Nat) : List Nat × Int × List Nat :=
  let r := OWGetIDs_loop s beyond len 0
  (r.1, (len : Int), r.2)

/-- The loop of `OWAddr2Num`, from index `i` with `n` rounds left. -/
def OWAddr2Num_loop (s : State) (OWID : Nat) : Nat → Nat → Int
  | 0, _ => -1
  | n + 1, i => if s.slotID i = OWID then (i : Int) else OWAddr2Num_loop s OWID n (i + 1)

/-- The function `OWAddr2Num`. It takes the globals and returns only the
result: the function has no store. -/
def OWAddr2Num (s : State) (OWID : Nat) : Int := OWAddr2Num_loop s OWID OWID_MAX_ELEMENTS 0

/-! ## Sensor session: addressing a registered device -/

section Sensor
variable {W : Type}

/-- A run of consecutive `OWWriteByte` calls whose results are discarded. -/
def OWWriteBytes (env : Env W) (fuel addr : Nat) : List Nat → W → Option W
  | [], w => some w
  | b :: bs, w =>
    match OWWriteByte env fuel addr b w with
    | none => none
    | some (_, w1) => OWWriteBytes env fuel addr bs w1

/-- The bytes `OWIDU[deviceNumber].ID8[i]` for `i = 7, 6, ..., 0`, in the
order the loop `for (int i=7;i>=0;i--)` visits them. -/
def addressBytes (s : State) (deviceNumber : Nat) : List Nat :=
  (List.range 8).map (fun k => (s.OWIDU.getD deviceNumber []).getD (7 - k) 0)

/-- The function `DS18B20_init`, for a non-negative `deviceNumber`. The
scratchpad configuration byte is `ones = 0b11111`, `r0 = r1 = zero = 0`. -/
def DS18B20_init (env : Env W) (fuel : Nat) (s : State) (deviceNumber : Nat) (w : W) :
    Option (Nat × W) :=
  if deviceNumber ≥ OWID_MAX_ELEMENTS then some (0, w)
  else
    match OWResetWait env fuel s.OWDAddress w with
    | none => none
    | some (rw, w1) =>
      if rw = 1 then some (1, w1)
      else
        match OWWriteBytes env fuel s.OWDAddress
            ([OWMatchROMCmd] ++ addressBytes s deviceNumber
              ++ [OWWritePad, 0xFF, 0xFF, 0x1F, OWCopyPad]) w1 with
        | none => none
        | some w2 =>
          match OWDWriteConfig env fuel s.OWDAddress
              ⟨true, false, true, false, false, false, false, false⟩ w2 with
          | none => none
          | some (_, w3) => some (0, env.vTaskDelay 10 w3)

/-- One round of the read loop of `DS18B20_readTemp`: read-byte command,
delay, select the data register, read it. -/
def readDataByte (env : Env W) (addr : Nat) (w : W) : Nat × W :=
  let w1 := (env.SW_I2C_Write_8addr addr OWDSReadByteCommand [] w).2
  let w2 := env.vTaskDelay 2 w1
  let w3 := (env.SW_I2C_Write_8addr addr OWDSSetReadPtrCommand [DataReg] w2).2
  let r := env.SW_I2C_Read_Noaddr addr w3
  (r.1.2 % 256, r.2)

/-- The function `DS18B20_readTemp`, for a non-negative `deviceNumber`. The
result `(int)(temp*0.0625)` of a 16-bit `temp` is `temp / 16`. -/
def DS18B20_readTemp (env : Env W) (fuel : Nat) (s : State) (deviceNumber : Nat) (w : W) :
    Option (Nat × W) :=
  if deviceNumber ≥ OWID_MAX_ELEMENTS then some (0, w)
  else
    match OWResetWait env fuel s.OWDAddress w with
    | none => none
    | some (rw, w1) =>
      if rw = 1 then some (0, w1)
      else
        match OWWriteBytes env fuel s.OWDAddress
            ([OWMatchROMCmd] ++ addressBytes s deviceNumber ++ [OWConvertTCmd]) w1 with
        | none => none
        | some w2 =>
          match OWDWriteConfig env fuel s.OWDAddress
              ⟨true, false, true, false, false, false, false, false⟩ w2 with
          | none => none
          | some (_, w3) =>
            match OWResetWait env fuel s.OWDAddress (env.vTaskDelay 100 w3) with
            | none => none
            | some (rw2, w4) =>
              if rw2 = 1 then some (0, w4)
              else
                match OWWriteBytes env fuel s.OWDAddress
                    ([OWMatchROMCmd] ++ addressBytes s deviceNumber ++ [OWReadPad]) w4 with
                | none => none
                | some w5 =>
                  match OWBusyWait env fuel s.OWDAddress w5 with
                  | none => none
                  | some (_, w6) =>
                    let r0 := readDataByte env s.OWDAddress w6
                    let r1 := readDataByte env s.OWDAddress r0.2
                    let temp := ((r1.1 <<< 8) ||| r0.1) % 65536
                    some (temp / 16, r1.2)

end Sensor

/-! ## Test doubles: recording, replaying and simulating a bus -/

/-- What `OWSearch` did on the bus. -/
inductive BusEvent where
  | reset (presence : Bool)
  | write (byte : Nat)
  | triplet (search_direction status : Nat)
deriving DecidableEq

/-- A bus that behaves as `bus` and appends every call to a record. -/
def logBus {W : Type} (bus : Bus W) : Bus (W × List BusEvent) where
  OWReset := fun w =>
    match bus.OWReset w.1 with
    | none => none
    | some (r, w1) => some (r, (w1, w.2 ++ [BusEvent.reset r]))
  OWWriteByte := fun b w =>
    match bus.OWWriteByte b w.1 with
    | none => none
    | some (r, w1) => some (r, (w1, w.2 ++ [BusEvent.write b]))
  DS2482_search_triplet := fun d w =>
    match bus.DS2482_search_triplet d w.1 with
    | none => none
    | some (st, w1) => some (st, (w1, w.2 ++ [BusEvent.triplet d st]))

/-- A bus with a device present whose triplets return the status bytes of a
list, one after the other, and `0x60` (both read bits set) once the list is
used up. -/
def replayBus : Bus (List Nat) where
  OWReset := fun w => some (true, w)
  OWWriteByte := fun _ w => some (1, w)
  DS2482_search_triplet := fun _ w =>
    match w with
    | [] => some (0x60, [])
    | st :: rest => some (st, rest)

/-- ROM byte `i` (0 = family code, 7 = CRC) of the device whose registry
identifier is `id`: the registry keeps ROM byte `i` in `ID8[7 - i]`. -/
def romByte (id i : Nat) : Nat := (id / 256 ^ (7 - i)) % 256

/-- The bit a device with identifier `id` puts on the bus at position `p`
(0-based) of a search: ROM byte 0 first, least significant bit first. -/
def wireBit (id p : Nat) : Bool := (romByte id (p / 8)).testBit (p % 8)

/-- A simulated bus: the devices on it, those still participating in the
current search and the position of the next bit. -/
structure SimWorld where
  devices : List Nat
  active : List Nat
  pos : Nat
deriving DecidableEq

/-- The simulated bus. Reset reports presence iff there is a device and
readmits all devices. A triplet reads the wired-AND of the participating
devices' bits and of their complements, writes the bit the devices agree on
or, on a discrepancy, the direction it was given (1 when no device answers),
and drops the devices whose bit differs from the one written. -/
def simBus : Bus SimWorld where
  OWReset := fun w => some (decide (w.devices ≠ []), { w with active := w.devices, pos := 0 })
  OWWriteByte := fun _ w => some (1, w)
  DS2482_search_triplet := fun d w =>
    let id_bit := w.active.all (fun x => wireBit x w.pos)
    let cmp_id_bit := w.active.all (fun x => !wireBit x w.pos)
    let dir := if id_bit = cmp_id_bit then (if id_bit then true else decide (d ≠ 0)) else id_bit
    some ((if id_bit then 32 else 0) + (if cmp_id_bit then 64 else 0) + (if dir then 128 else 0),
      { w with active := w.active.filter (fun x => wireBit x w.pos == dir), pos := w.pos + 1 })

/-- The direction a simulated triplet writes at position `p` while the
devices `A` participate and `pref` is the direction it was given: the bit
all devices share, and `pref` when both a 0 and a 1 are present. -/
def simDir (A : List Nat) (p : Nat) (pref : Bool) : Bool :=
  if A.all (fun x => wireBit x p) then true
  else if A.all (fun x => !wireBit x p) then false
  else pref

/-- Bit `p` (0-based, in search order) of an 8-byte ROM buffer. -/
def getBit (rom : List Nat) (p : Nat) : Bool := (rom.getD (p / 8) 0).testBit (p % 8)

/-- The 8 ROM bytes of the device with identifier `id`, family code first. -/
def romOf (id : Nat) : List Nat := (List.range 8).map (romByte id)

/-- The value `last_zero` has after a walk that follows the device `y` from
bit position `p` through `n` bits while the devices `A` participate, when it
was `lz` before: the 1-based number of the last position where `y` has a 0
and a participating device has a 1. -/
def lzOf : Nat → Nat → List Nat → Nat → Nat → Nat
  | 0, _, _, _, lz => lz
  | n + 1, p, A, y, lz =>
    lzOf n (p + 1) (A.filter (fun x => wireBit x p == wireBit y p)) y
      (if wireBit y p = false ∧ A.any (fun x => wireBit x p) = true then p + 1 else lz)

/-- The devices of `A` have the bits of `x` at all positions below `p`. -/
def agreeBelow (A : List Nat) (p x : Nat) : Prop :=
  ∀ a ∈ A, ∀ q, q < p → wireBit a q = wireBit x q

/-- The loop of `OWSearch` entered at bit position `p` with `last_zero = lz`,
and the result of a loop that has gone through all bits when `p = 64`. -/
def OWSearch_loopFrom {W : Type} (bus : Bus W) (fuel p lz : Nat) (s : State) (w : W) :
    Option (Locals × State × W) :=
  if p < 64 then OWSearch_loop bus fuel (locAt p lz) s w else some (locAt p lz, s, w)

/-- The result codes of the calls of a pass with `m` devices still to be
found: 1 for a found device that is not the last, 2 for the last, and the
closing 0. -/
def passCodes : Nat → List Nat
  | 0 => [0]
  | 1 => [2, 0]
  | m + 2 => 1 :: passCodes (m + 1)

/-- The world of the simulated bus before any call. -/
def SimWorld.init (devices : List Nat) : SimWorld := ⟨devices, devices, 0⟩

/-- The order in which a depth-first walk of the identifier tree that takes
the 0 branch first at every discrepancy meets the devices, from bit position
`p` on with `n` bits left. -/
def searchOrder : Nat → Nat → List Nat → List Nat
  | 0, _, ds => ds.head?.toList
  | n + 1, p, ds =>
    if ds = [] then []
    else searchOrder n (p + 1) (ds.filter (fun x => !wireBit x p))
      ++ searchOrder n (p + 1) (ds.filter (fun x => wireBit x p))

/-- A scripted link: the tick source returns the values of `ticks` one after
the other (0 once used up), reads return the bytes of `reads` (0 once used
up), every transfer succeeds and every write is recorded. -/
structure Script where
  ticks : List Nat
  reads : List Nat
  writes : List (Nat × Nat × List Nat)
deriving DecidableEq

/-- An environment that behaves as `env` and records every write transfer as
(device address, command byte, data bytes). -/
def logEnv {W : Type} (env : Env W) : Env (W × List (Nat × Nat × List Nat)) where
  xTaskGetTickCount := fun w => ((env.xTaskGetTickCount w.1).1, ((env.xTaskGetTickCount w.1).2, w.2))
  SW_I2C_Write_8addr := fun addr cmd data w =>
    ((env.SW_I2C_Write_8addr addr cmd data w.1).1,
      ((env.SW_I2C_Write_8addr addr cmd data w.1).2, w.2 ++ [(addr, cmd, data)]))
  SW_I2C_Read_Noaddr := fun addr w =>
    ((env.SW_I2C_Read_Noaddr addr w.1).1, ((env.SW_I2C_Read_Noaddr addr w.1).2, w.2))
  vTaskDelay := fun n w => (env.vTaskDelay n w.1, w.2)

/-- The data bytes of the write-byte commands (`0xA5`) in a record of write
transfers: the bytes put on the 1-Wire bus. -/
def wireBytes (log : List (Nat × Nat × List Nat)) : List Nat :=
  log.filterMap (fun e => if e.2.1 = OWDSWriteByteCommand then e.2.2.head? else none)

/-- The link to the device `addr` behaves as an idle bridge with a device
present: every read succeeds with the busy flag clear and the presence flag
set, and every write transfer succeeds. -/
def Env.idle {W : Type} (env : Env W) (addr : Nat) : Prop :=
  (∀ w, (env.SW_I2C_Read_Noaddr addr w).1.1 = true
      ∧ (env.SW_I2C_Read_Noaddr addr w).1.2 % 256 &&& STATUS_BUSY = 0
      ∧ (env.SW_I2C_Read_Noaddr addr w).1.2 % 256 &&& STATUS_PPD ≠ 0)
    ∧ ∀ cmd data w, (env.SW_I2C_Write_8addr addr cmd data w).1 = true

/-- A link to an idle bridge with a device present: every transfer succeeds
and every status read has the presence flag set and the busy flag clear. -/
def idleEnv : Env Unit where
  xTaskGetTickCount := fun w => (0, w)
  SW_I2C_Write_8addr := fun _ _ _ w => (true, w)
  SW_I2C_Read_Noaddr := fun _ w => ((true, 0x02), w)
  vTaskDelay := fun _ w => w

/-- The typing invariant of the globals: `ROM_NO` is 8 bytes, `OWIDU` is 16
slots of 8 bytes, `iter` is a `u8`. -/
def State.wf (s : State) : Prop :=
  s.ROM_NO.length = 8 ∧ (∀ b ∈ s.ROM_NO, b < 256) ∧ s.OWIDU.length = 16
    ∧ (∀ id8 ∈ s.OWIDU, id8.length = 8 ∧ ∀ b ∈ id8, b < 256) ∧ s.iter < 256

instance (s : State) : Decidable s.wf := by
  unfold State.wf; infer_instance

/-- The environment of a scripted link. -/
def scriptEnv : Env Script where
  xTaskGetTickCount := fun w => (w.ticks.headD 0, { w with ticks := w.ticks.tail })
  SW_I2C_Write_8addr := fun addr cmd data w => (true, { w with writes := w.writes ++ [(addr, cmd, data)] })
  SW_I2C_Read_Noaddr := fun _ w => ((true, w.reads.headD 0), { w with reads := w.reads.tail })
  vTaskDelay := fun _ w => w

/-- The state that `OWFirst` leaves, starting from `State.init`, after it
found the only device `0x280000001234AB7E` of a simulated bus. -/
def State.oneFound : State where
  ROM_NO := [0x28, 0, 0, 0, 0x12, 0x34, 0xAB, 0x7E]
  OWIDU := [0x7E, 0xAB, 0x34, 0x12, 0, 0, 0, 0x28] :: List.replicate 15 (List.replicate 8 0)
  oob := []
  crc8 := 0
  LastDiscrepancy := 0
  LastFamilyDiscrepancy := 0
  LastDeviceFlag := true
  OWDAddress := 0x30
  iter := 0

/-- Three devices for a simulated bus, two of family `0x28` and one of
family `0x10`. -/
def threeDevices : List Nat := [0x280000001234AB7E, 0x28000000AAAA0001, 0x10FF00000000BEEF]

/-- A scripted link for one `OWSearch` call: the reset sees a presence pulse,
the busy-wait that opens the first triplet reads a busy status and then a
tick 11 units after its start, and the other 63 triplets answer `0xA0`
(bit read 1, complement 0, direction 1). The tick source stays at 11 from
then on. -/
def stuckFirstTriplet : Script :=
  ⟨[0, 0, 0] ++ List.replicate 127 11,
    [0x02, 0x02, 0x00, 0x01] ++ (List.replicate 63 [0x00, 0xA0]).flatten, []⟩

/-- A scripted link on which the busy-wait of `OWDWriteConfig` times out. -/
def configTimeout : Script := ⟨[0, 11], [0x01], []⟩

/-- A scripted link on which the busy-wait of `OWDWriteConfig` succeeds and
the configuration reads back as `0x00`. -/
def configMismatch : Script := ⟨[0], [0x00, 0x00], []⟩

/-- What the driver did on the link. -/
inductive LinkEvent where
  | tick (t : Nat)
  | write (addr cmd : Nat) (data : List Nat) (ok : Bool)
  | read (addr : Nat) (ok : Bool) (byte : Nat)
  | delay (n : Nat)
deriving DecidableEq

/-- An environment that behaves as `env` and records every call with its
result. -/
def traceEnv {W : Type} (env : Env W) : Env (W × List LinkEvent) where
  xTaskGetTickCount := fun w =>
    ((env.xTaskGetTickCount w.1).1,
      ((env.xTaskGetTickCount w.1).2, w.2 ++ [LinkEvent.tick (env.xTaskGetTickCount w.1).1]))
  SW_I2C_Write_8addr := fun addr cmd data w =>
    ((env.SW_I2C_Write_8addr addr cmd data w.1).1,
      ((env.SW_I2C_Write_8addr addr cmd data w.1).2,
        w.2 ++ [LinkEvent.write addr cmd data (env.SW_I2C_Write_8addr addr cmd data w.1).1]))
  SW_I2C_Read_Noaddr := fun addr w =>
    ((env.SW_I2C_Read_Noaddr addr w.1).1,
      ((env.SW_I2C_Read_Noaddr addr w.1).2,
        w.2 ++ [LinkEvent.read addr (env.SW_I2C_Read_Noaddr addr w.1).1.1
          (env.SW_I2C_Read_Noaddr addr w.1).1.2]))
  vTaskDelay := fun n w => (env.vTaskDelay n w.1, w.2 ++ [LinkEvent.delay n])

/-- The tick counter of `env` keeps advancing: the worlds carry a clock, a
tick read returns the clock modulo `2 ^ 32`, the clock is at least one tick
further after a tick read, never runs backwards during a transfer with the
device `addr`, and no single call takes more than `2 ^ 20` ticks. -/
def Env.ticking {W : Type} (env : Env W) (addr : Nat) (clock : W → Nat) : Prop :=
  (∀ w, (env.xTaskGetTickCount w).1 % 4294967296 = clock w % 4294967296
      ∧ clock w + 1 ≤ clock (env.xTaskGetTickCount w).2
      ∧ clock (env.xTaskGetTickCount w).2 ≤ clock w + 1048576)
    ∧ (∀ w, clock w ≤ clock (env.SW_I2C_Read_Noaddr addr w).2
      ∧ clock (env.SW_I2C_Read_Noaddr addr w).2 ≤ clock w + 1048576)
    ∧ ∀ cmd data w, clock w ≤ clock (env.SW_I2C_Write_8addr addr cmd data w).2
      ∧ clock (env.SW_I2C_Write_8addr addr cmd data w).2 ≤ clock w + 1048576

/-- A link to a bridge that stays busy: the world is the clock, a tick read
takes one tick, every transfer succeeds and every read returns `0x01`. -/
def busyEnv : Env Nat where
  xTaskGetTickCount := fun w => (w % 4294967296, w + 1)
  SW_I2C_Write_8addr := fun _ _ _ w => (true, w)
  SW_I2C_Read_Noaddr := fun _ w => ((true, 0x01), w)
  vTaskDelay := fun n w => w + n

/-- A link on which no device acknowledges: every transfer fails, a read
leaves `0xFF` in the buffer, the tick counter runs as in `busyEnv`. -/
def deafEnv : Env Nat where
  xTaskGetTickCount := fun w => (w % 4294967296, w + 1)
  SW_I2C_Write_8addr := fun _ _ _ w => (false, w)
  SW_I2C_Read_Noaddr := fun _ w => ((false, 0xFF), w)
  vTaskDelay := fun n w => w + n

/-- A bus whose resets report the presence values of a list, one after the
other (no presence once the list is used up), and whose triplets return the
status bytes of a second list as `replayBus` does. -/
def presenceBus : Bus (List Bool × List Nat) where
  OWReset := fun w => some (w.1.headD false, (w.1.tail, w.2))
  OWWriteByte := fun _ w => some (1, w)
  DS2482_search_triplet := fun _ w =>
    match w.2 with
    | [] => some (0x60, (w.1, []))
    | st :: rest => some (st, (w.1, rest))

/-- A scripted bus for two passes. First pass: `OWFirst` finds the device
with ROM bytes `FE FF FF FF FF FF FF FF` after a discrepancy at the first
position, and the reset of the following `OWNext` sees no presence pulse.
Second pass: `OWFirst` finds the only device, with ROM bytes all `0xFF`. -/
def lostPresence : List Bool × List Nat :=
  ([true, false, true], [0x00] ++ List.replicate 63 0xA0 ++ List.replicate 64 0xA0)

/-- The state that `OWSearch` leaves, starting from `State.init`, after a
walk that took the 0 branch at a discrepancy at position 1 and read 1 at the
other 63 positions. -/
def State.branchFound : State where
  ROM_NO := [0xFE, 0xFF, 0xFF, 0xFF, 0xFF, 0xFF, 0xFF, 0xFF]
  OWIDU := [0xFF, 0xFF, 0xFF, 0xFF, 0xFF, 0xFF, 0xFF, 0xFE] :: List.replicate 15 (List.replicate 8 0)
  oob := []
  crc8 := 0
  LastDiscrepancy := 1
  LastFamilyDiscrepancy := 1
  LastDeviceFlag := false
  OWDAddress := 0x30
  iter := 1

/-- Seventeen devices of family `0x28` for a simulated bus, with serial
numbers 0 to 16. -/
def seventeenDevices : List Nat := (List.range 17).map (fun i => 0x2800000000000000 + i)

/-- The statuses of a walk that reads 0 at the first eight positions and 1 at
the other 56: the device has family code `0x00` and `0xFF` in the seven other
ROM bytes. -/
def zeroFamilyWalk : List Nat := List.replicate 8 0x40 ++ List.replicate 56 0xA0

/-- The relevant part of the Search State: the working ROM buffer,
`LastDiscrepancy`, `LastFamilyDiscrepancy` and `LastDeviceFlag`. -/
def State.search (s : State) : List Nat × Nat × Nat × Bool :=
  (s.ROM_NO, s.LastDiscrepancy, s.LastFamilyDiscrepancy, s.LastDeviceFlag)

/-- The typing invariant of the working ROM buffer: 8 bytes. -/
def State.romOK (s : State) : Prop := s.ROM_NO.length = 8 ∧ ∀ b ∈ s.ROM_NO, b < 256

instance (s : State) : Decidable s.romOK := by
  unfold State.romOK; infer_instance

/-! # Properties -/

section
variable {W : Type}

/-! ## Basic facts about the tail of `OWSearch` -/

theorem storeID8_fields (s : State) (j v : Nat) :
    (s.storeID8 j v).ROM_NO = s.ROM_NO ∧ (s.storeID8 j v).LastDiscrepancy = s.LastDiscrepancy
    ∧ (s.storeID8 j v).LastFamilyDiscrepancy = s.LastFamilyDiscrepancy
    ∧ (s.storeID8 j v).LastDeviceFlag = s.LastDeviceFlag ∧ (s.storeID8 j v).iter = s.iter
    ∧ (s.storeID8 j v).crc8 = s.crc8 ∧ (s.storeID8 j v).OWDAddress = s.OWDAddress := by
  unfold State.storeID8
  split_ifs <;> simp

theorem saveROM_eq (s : State) :
    s.saveROM = ((((((((s.storeID8 7 (s.ROM_NO.getD 0 0)).storeID8 6 (s.ROM_NO.getD 1 0)).storeID8 5
      (s.ROM_NO.getD 2 0)).storeID8 4 (s.ROM_NO.getD 3 0)).storeID8 3 (s.ROM_NO.getD 4 0)).storeID8 2
      (s.ROM_NO.getD 5 0)).storeID8 1 (s.ROM_NO.getD 6 0)).storeID8 0 (s.ROM_NO.getD 7 0)) := by
  simp [State.saveROM, List.range_succ, storeID8_fields]

theorem saveROM_fields (s : State) :
    s.saveROM.ROM_NO = s.ROM_NO ∧ s.saveROM.LastDiscrepancy = s.LastDiscrepancy
    ∧ s.saveROM.LastFamilyDiscrepancy = s.LastFamilyDiscrepancy
    ∧ s.saveROM.LastDeviceFlag = s.LastDeviceFlag ∧ s.saveROM.iter = s.iter
    ∧ s.saveROM.crc8 = s.crc8 ∧ s.saveROM.OWDAddress = s.OWDAddress := by
  rw [saveROM_eq]
  simp [storeID8_fields]

theorem OWSearch_finish_none (b : Bool) (t : State) (h : b = false ∨ t.ROM_NO.getD 0 0 = 0) :
    OWSearch_finish b t
      = (0, { t with LastDiscrepancy := 0, LastDeviceFlag := false,
                     LastFamilyDiscrepancy := 0, iter := 0 }) := by
  unfold OWSearch_finish
  rw [if_pos h]

theorem OWSearch_finish_last (t : State) (h : t.ROM_NO.getD 0 0 ≠ 0)
    (hf : t.LastDeviceFlag = true) :
    OWSearch_finish true t = (2, { t.saveROM with iter := 0 }) := by
  unfold OWSearch_finish
  rw [if_neg (by rintro (h1 | h1); exact absurd h1 (by simp); exact h h1)]
  dsimp only
  rw [(saveROM_fields t).2.2.2.1]
  rw [if_pos hf]

theorem OWSearch_finish_more (t : State) (h : t.ROM_NO.getD 0 0 ≠ 0)
    (hf : t.LastDeviceFlag = false) :
    OWSearch_finish true t = (1, { t.saveROM with iter := (t.iter + 1) % 256 }) := by
  unfold OWSearch_finish
  rw [if_neg (by rintro (h1 | h1); exact absurd h1 (by simp); exact h h1)]
  dsimp only
  rw [(saveROM_fields t).2.2.2.1, (saveROM_fields t).2.2.2.2.1]
  rw [if_neg (by simp [hf])]

theorem OWSearch_finish_two (b : Bool) (t : State) (h : (OWSearch_finish b t).1 = 2) :
    (OWSearch_finish b t).2.LastDeviceFlag = true := by
  by_cases h1 : b = false ∨ t.ROM_NO.getD 0 0 = 0
  · rw [OWSearch_finish_none b t h1] at h
    simp at h
  · have hb : b = true := by
      cases b
      · simp at h1
      · rfl
    subst hb
    have h0 : t.ROM_NO.getD 0 0 ≠ 0 := fun h0 => h1 (Or.inr h0)
    cases hf : t.LastDeviceFlag
    · rw [OWSearch_finish_more t h0 hf] at h
      simp at h
    · rw [OWSearch_finish_last t h0 hf]
      dsimp only
      rw [(saveROM_fields t).2.2.2.1, hf]

theorem OWSearch_tail_two (l : Locals) (t : State) (h : (OWSearch_tail l t).1 = 2) :
    (OWSearch_tail l t).2.LastDeviceFlag = true := by
  unfold OWSearch_tail at h ⊢
  split_ifs at h ⊢ <;> exact OWSearch_finish_two _ _ h

theorem OWSearch_two (bus : Bus W) (fuel : Nat) (s : State) (w : W) (s1 : State)
    (w1 : W) (h : OWSearch bus fuel s w = some (2, s1, w1)) : s1.LastDeviceFlag = true := by
  unfold OWSearch at h
  dsimp only at h
  split_ifs at h with h1
  · split at h
    · simp at h
    · simp at h
    · split at h
      · simp at h
      · split at h
        · simp at h
        · simp only [Option.some.injEq, Prod.mk.injEq] at h
          obtain ⟨h2, rfl, -⟩ := h
          exact OWSearch_tail_two _ _ h2
  · simp only [Option.some.injEq, Prod.mk.injEq] at h
    obtain ⟨h2, rfl, -⟩ := h
    exact OWSearch_finish_two _ _ h2

theorem OWSearch_no_presence (bus : Bus W) (fuel : Nat) (s : State) (w w1 : W)
    (hflag : s.LastDeviceFlag = false) (hreset : bus.OWReset w = some (false, w1)) :
    OWSearch bus fuel s w
      = some (0, { s with crc8 := 0, LastDiscrepancy := 0, LastFamilyDiscrepancy := 0 }, w1) := by
  cases s
  simp_all [OWSearch]

theorem OWSearch_flag_set (bus : Bus W) (fuel : Nat) (t : State) (v : W)
    (h : t.LastDeviceFlag = true) :
    OWSearch bus fuel t v
      = some (0, { t with crc8 := 0, LastDiscrepancy := 0, LastFamilyDiscrepancy := 0,
                          LastDeviceFlag := false, iter := 0 }, v) := by
  unfold OWSearch
  dsimp only
  rw [if_neg (by simp [h]), OWSearch_finish_none _ _ (Or.inl rfl)]

/-! ## The loop of `OWSearch` -/

theorem mask_shift (p : Nat) :
    (2 ^ (p % 8) <<< 1) % 256 = if p % 8 = 7 then 0 else 2 ^ ((p + 1) % 8) := by
  have h : p % 8 < 8 := Nat.mod_lt _ (by decide)
  have h2 : (p + 1) % 8 = if p % 8 = 7 then 0 else p % 8 + 1 := by split_ifs <;> omega
  rw [h2]
  interval_cases p % 8 <;> simp

theorem advance_locals (p lz : Nat) (s : State) (status : Nat) :
    (OWSearch_advance (locAt p lz) s status).1
      = locAt (p + 1) (if idBit status = false ∧ cmpIdBit status = false ∧ dirBit status = 0
          then p + 1 else lz) := by
  unfold OWSearch_advance locAt
  dsimp only
  rw [mask_shift]
  by_cases h : p % 8 = 7
  · have h1 : (p + 1) / 8 = p / 8 + 1 := by omega
    have h2 : (p + 1) % 8 = 0 := by omega
    simp [h, h1, h2]
  · have h1 : (p + 1) / 8 = p / 8 := by omega
    have h3 : 2 ^ ((p + 1) % 8) ≠ 0 := by positivity
    simp [h, h1, h3]

theorem noDevice_iff (st : Nat) : (idBit st = true ∧ cmpIdBit st = true) ↔ noDevice st := by
  simp [idBit, cmpIdBit, noDevice]

/-- One iteration of the loop of `OWSearch` at bit position `p`. -/
theorem OWSearch_loop_step (bus : Bus W) (fuel p lz : Nat) (s : State) (w : W) :
    OWSearch_loop bus (fuel + 1) (locAt p lz) s w =
      match bus.DS2482_search_triplet (searchDirection (locAt p lz) s) w with
      | none => none
      | some (st, w1) =>
        if noDevice st then some (locAt p lz, s, w1)
        else if p + 1 < 64 then
          OWSearch_loop bus fuel (OWSearch_advance (locAt p lz) s st).1
            (OWSearch_advance (locAt p lz) s st).2 w1
        else some ((OWSearch_advance (locAt p lz) s st).1,
          (OWSearch_advance (locAt p lz) s st).2, w1) := by
  rw [OWSearch_loop]
  cases h : bus.DS2482_search_triplet (searchDirection (locAt p lz) s) w with
  | none => rfl
  | some r =>
    obtain ⟨st, w1⟩ := r
    dsimp only
    simp only [noDevice_iff]
    have e : (OWSearch_advance (locAt p lz) s st).1.rom_byte_number < 8 ↔ p + 1 < 64 := by
      rw [advance_locals]
      simp only [locAt]
      omega
    simp only [e]

theorem advance_fields (l : Locals) (s : State) (st : Nat) :
    (OWSearch_advance l s st).2.OWIDU = s.OWIDU ∧ (OWSearch_advance l s st).2.oob = s.oob
    ∧ (OWSearch_advance l s st).2.iter = s.iter
    ∧ (OWSearch_advance l s st).2.LastDiscrepancy = s.LastDiscrepancy
    ∧ (OWSearch_advance l s st).2.LastDeviceFlag = s.LastDeviceFlag
    ∧ (OWSearch_advance l s st).2.crc8 = s.crc8
    ∧ (OWSearch_advance l s st).2.OWDAddress = s.OWDAddress :=
  ⟨rfl, rfl, rfl, rfl, rfl, rfl, rfl⟩

/-- What the loop of `OWSearch` leaves on a recording bus: the registry and
`iter` are untouched, only triplets are recorded, and either the walk went
through bit 64 and no recorded status had both read bits set, or it stopped
below 65 at the first such status, which is the last event. -/
theorem OWSearch_loop_log (bus : Bus W) :
    ∀ (fuel p lz : Nat) (s : State) (w : W) (log : List BusEvent) (l1 : Locals) (s1 : State)
      (w1 : W) (log1 : List BusEvent), p < 64 →
      OWSearch_loop (logBus bus) fuel (locAt p lz) s (w, log) = some (l1, s1, (w1, log1)) →
      (s1.OWIDU = s.OWIDU ∧ s1.oob = s.oob ∧ s1.iter = s.iter
        ∧ s1.LastDiscrepancy = s.LastDiscrepancy ∧ s1.LastDeviceFlag = s.LastDeviceFlag)
      ∧ ∃ evs, log1 = log ++ evs
        ∧ ((l1.id_bit_number = 65
            ∧ ∀ e ∈ evs, ∃ d st, e = BusEvent.triplet d st ∧ ¬ noDevice st)
          ∨ (l1.id_bit_number < 65 ∧ ∃ pre d st, evs = pre ++ [BusEvent.triplet d st]
            ∧ noDevice st ∧ ∀ e ∈ pre, ∃ d st, e = BusEvent.triplet d st ∧ ¬ noDevice st)) := by
  intro fuel
  induction fuel with
  | zero => intro p lz s w log l1 s1 w1 log1 _ h; simp [OWSearch_loop] at h
  | succ n ih =>
    intro p lz s w log l1 s1 w1 log1 hp h
    rw [OWSearch_loop_step] at h
    cases hb : bus.DS2482_search_triplet (searchDirection (locAt p lz) s) w with
    | none => simp [logBus, hb] at h
    | some r =>
      obtain ⟨st, w2⟩ := r
      simp only [logBus, hb] at h
      split_ifs at h with h1 h2
      · simp only [Option.some.injEq, Prod.mk.injEq] at h
        obtain ⟨rfl, rfl, rfl, rfl⟩ := h
        refine ⟨⟨rfl, rfl, rfl, rfl, rfl⟩, _, rfl, Or.inr ⟨?_, [], _, st, rfl, h1, ?_⟩⟩
        · simp only [locAt]; omega
        · intro e he; simp at he
      · rw [advance_locals] at h
        obtain ⟨hf, evs, hlog, hcase⟩ := ih _ _ _ _ _ _ _ _ _ h2 h
        refine ⟨hf, BusEvent.triplet (searchDirection (locAt p lz) s) st :: evs,
          by simp [hlog], ?_⟩
        rcases hcase with ⟨h65, hall⟩ | ⟨h65, pre, d, st2, hevs, hnd, hall⟩
        · left
          refine ⟨h65, ?_⟩
          intro e he
          rcases List.mem_cons.1 he with rfl | he
          · exact ⟨_, _, rfl, h1⟩
          · exact hall e he
        · right
          refine ⟨h65, BusEvent.triplet (searchDirection (locAt p lz) s) st :: pre, d, st2,
            by simp [hevs], hnd, ?_⟩
          intro e he
          rcases List.mem_cons.1 he with rfl | he
          · exact ⟨_, _, rfl, h1⟩
          · exact hall e he
      · simp only [Option.some.injEq, Prod.mk.injEq] at h
        obtain ⟨rfl, rfl, rfl, rfl⟩ := h
        refine ⟨⟨rfl, rfl, rfl, rfl, rfl⟩, _, rfl, Or.inl ⟨?_, ?_⟩⟩
        · rw [advance_locals]
          simp only [locAt]
          omega
        · intro e he
          simp only [List.mem_singleton] at he
          exact ⟨_, _, he, h1⟩

/-- The ROM part of the typing invariant. -/
theorem advance_rom (l : Locals) (s : State) (st : Nat)
    (h : s.ROM_NO.length = 8 ∧ ∀ b ∈ s.ROM_NO, b < 256) :
    (OWSearch_advance l s st).2.ROM_NO.length = 8
    ∧ ∀ b ∈ (OWSearch_advance l s st).2.ROM_NO, b < 256 := by
  unfold OWSearch_advance
  dsimp only
  refine ⟨by simp [h.1], ?_⟩
  intro b hb
  rcases List.mem_or_eq_of_mem_set hb with hb | hb
  · exact h.2 b hb
  · subst hb
    split_ifs <;> exact Nat.mod_lt _ (by decide)

theorem OWSearch_loop_fields (bus : Bus W) :
    ∀ (fuel : Nat) (l : Locals) (s : State) (w : W) (l1 : Locals) (s1 : State) (w1 : W),
      OWSearch_loop bus fuel l s w = some (l1, s1, w1) →
      (s1.OWIDU = s.OWIDU ∧ s1.oob = s.oob ∧ s1.iter = s.iter
        ∧ s1.LastDiscrepancy = s.LastDiscrepancy ∧ s1.LastDeviceFlag = s.LastDeviceFlag
        ∧ s1.crc8 = s.crc8 ∧ s1.OWDAddress = s.OWDAddress)
      ∧ ((s.ROM_NO.length = 8 ∧ ∀ b ∈ s.ROM_NO, b < 256) →
          (s1.ROM_NO.length = 8 ∧ ∀ b ∈ s1.ROM_NO, b < 256)) := by
  intro fuel
  induction fuel with
  | zero => intro l s w l1 s1 w1 h; simp [OWSearch_loop] at h
  | succ n ih =>
    intro l s w l1 s1 w1 h
    rw [OWSearch_loop] at h
    split at h
    · simp at h
    · rename_i st w2 hb
      dsimp only at h
      split_ifs at h with h1 h2
      · simp only [Option.some.injEq, Prod.mk.injEq] at h
        obtain ⟨rfl, rfl, rfl⟩ := h
        exact ⟨⟨rfl, rfl, rfl, rfl, rfl, rfl, rfl⟩, id⟩
      · obtain ⟨hf, hrom⟩ := ih _ _ _ _ _ _ h
        exact ⟨hf, fun hs => hrom (advance_rom l s st hs)⟩
      · simp only [Option.some.injEq, Prod.mk.injEq] at h
        obtain ⟨rfl, rfl, rfl⟩ := h
        exact ⟨⟨rfl, rfl, rfl, rfl, rfl, rfl, rfl⟩, advance_rom l s st⟩

/-! ## The registry store -/

theorem storeID8_in (s : State) (j v : Nat) (h : s.iter < 16) :
    s.storeID8 j v
      = { s with OWIDU := s.OWIDU.set s.iter ((s.OWIDU.getD s.iter []).set j v) } := by
  unfold State.storeID8
  rw [if_pos h]

theorem getD_set_self {α : Type} (l : List α) (i : Nat) (x d : α) (h : i < l.length) :
    (l.set i x).getD i d = x := by
  simp [List.getD, h]

/-- The store loop of `OWSearch` puts the bytes of `ROM_NO` into the slot
`OWIDU[iter]` in reverse order. -/
theorem saveROM_in (s : State) (hi : s.iter < 16) (hl : s.OWIDU.length = 16)
    (hs : (s.OWIDU.getD s.iter []).length = 8) :
    s.saveROM = { s with OWIDU := s.OWIDU.set s.iter
                                    ((List.range 8).map (fun k => s.ROM_NO.getD (7 - k) 0)) } := by
  rw [saveROM_eq]
  have hil : s.iter < s.OWIDU.length := by omega
  obtain ⟨rom, idu, oob, crc, ld, lfd, flag, addr, iter⟩ := s
  simp only at hi hl hs hil ⊢
  generalize hslot : idu.getD iter [] = slot at hs
  match slot, hs with
  | [a, b, c, d, e, f, g, h], _ =>
    simp only [storeID8_in, hi, getD_set_self, hil, List.length_set, List.set_set, hslot]
    simp [List.set, List.range_succ]

/-- A call of `OWSearch` that returns a non-zero code went through the whole
loop, and its result is the found branch of `OWSearch_finish`. -/
theorem OWSearch_found (bus : Bus W) (fuel : Nat) (s : State) (w : W) (r : Nat) (s1 : State)
    (w1 : W) (h : OWSearch bus fuel s w = some (r, s1, w1)) (hr : r ≠ 0) :
    s.LastDeviceFlag = false ∧ ∃ l t w2,
      OWSearch_loop bus fuel Locals.init { s with crc8 := 0 } w2 = some (l, t, w1)
      ∧ ¬ l.id_bit_number < 65 ∧ t.ROM_NO.getD 0 0 ≠ 0
      ∧ (r, s1) = OWSearch_finish true
          { t with LastDiscrepancy := l.last_zero,
                   LastDeviceFlag := if l.last_zero = 0 then true else t.LastDeviceFlag } := by
  unfold OWSearch at h
  dsimp only at h
  split_ifs at h with hflag
  · refine ⟨hflag, ?_⟩
    split at h
    · simp at h
    · simp only [Option.some.injEq, Prod.mk.injEq] at h
      exact absurd h.1.symm hr
    · split at h
      · simp at h
      · split at h
        · simp at h
        · rename_i w2 _ _ w3 _ l t w4 hloop
          simp only [Option.some.injEq, Prod.mk.injEq] at h
          obtain ⟨h1, h2, rfl⟩ := h
          unfold OWSearch_tail at h1 h2
          by_cases h65 : l.id_bit_number < 65
          · rw [if_neg (by simpa using h65), OWSearch_finish_none _ _ (Or.inl rfl)] at h1
            exact absurd h1.symm hr
          · rw [if_pos h65] at h1 h2
            refine ⟨l, t, _, hloop, h65, ?_, Prod.ext h1.symm h2.symm⟩
            intro h0
            have h3 := OWSearch_finish_none true
              { t with LastDiscrepancy := l.last_zero,
                       LastDeviceFlag := if l.last_zero = 0 then true else t.LastDeviceFlag }
              (Or.inr h0)
            rw [h3] at h1
            exact absurd h1.symm hr
  · simp only [Option.some.injEq, Prod.mk.injEq] at h
    rw [OWSearch_finish_none _ _ (Or.inl rfl)] at h
    exact absurd h.1.symm hr

/-! ## Recorded transfers of the bridge command layer -/

theorem OWBusyWait_loop_log (env : Env W) (addr start : Nat) (fuel : Nat) :
    ∀ (w : W × List (Nat × Nat × List Nat)) (r : (Nat × Nat) × (W × List (Nat × Nat × List Nat))),
      OWBusyWait_loop (logEnv env) addr start fuel w = some r → r.2.2 = w.2 := by
  induction fuel with
  | zero => intro w r h; simp [OWBusyWait_loop] at h
  | succ n ih =>
    intro w r h
    unfold OWBusyWait_loop at h
    dsimp only at h
    split_ifs at h with h1 h2
    · simp only [Option.some.injEq] at h
      subst h
      rfl
    · simp only [Option.some.injEq] at h
      subst h
      rfl
    · have h3 := ih _ _ h
      exact h3

theorem OWBusyWait_log (env : Env W) (fuel addr : Nat)
    (w : W × List (Nat × Nat × List Nat)) (r : (Nat × Nat) × (W × List (Nat × Nat × List Nat)))
    (h : OWBusyWait (logEnv env) fuel addr w = some r) :
    r.2.2 = w.2 ++ [(addr, OWDSSetReadPtrCommand, [StatReg])] := by
  unfold OWBusyWait at h
  dsimp only at h
  split_ifs at h with h1
  · simp only [Option.some.injEq] at h
    subst h
    rfl
  · have h3 := OWBusyWait_loop_log env addr _ fuel _ _ h
    exact h3

/-- What a found step leaves: the ROM buffer is well-typed with a non-zero
first byte, and slot `iter` (the entry value) of the registry holds its bytes
in reverse order; nothing else of the registry changes. -/
theorem OWSearch_found_store (bus : Bus W) (fuel : Nat) (s : State) (w : W) (r : Nat)
    (s1 : State) (w1 : W) (hwf : s.wf) (hiter : s.iter < 16)
    (h : OWSearch bus fuel s w = some (r, s1, w1)) (hr : r ≠ 0) :
    (s1.ROM_NO.length = 8 ∧ ∀ b ∈ s1.ROM_NO, b < 256) ∧ s1.ROM_NO.getD 0 0 ≠ 0
    ∧ s1.OWIDU = s.OWIDU.set s.iter ((List.range 8).map (fun k => s1.ROM_NO.getD (7 - k) 0))
    ∧ s1.oob = s.oob ∧ s1.OWDAddress = s.OWDAddress := by
  obtain ⟨hflag, l, t, w2, hloop, h65, h0, hfin⟩ := OWSearch_found bus fuel s w r s1 w1 h hr
  obtain ⟨hf, hrom⟩ := OWSearch_loop_fields bus fuel _ _ _ _ _ _ hloop
  obtain ⟨hR1, hR2, hI1, hI2, hit⟩ := hwf
  have hrom1 := hrom ⟨hR1, hR2⟩
  obtain ⟨hidu, hoob, hiter1, hld, hfl, hcrc, haddr⟩ := hf
  simp only at hidu hoob hiter1 hld hfl hcrc haddr
  have hslot : (s.OWIDU.getD s.iter []).length = 8 := by
    have hlt : s.iter < s.OWIDU.length := by omega
    rw [List.getD_eq_getElem _ _ hlt]
    exact (hI2 _ (List.getElem_mem hlt)).1
  have hsave := saveROM_in
    { t with LastDiscrepancy := l.last_zero,
             LastDeviceFlag := if l.last_zero = 0 then true else t.LastDeviceFlag }
    (by simpa [hiter1] using hiter) (by simpa [hidu] using hI1) (by simpa [hidu, hiter1] using hslot)
  by_cases hz : l.last_zero = 0
  · have hlast := OWSearch_finish_last
      { t with LastDiscrepancy := l.last_zero,
               LastDeviceFlag := if l.last_zero = 0 then true else t.LastDeviceFlag }
      h0 (by simp [hz])
    rw [hlast] at hfin
    simp only [Prod.mk.injEq] at hfin
    obtain ⟨-, rfl⟩ := hfin
    rw [hsave]
    dsimp only
    rw [hidu, hiter1, hoob, haddr]
    exact ⟨hrom1, h0, rfl, rfl, rfl⟩
  · have hmore := OWSearch_finish_more
      { t with LastDiscrepancy := l.last_zero,
               LastDeviceFlag := if l.last_zero = 0 then true else t.LastDeviceFlag }
      h0 (by simp [hz, hfl, hflag])
    rw [hmore] at hfin
    simp only [Prod.mk.injEq] at hfin
    obtain ⟨-, rfl⟩ := hfin
    rw [hsave]
    dsimp only
    rw [hidu, hiter1, hoob, haddr]
    exact ⟨hrom1, h0, rfl, rfl, rfl⟩

theorem list8 {α : Type} (l : List α) (h : l.length = 8) :
    ∃ a b c d e f g k, l = [a, b, c, d, e, f, g, k] := by
  match l, h with
  | [a, b, c, d, e, f, g, k], _ => exact ⟨a, b, c, d, e, f, g, k, rfl⟩

/-! ## The bridge command layer on an idle link -/

theorem wireBytes_append (a b : List (Nat × Nat × List Nat)) :
    wireBytes (a ++ b) = wireBytes a ++ wireBytes b := by
  simp [wireBytes, List.filterMap_append]

theorem idle_log (env : Env W) (addr : Nat) (h : env.idle addr) : (logEnv env).idle addr := by
  refine ⟨fun w => ?_, fun cmd data w => ?_⟩
  · exact h.1 w.1
  · exact h.2 cmd data w.1

theorem OWBusyWait_idle (env : Env W) (fuel addr : Nat) (h : env.idle addr)
    (w : W × List (Nat × Nat × List Nat)) :
    ∃ st w1, OWBusyWait (logEnv env) (fuel + 1) addr w = some ((0, st), w1)
      ∧ wireBytes w1.2 = wireBytes w.2 := by
  have hl := idle_log env addr h
  have hbw : ∃ r, OWBusyWait (logEnv env) (fuel + 1) addr w = some r ∧ r.1.1 = 0 := by
    unfold OWBusyWait
    dsimp only
    rw [if_neg (by simp [hl.2])]
    unfold OWBusyWait_loop
    dsimp only
    rw [if_pos ⟨(hl.1 _).2.1, (hl.1 _).1⟩]
    exact ⟨_, rfl, rfl⟩
  obtain ⟨⟨⟨ret, st⟩, w1⟩, hr, h0⟩ := hbw
  simp only at h0
  subst h0
  refine ⟨st, w1, hr, ?_⟩
  have := OWBusyWait_log env (fuel + 1) addr w _ hr
  simp only at this
  rw [this, wireBytes_append]
  simp [wireBytes]

theorem OWWriteByte_idle (env : Env W) (fuel addr b : Nat) (h : env.idle addr)
    (w : W × List (Nat × Nat × List Nat)) :
    ∃ w1, OWWriteByte (logEnv env) (fuel + 1) addr b w = some (1, w1)
      ∧ wireBytes w1.2 = wireBytes w.2 ++ [b % 256] := by
  obtain ⟨st, w1, hbw, hwb⟩ := OWBusyWait_idle env fuel addr h w
  unfold OWWriteByte
  rw [hbw]
  dsimp only
  rw [if_neg (by decide)]
  refine ⟨_, rfl, ?_⟩
  simp only [logEnv, wireBytes_append, hwb]
  simp [wireBytes]

theorem OWWriteBytes_idle (env : Env W) (fuel addr : Nat) (h : env.idle addr) :
    ∀ (bs : List Nat) (w : W × List (Nat × Nat × List Nat)),
      ∃ w1, OWWriteBytes (logEnv env) (fuel + 1) addr bs w = some w1
        ∧ wireBytes w1.2 = wireBytes w.2 ++ bs.map (fun b => b % 256) := by
  intro bs
  induction bs with
  | nil => intro w; exact ⟨w, rfl, by simp⟩
  | cons b bs ih =>
    intro w
    obtain ⟨w1, h1, hb1⟩ := OWWriteByte_idle env fuel addr b h w
    obtain ⟨w2, h2, hb2⟩ := ih w1
    refine ⟨w2, ?_, ?_⟩
    · rw [OWWriteBytes, h1]
      exact h2
    · rw [hb2, hb1]
      simp

theorem OWReset_idle (env : Env W) (fuel addr : Nat) (h : env.idle addr)
    (w : W × List (Nat × Nat × List Nat)) :
    ∃ w1, OWReset (logEnv env) (fuel + 1) addr w = some (true, w1)
      ∧ wireBytes w1.2 = wireBytes w.2 := by
  have hl := idle_log env addr h
  unfold OWReset
  dsimp only
  unfold OWReset_presence
  dsimp only
  rw [if_neg (hl.1 _).2.2]
  dsimp only
  unfold OWReset_busy
  dsimp only
  rw [if_neg (by simp [(hl.1 _).2.1])]
  dsimp only
  have hd : ∀ x, decide (((logEnv env).SW_I2C_Read_Noaddr addr x).1.2 % 256 &&& STATUS_PPD ≠ 0)
      = true := fun x => decide_eq_true (hl.1 x).2.2
  rw [hd]
  refine ⟨_, rfl, ?_⟩
  simp only [logEnv, wireBytes_append]
  simp [wireBytes]

theorem OWResetWait_idle (env : Env W) (fuel addr : Nat) (h : env.idle addr)
    (w : W × List (Nat × Nat × List Nat)) :
    ∃ w1, OWResetWait (logEnv env) (fuel + 1) addr w = some (0, w1)
      ∧ wireBytes w1.2 = wireBytes w.2 := by
  obtain ⟨w1, h1, hb1⟩ := OWReset_idle env fuel addr h ((logEnv env).xTaskGetTickCount w).2
  unfold OWResetWait
  dsimp only
  unfold OWResetWait_loop
  rw [h1]
  exact ⟨w1, rfl, hb1⟩

theorem OWDWriteConfig_idle (env : Env W) (fuel addr : Nat) (c : DS2480Config)
    (h : env.idle addr) (w : W × List (Nat × Nat × List Nat)) :
    ∃ r w1, OWDWriteConfig (logEnv env) (fuel + 1) addr c w = some (r, w1)
      ∧ wireBytes w1.2 = wireBytes w.2 := by
  obtain ⟨st, w1, hbw, hwb⟩ := OWBusyWait_idle env fuel addr h w
  unfold OWDWriteConfig
  dsimp only
  rw [hbw]
  dsimp only
  rw [if_neg (by decide)]
  split_ifs
  · refine ⟨_, _, rfl, ?_⟩
    simp only [logEnv, wireBytes_append, hwb]
    simp [wireBytes]
  · refine ⟨_, _, rfl, ?_⟩
    simp only [logEnv, wireBytes_append, hwb]
    simp [wireBytes]

theorem readDataByte_wire (env : Env W) (addr : Nat) (w : W × List (Nat × Nat × List Nat)) :
    wireBytes (readDataByte (logEnv env) addr w).2.2 = wireBytes w.2 := by
  simp only [readDataByte, logEnv, wireBytes_append]
  simp [wireBytes]

end

/-! ## Bits of the ROM buffer -/

theorem mask_test (b j : Nat) : (b &&& 2 ^ j > 0) ↔ b.testBit j = true := by
  constructor
  · intro h
    by_contra hb
    have : b &&& 2 ^ j = 0 := by
      apply Nat.eq_of_testBit_eq
      intro i
      simp only [Nat.testBit_and, Nat.testBit_two_pow, Nat.zero_testBit]
      by_cases hij : j = i
      · subst hij
        simp [hb]
      · simp [hij]
    omega
  · intro h
    have : (b &&& 2 ^ j).testBit j = true := by
      simp [Nat.testBit_and, Nat.testBit_two_pow, h]
    by_contra h0
    have h1 : b &&& 2 ^ j = 0 := by omega
    rw [h1] at this
    simp at this

theorem setBit_byte (old j i : Nat) :
    ((old ||| 2 ^ j) % 256).testBit i = (decide (i < 8) && (old.testBit i || decide (j = i))) := by
  have : (256 : Nat) = 2 ^ 8 := by norm_num
  rw [this, Nat.testBit_mod_two_pow, Nat.testBit_or, Nat.testBit_two_pow]

theorem clearBit_byte (old j i : Nat) :
    ((old &&& (255 ^^^ 2 ^ j)) % 256).testBit i
      = (decide (i < 8) && (old.testBit i && !decide (j = i))) := by
  have h1 : (256 : Nat) = 2 ^ 8 := by norm_num
  have h2 : (255 : Nat) = 2 ^ 8 - 1 := by norm_num
  rw [h1, h2, Nat.testBit_mod_two_pow, Nat.testBit_and, Nat.testBit_xor,
    Nat.testBit_two_pow_sub_one, Nat.testBit_two_pow]
  by_cases h8 : i < 8 <;> by_cases hj : j = i <;> simp [h8, hj]

theorem byte_testBit_high (b i : Nat) (hb : b < 256) (hi : 8 ≤ i) : b.testBit i = false := by
  apply Nat.testBit_lt_two_pow
  calc b < 256 := hb
    _ = 2 ^ 8 := by norm_num
    _ ≤ 2 ^ i := Nat.pow_le_pow_right (by decide) hi

/-- Two well-typed ROM buffers with the same 64 bits are equal. -/
theorem rom_ext (l1 l2 : List Nat) (h1 : l1.length = 8) (h2 : l2.length = 8)
    (hb1 : ∀ b ∈ l1, b < 256) (hb2 : ∀ b ∈ l2, b < 256)
    (h : ∀ q, q < 64 → getBit l1 q = getBit l2 q) : l1 = l2 := by
  apply List.ext_getElem (by rw [h1, h2])
  intro i hi1 hi2
  apply Nat.eq_of_testBit_eq
  intro j
  by_cases hj : j < 8
  · have hq := h (8 * i + j) (by omega)
    unfold getBit at hq
    have e1 : (8 * i + j) / 8 = i := by omega
    have e2 : (8 * i + j) % 8 = j := by omega
    rw [e1, e2, List.getD_eq_getElem _ _ hi1, List.getD_eq_getElem _ _ hi2] at hq
    exact hq
  · rw [byte_testBit_high _ _ (hb1 _ (List.getElem_mem hi1)) (by omega),
      byte_testBit_high _ _ (hb2 _ (List.getElem_mem hi2)) (by omega)]

theorem dirBit_cases (st : Nat) : dirBit st = 0 ∨ dirBit st = 1 := by
  unfold dirBit
  split_ifs <;> simp

/-- The store of the loop body changes bit `p` of the ROM buffer to the
direction written and no other bit. -/
theorem advance_getBit (p lz : Nat) (s : State) (st q : Nat) (hp : p < 64)
    (hlen : s.ROM_NO.length = 8) :
    getBit (OWSearch_advance (locAt p lz) s st).2.ROM_NO q
      = if q = p then decide (dirBit st = 1) else getBit s.ROM_NO q := by
  unfold OWSearch_advance locAt getBit
  dsimp only
  have hp8 : p / 8 < s.ROM_NO.length := by omega
  by_cases hb : q / 8 = p / 8
  · rw [hb, getD_set_self _ _ _ _ hp8]
    have hq8 : q % 8 < 8 := Nat.mod_lt _ (by decide)
    by_cases hqp : q = p
    · subst hqp
      rcases dirBit_cases st with hd | hd
      · simp [hd, clearBit_byte]
      · simp [hd, setBit_byte, hq8]
    · have hne : p % 8 ≠ q % 8 := by omega
      rcases dirBit_cases st with hd | hd
      · simp [hd, clearBit_byte, hq8, hne, hqp]
      · simp [hd, setBit_byte, hq8, hne, hqp]
  · have hqp : q ≠ p := fun h => hb (by rw [h])
    rw [if_neg hqp]
    congr 1
    simp only [List.getD_eq_getElem?_getD]
    rw [List.getElem?_set_ne (Ne.symm hb)]

/-! ## One step of the walk on the simulated bus -/

theorem status_decode (a b c : Bool) :
    idBit ((if a then 32 else 0) + (if b then 64 else 0) + (if c then 128 else 0)) = a
    ∧ cmpIdBit ((if a then 32 else 0) + (if b then 64 else 0) + (if c then 128 else 0)) = b
    ∧ dirBit ((if a then 32 else 0) + (if b then 64 else 0) + (if c then 128 else 0))
        = (if c then 1 else 0) := by
  cases a <;> cases b <;> cases c <;> decide

theorem not_all_both (A : List Nat) (p : Nat) (hA : A ≠ []) :
    ¬ (A.all (fun x => wireBit x p) = true ∧ A.all (fun x => !wireBit x p) = true) := by
  rintro ⟨h1, h2⟩
  obtain ⟨a, ha⟩ := List.exists_mem_of_ne_nil A hA
  have e1 := List.all_eq_true.1 h1 a ha
  have e2 := List.all_eq_true.1 h2 a ha
  simp [e1] at e2

theorem simDir_filter_ne_nil (A : List Nat) (p : Nat) (pref : Bool) (hA : A ≠ []) :
    A.filter (fun x => wireBit x p == simDir A p pref) ≠ [] := by
  obtain ⟨a, ha⟩ := List.exists_mem_of_ne_nil A hA
  unfold simDir
  by_cases h1 : A.all (fun x => wireBit x p) = true
  · rw [if_pos h1]
    intro hnil
    have : a ∈ A.filter (fun x => wireBit x p == true) :=
      List.mem_filter.2 ⟨ha, by simpa using List.all_eq_true.1 h1 a ha⟩
    rw [hnil] at this
    simp at this
  · rw [if_neg h1]
    by_cases h2 : A.all (fun x => !wireBit x p) = true
    · rw [if_pos h2]
      intro hnil
      have : a ∈ A.filter (fun x => wireBit x p == false) :=
        List.mem_filter.2 ⟨ha, by simpa using List.all_eq_true.1 h2 a ha⟩
      rw [hnil] at this
      simp at this
    · rw [if_neg h2]
      cases pref
      · simp only [List.all_eq_true, not_forall] at h1
        obtain ⟨b, hb, hbit⟩ := h1
        intro hnil
        have : b ∈ A.filter (fun x => wireBit x p == false) :=
          List.mem_filter.2 ⟨hb, by simpa using hbit⟩
        rw [hnil] at this
        simp at this
      · simp only [List.all_eq_true, Bool.not_eq_true', not_forall] at h2
        obtain ⟨b, hb, hbit⟩ := h2
        intro hnil
        have : b ∈ A.filter (fun x => wireBit x p == true) :=
          List.mem_filter.2 ⟨hb, by simpa using hbit⟩
        rw [hnil] at this
        simp at this

/-- One iteration of the loop of `OWSearch` on the simulated bus at bit
position `p`, with at least one device participating. -/
theorem sim_step (fuel p lz : Nat) (s : State) (D A : List Nat) (hA : A ≠ []) :
    ∃ st,
      dirBit st = (if simDir A p (decide (searchDirection (locAt p lz) s ≠ 0)) then 1 else 0)
      ∧ OWSearch_loop simBus (fuel + 1) (locAt p lz) s ⟨D, A, p⟩
        = OWSearch_loopFrom simBus fuel (p + 1)
            (if simDir A p (decide (searchDirection (locAt p lz) s ≠ 0)) = false
                ∧ A.any (fun x => wireBit x p) = true then p + 1 else lz)
            (OWSearch_advance (locAt p lz) s st).2
            ⟨D, A.filter (fun x => wireBit x p
              == simDir A p (decide (searchDirection (locAt p lz) s ≠ 0))), p + 1⟩ := by
  generalize hpref : decide (searchDirection (locAt p lz) s ≠ 0) = pref
  have hdir : (if A.all (fun x => wireBit x p) = A.all (fun x => !wireBit x p)
      then (if A.all (fun x => wireBit x p) then true
        else decide (searchDirection (locAt p lz) s ≠ 0))
      else A.all (fun x => wireBit x p)) = simDir A p pref := by
    have hnb := not_all_both A p hA
    unfold simDir
    rw [hpref]
    cases h1 : A.all (fun x => wireBit x p) <;> cases h2 : A.all (fun x => !wireBit x p) <;>
      simp_all
  refine ⟨(if A.all (fun x => wireBit x p) then 32 else 0)
    + (if A.all (fun x => !wireBit x p) then 64 else 0)
    + (if simDir A p pref then 128 else 0), (status_decode _ _ _).2.2, ?_⟩
  rw [OWSearch_loop_step]
  have htrip : simBus.DS2482_search_triplet (searchDirection (locAt p lz) s) ⟨D, A, p⟩
      = some ((if A.all (fun x => wireBit x p) then 32 else 0)
          + (if A.all (fun x => !wireBit x p) then 64 else 0)
          + (if simDir A p pref then 128 else 0),
        ⟨D, A.filter (fun x => wireBit x p == simDir A p pref), p + 1⟩) := by
    simp only [simBus]
    rw [hdir]
  rw [htrip]
  dsimp only
  have hnd : ¬ noDevice ((if A.all (fun x => wireBit x p) then 32 else 0)
      + (if A.all (fun x => !wireBit x p) then 64 else 0)
      + (if simDir A p pref then 128 else 0)) := by
    rw [← noDevice_iff, (status_decode _ _ _).1, (status_decode _ _ _).2.1]
    exact not_all_both A p hA
  rw [if_neg hnd, advance_locals, (status_decode _ _ _).1, (status_decode _ _ _).2.1,
    (status_decode _ _ _).2.2]
  have hzero : (A.all (fun x => wireBit x p) = false ∧ A.all (fun x => !wireBit x p) = false
      ∧ (if simDir A p pref = true then 1 else 0) = 0)
      ↔ (simDir A p pref = false ∧ A.any (fun x => wireBit x p) = true) := by
    have hnb := not_all_both A p hA
    unfold simDir
    cases h1 : A.all (fun x => wireBit x p) <;> cases h2 : A.all (fun x => !wireBit x p) <;>
      cases pref <;> simp_all
  simp only [hzero]
  unfold OWSearch_loopFrom
  split_ifs <;> rfl

/-! ## The search order and the last zero-discrepancy -/

theorem searchOrder_nil (n p : Nat) : searchOrder n p [] = [] := by
  cases n <;> simp [searchOrder]

theorem searchOrder_succ (n p : Nat) (A : List Nat) :
    searchOrder (n + 1) p A
      = searchOrder n (p + 1) (A.filter (fun x => !wireBit x p))
        ++ searchOrder n (p + 1) (A.filter (fun x => wireBit x p)) := by
  rw [searchOrder]
  split_ifs with h
  · subst h
    simp [searchOrder_nil]
  · rfl

theorem lzOf_default (n : Nat) : ∀ (p : Nat) (A : List Nat) (y d : Nat),
    lzOf n p A y d = if lzOf n p A y 0 = 0 then d else lzOf n p A y 0 := by
  induction n with
  | zero => intro p A y d; simp [lzOf]
  | succ n ih =>
    intro p A y d
    rw [lzOf, lzOf]
    rw [ih _ _ _ (if wireBit y p = false ∧ A.any (fun x => wireBit x p) = true then p + 1 else d),
      ih _ _ _ (if wireBit y p = false ∧ A.any (fun x => wireBit x p) = true then p + 1 else 0)]
    generalize lzOf n (p + 1) (A.filter (fun x => wireBit x p == wireBit y p)) y 0 = r0
    by_cases hc : wireBit y p = false ∧ A.any (fun x => wireBit x p) = true
    · rw [if_pos hc, if_pos hc]
      by_cases hr : r0 = 0
      · simp [hr]
      · simp [hr]
    · rw [if_neg hc, if_neg hc]
      by_cases hr : r0 = 0
      · simp [hr]
      · simp [hr]

theorem lzOf_range (n : Nat) : ∀ (p : Nat) (A : List Nat) (y : Nat),
    lzOf n p A y 0 = 0 ∨ p < lzOf n p A y 0 := by
  induction n with
  | zero => intro p A y; left; rfl
  | succ n ih =>
    intro p A y
    rw [lzOf, lzOf_default]
    rcases ih (p + 1) (A.filter (fun x => wireBit x p == wireBit y p)) y with h | h
    · rw [if_pos h]
      split_ifs
      · right; omega
      · left; rfl
    · rw [if_neg (by omega)]
      right; omega

/-! ## Identifiers and ROM bytes -/

theorem romOf_getD (id j : Nat) (hj : j < 8) : (romOf id).getD j 0 = romByte id j := by
  unfold romOf
  rw [List.getD_eq_getElem _ _ (by simpa using hj)]
  simp

theorem romOf_wf (id : Nat) : (romOf id).length = 8 ∧ ∀ b ∈ romOf id, b < 256 := by
  refine ⟨by simp [romOf], ?_⟩
  intro b hb
  simp only [romOf, List.mem_map] at hb
  obtain ⟨j, -, rfl⟩ := hb
  exact Nat.mod_lt _ (by decide)

theorem getBit_romOf (id p : Nat) (hp : p < 64) : getBit (romOf id) p = wireBit id p := by
  unfold getBit wireBit
  rw [romOf_getD _ _ (by omega)]

/-- The registry identifier of the stored ROM bytes of a device is the
identifier of the device. -/
theorem ID_romOf (id : Nat) (h : id < 2 ^ 64) :
    ID ((List.range 8).map (fun k => (romOf id).getD (7 - k) 0)) = id := by
  have e : (List.range 8).map (fun k => (romOf id).getD (7 - k) 0)
      = [romByte id 7, romByte id 6, romByte id 5, romByte id 4, romByte id 3, romByte id 2,
        romByte id 1, romByte id 0] := by
    show [(romOf id).getD 7 0, (romOf id).getD 6 0, (romOf id).getD 5 0, (romOf id).getD 4 0,
      (romOf id).getD 3 0, (romOf id).getD 2 0, (romOf id).getD 1 0, (romOf id).getD 0 0] = _
    rw [romOf_getD id 7 (by decide), romOf_getD id 6 (by decide), romOf_getD id 5 (by decide),
      romOf_getD id 4 (by decide), romOf_getD id 3 (by decide), romOf_getD id 2 (by decide),
      romOf_getD id 1 (by decide), romOf_getD id 0 (by decide)]
  rw [e]
  simp only [ID, List.getD_cons_zero, List.getD_cons_succ, romByte]
  norm_num
  norm_num at h
  omega

theorem romOf_injective (a b : Nat) (ha : a < 2 ^ 64) (hb : b < 2 ^ 64)
    (h : romOf a = romOf b) : a = b := by
  rw [← ID_romOf a ha, ← ID_romOf b hb, h]

/-- Devices with 64-bit identifiers that put the same 64 bits on the bus are
the same device. -/
theorem wireBit_injective (a b : Nat) (ha : a < 2 ^ 64) (hb : b < 2 ^ 64)
    (h : ∀ q, q < 64 → wireBit a q = wireBit b q) : a = b := by
  apply romOf_injective a b ha hb
  apply rom_ext _ _ (romOf_wf a).1 (romOf_wf b).1 (romOf_wf a).2 (romOf_wf b).2
  intro q hq
  rw [getBit_romOf _ _ hq, getBit_romOf _ _ hq]
  exact h q hq

/-! ## The search order enumerates the devices -/

theorem filter_bit_false (A : List Nat) (p : Nat) :
    A.filter (fun x => wireBit x p == false) = A.filter (fun x => !wireBit x p) := by
  congr 1
  funext x
  cases wireBit x p <;> rfl

theorem filter_bit_true (A : List Nat) (p : Nat) :
    A.filter (fun x => wireBit x p == true) = A.filter (fun x => wireBit x p) := by
  congr 1
  funext x
  cases wireBit x p <;> rfl

theorem agreeBelow_filter (A : List Nat) (p x : Nat) (b : Bool) (hb : wireBit x p = b)
    (h : agreeBelow A p x) :
    agreeBelow (A.filter (fun a => wireBit a p == b)) (p + 1) x := by
  intro a ha q hq
  obtain ⟨ha1, ha2⟩ := List.mem_filter.1 ha
  by_cases hqp : q = p
  · subst hqp
    rw [hb]
    simpa using ha2
  · exact h a ha1 q (by omega)

theorem agreeBelow_of_mem (A : List Nat) (p x y : Nat) (h : agreeBelow A p x) (hy : y ∈ A) :
    agreeBelow A p y := by
  intro a ha q hq
  rw [h a ha q hq, h y hy q hq]

/-- At depth 64 at most one device is left. -/
theorem singleton_of_agreeBelow (A : List Nat) (x : Nat) (hx : x ∈ A) (hnd : A.Nodup)
    (h64 : ∀ a ∈ A, a < 2 ^ 64) (h : agreeBelow A 64 x) : A = [x] := by
  have hall : ∀ a ∈ A, a = x := fun a ha =>
    wireBit_injective a x (h64 a ha) (h64 x hx) (fun q hq => h a ha q hq)
  match A, hx, hnd, hall with
  | [a], _, _, hall => rw [hall a (by simp)]
  | a :: b :: t, _, hnd, hall =>
    exfalso
    have h1 := hall a (by simp)
    have h2 := hall b (by simp)
    rw [List.nodup_cons] at hnd
    apply hnd.1
    rw [h1, ← h2]
    simp

/-- A device after which no zero-discrepancy is left is the last one of the
search order. -/
theorem last_of_lzOf_zero (n : Nat) : ∀ (p : Nat) (A : List Nat) (x : Nat), p + n = 64 →
    x ∈ A → A.Nodup → (∀ a ∈ A, a < 2 ^ 64) → agreeBelow A p x → lzOf n p A x 0 = 0 →
    ∃ pre, searchOrder n p A = pre ++ [x] := by
  induction n with
  | zero =>
    intro p A x hp hx hnd h64 hS _
    have hp64 : p = 64 := by omega
    subst hp64
    rw [singleton_of_agreeBelow A x hx hnd h64 hS]
    exact ⟨[], rfl⟩
  | succ n ih =>
    intro p A x hp hx hnd h64 hS hlz
    rw [lzOf, lzOf_default] at hlz
    have hr : lzOf n (p + 1) (A.filter (fun a => wireBit a p == wireBit x p)) x 0 = 0 := by
      by_contra hne
      rw [if_neg hne] at hlz
      exact hne hlz
    rw [if_pos hr] at hlz
    have hc : ¬ (wireBit x p = false ∧ A.any (fun a => wireBit a p) = true) := by
      intro hc
      rw [if_pos hc] at hlz
      omega
    have hx' : x ∈ A.filter (fun a => wireBit a p == wireBit x p) :=
      List.mem_filter.2 ⟨hx, by simp⟩
    obtain ⟨pre, hpre⟩ := ih (p + 1) _ x (by omega) hx' (hnd.filter _)
      (fun a ha => h64 a (List.mem_filter.1 ha).1) (agreeBelow_filter A p x _ rfl hS) hr
    rw [searchOrder_succ]
    cases hb : wireBit x p with
    | false =>
      rw [hb, filter_bit_false] at hpre
      have hnone : A.filter (fun a => wireBit a p) = [] := by
        rw [List.filter_eq_nil_iff]
        intro a ha hbit
        apply hc
        refine ⟨hb, ?_⟩
        rw [List.any_eq_true]
        exact ⟨a, ha, hbit⟩
      rw [hnone, searchOrder_nil, hpre]
      exact ⟨pre, by simp⟩
    | true =>
      rw [hb, filter_bit_true] at hpre
      rw [hpre]
      exact ⟨searchOrder n (p + 1) (A.filter (fun x => !wireBit x p)) ++ pre, by simp⟩

/-- The search order is a rearrangement of the devices. -/
theorem searchOrder_perm (n : Nat) : ∀ (p : Nat) (A : List Nat), p + n = 64 → A.Nodup →
    (∀ a ∈ A, a < 2 ^ 64) → (∀ x ∈ A, agreeBelow A p x) → (searchOrder n p A).Perm A := by
  induction n with
  | zero =>
    intro p A hp hnd h64 hS
    have hp64 : p = 64 := by omega
    subst hp64
    cases A with
    | nil => simp [searchOrder]
    | cons a t =>
      rw [singleton_of_agreeBelow (a :: t) a (by simp) hnd h64 (hS a (by simp))]
      simp [searchOrder]
  | succ n ih =>
    intro p A hp hnd h64 hS
    rw [searchOrder_succ]
    have h0 := ih (p + 1) (A.filter (fun x => !wireBit x p)) (by omega) (hnd.filter _)
      (fun a ha => h64 a (List.mem_filter.1 ha).1) (by
        intro x hx
        have hx1 := List.mem_filter.1 hx
        have := agreeBelow_filter A p x false (by simpa using hx1.2) (hS x hx1.1)
        rwa [filter_bit_false] at this)
    have h1 := ih (p + 1) (A.filter (fun x => wireBit x p)) (by omega) (hnd.filter _)
      (fun a ha => h64 a (List.mem_filter.1 ha).1) (by
        intro x hx
        have hx1 := List.mem_filter.1 hx
        have := agreeBelow_filter A p x true (by simpa using hx1.2) (hS x hx1.1)
        rwa [filter_bit_true] at this)
    have hperm : (A.filter (fun x => wireBit x p) ++ A.filter (fun x => !wireBit x p)).Perm A :=
      List.filter_append_perm _ A
    exact ((h0.append h1).trans List.perm_append_comm).trans hperm

/-! ## The walk on the simulated bus -/

theorem searchDirection_min (p lz : Nat) (s : State) (h : s.LastDiscrepancy ≤ p) :
    searchDirection (locAt p lz) s = 0 := by
  unfold searchDirection locAt
  dsimp only
  rw [if_neg (by omega), if_neg (by omega)]

theorem searchDirection_replay (p lz : Nat) (s : State) (h : p + 1 < s.LastDiscrepancy) :
    searchDirection (locAt p lz) s = if getBit s.ROM_NO p = true then 1 else 0 := by
  unfold searchDirection locAt getBit
  dsimp only
  rw [if_pos h]
  simp only [mask_test]

theorem searchDirection_branch (p lz : Nat) (s : State) (h : p + 1 = s.LastDiscrepancy) :
    searchDirection (locAt p lz) s = 1 := by
  unfold searchDirection locAt
  dsimp only
  rw [if_neg (by omega), if_pos h]

theorem simDir_self (A : List Nat) (p x : Nat) (hx : x ∈ A) :
    simDir A p (wireBit x p) = wireBit x p := by
  unfold simDir
  split_ifs with h1 h2
  · exact (List.all_eq_true.1 h1 x hx).symm
  · have := List.all_eq_true.1 h2 x hx
    simpa using this.symm
  · rfl

theorem simDir_false_true (A : List Nat) (p : Nat) (h : simDir A p false = true) :
    A.filter (fun x => !wireBit x p) = [] := by
  unfold simDir at h
  split_ifs at h with h1 h2
  rw [List.filter_eq_nil_iff]
  intro a ha
  simpa using List.all_eq_true.1 h1 a ha

theorem simDir_branch (A : List Nat) (p : Nat)
    (hany : A.any (fun a => wireBit a p) = true) : simDir A p true = true := by
  unfold simDir
  split_ifs with h1 h2
  · rfl
  · exfalso
    obtain ⟨a, ha, hbit⟩ := List.any_eq_true.1 hany
    have := List.all_eq_true.1 h2 a ha
    simp [hbit] at this
  · rfl

/-- The walk from bit position `p` on when every preferred direction is 0:
it ends at the first device of the search order of the participating
devices. -/
theorem walk_min (D : List Nat) (n : Nat) :
    ∀ (p : Nat) (A : List Nat) (lz : Nat) (s : State) (fuel : Nat), p + n = 64 → n ≤ fuel →
      A ≠ [] → s.LastDiscrepancy ≤ p → (s.ROM_NO.length = 8 ∧ ∀ b ∈ s.ROM_NO, b < 256) →
      ∃ y post s1 w1, searchOrder n p A = y :: post ∧ y ∈ A
        ∧ OWSearch_loopFrom simBus fuel p lz s ⟨D, A, p⟩
            = some (locAt 64 (lzOf n p A y lz), s1, w1)
        ∧ w1.devices = D ∧ (s1.ROM_NO.length = 8 ∧ ∀ b ∈ s1.ROM_NO, b < 256)
        ∧ (∀ q, q < p → getBit s1.ROM_NO q = getBit s.ROM_NO q)
        ∧ (∀ q, p ≤ q → q < 64 → getBit s1.ROM_NO q = wireBit y q) := by
  induction n with
  | zero =>
    intro p A lz s fuel hp _ hA _ hrom
    have hp64 : p = 64 := by omega
    subst hp64
    obtain ⟨y, t, rfl⟩ := List.exists_cons_of_ne_nil hA
    refine ⟨y, [], s, ⟨D, y :: t, 64⟩, rfl, by simp, ?_, rfl, hrom, fun _ _ => rfl, ?_⟩
    · simp [OWSearch_loopFrom, lzOf]
    · intro q h1 h2
      omega
  | succ n ih =>
    intro p A lz s fuel hp hfuel hA hld hrom
    obtain ⟨f, rfl⟩ : ∃ f, fuel = f + 1 := ⟨fuel - 1, by omega⟩
    have hp64 : p < 64 := by omega
    obtain ⟨st, hdir, hstep⟩ := sim_step f p lz s D A hA
    rw [searchDirection_min p lz s hld] at hdir hstep
    simp only [ne_eq, not_true_eq_false, decide_False] at hdir hstep
    have hA' := simDir_filter_ne_nil A p false hA
    obtain ⟨y, post, s1, w1, hso, hy, hloop, hw, hrom1, hlow, hhigh⟩ :=
      ih (p + 1) _ (if simDir A p false = false ∧ A.any (fun x => wireBit x p) = true
          then p + 1 else lz)
        (OWSearch_advance (locAt p lz) s st).2 f (by omega) (by omega) hA'
        (by rw [(advance_fields _ _ _).2.2.2.1]; omega) (advance_rom _ _ _ hrom)
    obtain ⟨hyA, hyb⟩ := List.mem_filter.1 hy
    have hyb' : wireBit y p = simDir A p false := by simpa using hyb
    have hso' : ∃ post', searchOrder (n + 1) p A = y :: post' := by
      rw [searchOrder_succ]
      cases hd : simDir A p false with
      | false =>
        rw [hd, filter_bit_false] at hso
        rw [hso]
        exact ⟨post ++ searchOrder n (p + 1) (A.filter (fun x => wireBit x p)), rfl⟩
      | true =>
        rw [hd, filter_bit_true] at hso
        rw [simDir_false_true A p hd, searchOrder_nil, hso]
        exact ⟨post, rfl⟩
    obtain ⟨post', hpost'⟩ := hso'
    refine ⟨y, post', s1, w1, hpost', hyA, ?_, hw, hrom1, ?_, ?_⟩
    · unfold OWSearch_loopFrom
      rw [if_pos hp64, hstep, hloop, lzOf, hyb']
    · intro q hq
      rw [hlow q (by omega), advance_getBit p lz s st q hp64 hrom.1, if_neg (by omega)]
    · intro q hq1 hq2
      by_cases hqp : q = p
      · subst hqp
        rw [hlow q (by omega), advance_getBit q lz s st q hp64 hrom.1, if_pos rfl, hdir, hyb']
        cases simDir A q false <;> simp
      · exact hhigh q (by omega) hq2

/-- Replaying a bit of the ROM buffer leaves the buffer as it is. -/
theorem advance_same (p lz : Nat) (s : State) (st : Nat) (hp : p < 64)
    (hrom : s.ROM_NO.length = 8 ∧ ∀ b ∈ s.ROM_NO, b < 256)
    (h : decide (dirBit st = 1) = getBit s.ROM_NO p) :
    (OWSearch_advance (locAt p lz) s st).2.ROM_NO = s.ROM_NO := by
  have hw := advance_rom (locAt p lz) s st hrom
  apply rom_ext _ _ hw.1 hrom.1 hw.2 hrom.2
  intro q _
  rw [advance_getBit p lz s st q hp hrom.1]
  split_ifs with hq
  · rw [hq]; exact h
  · rfl

/-- The walk of a step that follows the step which found the device `x`: it
replays the bits of `x` up to the last zero-discrepancy, takes the 1 branch
there and the 0 branch afterwards, and ends at the device that follows `x`
in the search order. -/
theorem walk_next (D : List Nat) (n : Nat) :
    ∀ (p : Nat) (A : List Nat) (lz : Nat) (s : State) (fuel x : Nat), p + n = 64 → n ≤ fuel →
      x ∈ A → A.Nodup → (∀ a ∈ A, a < 2 ^ 64) → agreeBelow A p x → s.ROM_NO = romOf x →
      lzOf n p A x 0 = s.LastDiscrepancy → s.LastDiscrepancy ≠ 0 →
      ∃ y pre post s1 w1, searchOrder n p A = pre ++ x :: y :: post ∧ y ∈ A
        ∧ OWSearch_loopFrom simBus fuel p lz s ⟨D, A, p⟩
            = some (locAt 64 (lzOf n p A y lz), s1, w1)
        ∧ w1.devices = D ∧ (s1.ROM_NO.length = 8 ∧ ∀ b ∈ s1.ROM_NO, b < 256)
        ∧ (∀ q, q < 64 → getBit s1.ROM_NO q = wireBit y q) := by
  induction n with
  | zero =>
    intro p A lz s fuel x _ _ _ _ _ _ _ hlz hne
    exact absurd hlz.symm hne
  | succ n ih =>
    intro p A lz s fuel x hp hfuel hx hnd h64 hS hromx hlz hne
    obtain ⟨f, rfl⟩ : ∃ f, fuel = f + 1 := ⟨fuel - 1, by omega⟩
    have hp64 : p < 64 := by omega
    have hA : A ≠ [] := List.ne_nil_of_mem hx
    have hrom : s.ROM_NO.length = 8 ∧ ∀ b ∈ s.ROM_NO, b < 256 := by
      rw [hromx]; exact romOf_wf x
    have hbitx : getBit s.ROM_NO p = wireBit x p := by rw [hromx, getBit_romOf x p hp64]
    obtain ⟨st, hdir, hstep⟩ := sim_step f p lz s D A hA
    rw [lzOf, lzOf_default] at hlz
    have hx' : x ∈ A.filter (fun a => wireBit a p == wireBit x p) :=
      List.mem_filter.2 ⟨hx, by simp⟩
    by_cases hr : lzOf n (p + 1) (A.filter (fun a => wireBit a p == wireBit x p)) x 0 = 0
    · -- the branch position
      rw [if_pos hr] at hlz
      have hc : wireBit x p = false ∧ A.any (fun a => wireBit a p) = true := by
        by_contra hc
        rw [if_neg hc] at hlz
        exact hne hlz.symm
      rw [if_pos hc] at hlz
      rw [searchDirection_branch p lz s hlz] at hdir hstep
      have hd : simDir A p true = true := simDir_branch A p hc.2
      simp only [ne_eq, one_ne_zero, not_false_eq_true, decide_True, hd, if_true,
        Bool.true_eq_false, false_and, if_false] at hdir hstep
      have hA1 : A.filter (fun a => wireBit a p == true) ≠ [] := by
        have := simDir_filter_ne_nil A p true hA
        rwa [hd] at this
      obtain ⟨y, post, s1, w1, hso, hy, hloop, hw, hrom1, hlow, hhigh⟩ :=
        walk_min D n (p + 1) _ lz (OWSearch_advance (locAt p lz) s st).2 f (by omega) (by omega)
          hA1 (by rw [(advance_fields _ _ _).2.2.2.1]; omega) (advance_rom _ _ _ hrom)
      obtain ⟨hyA, hyb⟩ := List.mem_filter.1 hy
      have hyb' : wireBit y p = true := by simpa using hyb
      obtain ⟨pre, hpre⟩ := last_of_lzOf_zero n (p + 1) _ x (by omega) hx' (hnd.filter _)
        (fun a ha => h64 a (List.mem_filter.1 ha).1) (agreeBelow_filter A p x _ rfl hS) hr
      rw [hc.1, filter_bit_false] at hpre
      rw [filter_bit_true] at hso
      refine ⟨y, pre, post, s1, w1, ?_, hyA, ?_, hw, hrom1, ?_⟩
      · rw [searchOrder_succ, hpre, hso]
        simp
      · unfold OWSearch_loopFrom
        rw [if_pos hp64, hstep, hloop, lzOf, hyb']
        simp
      · intro q hq
        by_cases hqp : q < p
        · rw [hlow q (by omega), advance_getBit p lz s st q hp64 hrom.1, if_neg (by omega),
            hromx, getBit_romOf x q hq]
          exact (hS y hyA q hqp).symm
        · by_cases hqe : q = p
          · subst hqe
            rw [hlow q (by omega), advance_getBit q lz s st q hp64 hrom.1, if_pos rfl, hdir, hyb']
            simp
          · exact hhigh q (by omega) hq
    · -- a replayed position
      rw [if_neg hr] at hlz
      have hlt : p + 1 < s.LastDiscrepancy := by
        rcases lzOf_range n (p + 1) (A.filter (fun a => wireBit a p == wireBit x p)) x with h | h
        · exact absurd h hr
        · omega
      rw [searchDirection_replay p lz s hlt, hbitx] at hdir hstep
      have hpref : decide ((if wireBit x p = true then 1 else 0) ≠ 0) = wireBit x p := by
        cases wireBit x p <;> simp
      rw [hpref, simDir_self A p x hx] at hdir hstep
      have hsame : (OWSearch_advance (locAt p lz) s st).2.ROM_NO = s.ROM_NO := by
        apply advance_same p lz s st hp64 hrom
        rw [hdir, hbitx]
        cases wireBit x p <;> simp
      obtain ⟨y, pre, post, s1, w1, hso, hy, hloop, hw, hrom1, hbits⟩ :=
        ih (p + 1) _ (if wireBit x p = false ∧ A.any (fun x => wireBit x p) = true
            then p + 1 else lz)
          (OWSearch_advance (locAt p lz) s st).2 f x (by omega) (by omega) hx' (hnd.filter _)
          (fun a ha => h64 a (List.mem_filter.1 ha).1) (agreeBelow_filter A p x _ rfl hS)
          (by rw [hsame, hromx]) (by rw [(advance_fields _ _ _).2.2.2.1]; exact hlz)
          (by rw [(advance_fields _ _ _).2.2.2.1]; exact hne)
      obtain ⟨hyA, hyb⟩ := List.mem_filter.1 hy
      have hyb' : wireBit y p = wireBit x p := by simpa using hyb
      have hso' : ∃ pre' post', searchOrder (n + 1) p A = pre' ++ x :: y :: post' := by
        rw [searchOrder_succ]
        cases hb : wireBit x p with
        | false =>
          rw [hb, filter_bit_false] at hso
          rw [hso]
          exact ⟨pre, post ++ searchOrder n (p + 1) (A.filter (fun x => wireBit x p)), by simp⟩
        | true =>
          rw [hb, filter_bit_true] at hso
          rw [hso]
          exact ⟨searchOrder n (p + 1) (A.filter (fun x => !wireBit x p)) ++ pre, post,
            by simp⟩
      obtain ⟨pre', post', hpost'⟩ := hso'
      refine ⟨y, pre', post', s1, w1, hpost', hyA, ?_, hw, hrom1, hbits⟩
      unfold OWSearch_loopFrom
      rw [if_pos hp64, hstep, hloop, lzOf, hyb']

/-! ## A search step on the simulated bus -/

theorem getD_set_other {α : Type} (l : List α) (i j : Nat) (x d : α) (h : i ≠ j) :
    (l.set i x).getD j d = l.getD j d := by
  simp only [List.getD_eq_getElem?_getD]
  rw [List.getElem?_set_ne h]

/-- A step of `OWSearch` on the simulated bus whose walk ended at the device
`y` with `last_zero = lzv`: the step reports `y` as found, stores its
identifier in slot `iter` and keeps `lzv` as `LastDiscrepancy`. -/
theorem sim_search_of_walk (D : List Nat) (fuel : Nat) (s : State) (w : SimWorld) (y lzv : Nat)
    (t : State) (w1 : SimWorld) (hflag : s.LastDeviceFlag = false) (hD : D ≠ [])
    (hw : w.devices = D) (hwf : s.wf) (hiter : s.iter < 16) (hy : y < 2 ^ 64)
    (hfam : romByte y 0 ≠ 0)
    (hwalk : OWSearch_loopFrom simBus fuel 0 0 { s with crc8 := 0 } ⟨D, D, 0⟩
      = some (locAt 64 lzv, t, w1))
    (hbits : ∀ q, q < 64 → getBit t.ROM_NO q = wireBit y q) :
    ∃ s1, OWSearch simBus fuel s w = some (if lzv = 0 then 2 else 1, s1, w1)
      ∧ s1.ROM_NO = romOf y ∧ s1.LastDiscrepancy = lzv
      ∧ s1.LastDeviceFlag = decide (lzv = 0)
      ∧ s1.iter = (if lzv = 0 then 0 else s.iter + 1)
      ∧ s1.slotID s.iter = y ∧ (∀ j, j ≠ s.iter → s1.slotID j = s.slotID j) ∧ s1.wf := by
  have hloop : OWSearch_loop simBus fuel Locals.init { s with crc8 := 0 } ⟨D, D, 0⟩
      = some (locAt 64 lzv, t, w1) := by
    have := hwalk
    unfold OWSearch_loopFrom at this
    rw [if_pos (by decide)] at this
    exact this
  obtain ⟨hf, hromt⟩ := OWSearch_loop_fields simBus fuel _ _ _ _ _ _ hloop
  obtain ⟨hR1, hR2, hI1, hI2, hit⟩ := hwf
  have hrt := hromt ⟨hR1, hR2⟩
  obtain ⟨hidu, hoob, hiter1, hld, hfl, hcrc, haddr⟩ := hf
  simp only at hidu hoob hiter1 hld hfl hcrc haddr
  have hrom : t.ROM_NO = romOf y := by
    apply rom_ext _ _ hrt.1 (romOf_wf y).1 hrt.2 (romOf_wf y).2
    intro q hq
    rw [hbits q hq, getBit_romOf y q hq]
  have h0 : t.ROM_NO.getD 0 0 ≠ 0 := by
    rw [hrom, romOf_getD y 0 (by decide)]
    exact hfam
  have hlt : s.iter < s.OWIDU.length := by omega
  have hslot : (s.OWIDU.getD s.iter []).length = 8 := by
    rw [List.getD_eq_getElem _ _ hlt]
    exact (hI2 _ (List.getElem_mem hlt)).1
  have hsave := saveROM_in
    { t with LastDiscrepancy := lzv,
             LastDeviceFlag := if lzv = 0 then true else t.LastDeviceFlag }
    (by simpa [hiter1] using hiter) (by simpa [hidu] using hI1)
    (by simpa [hidu, hiter1] using hslot)
  have hreset : simBus.OWReset w = some (true, ⟨D, D, 0⟩) := by
    simp [simBus, hw, hD]
  have htail : OWSearch_tail (locAt 64 lzv) t = OWSearch_finish true
      { t with LastDiscrepancy := lzv,
               LastDeviceFlag := if lzv = 0 then true else t.LastDeviceFlag } := by
    unfold OWSearch_tail
    rw [if_pos (by simp [locAt])]
    rfl
  have hsearch : OWSearch simBus fuel s w
      = some ((OWSearch_tail (locAt 64 lzv) t).1, (OWSearch_tail (locAt 64 lzv) t).2, w1) := by
    unfold OWSearch
    dsimp only
    rw [if_pos hflag, hreset]
    dsimp only
    have hwb : simBus.OWWriteByte OWSearchCmd ⟨D, D, 0⟩ = some (1, ⟨D, D, 0⟩) := rfl
    rw [hwb]
    dsimp only
    rw [hloop]
  have hnewslot : ∀ b ∈ (List.range 8).map (fun k => (romOf y).getD (7 - k) 0), b < 256 := by
    intro b hb
    simp only [List.mem_map, List.mem_range] at hb
    obtain ⟨k, hk, rfl⟩ := hb
    rw [romOf_getD y (7 - k) (by omega)]
    exact Nat.mod_lt _ (by decide)
  have hwfset : ∀ id8 ∈ s.OWIDU.set s.iter ((List.range 8).map (fun k => (romOf y).getD (7 - k) 0)),
      id8.length = 8 ∧ ∀ b ∈ id8, b < 256 := by
    intro id8 hid
    rcases List.mem_or_eq_of_mem_set hid with h | h
    · exact hI2 id8 h
    · subst h
      exact ⟨by simp, hnewslot⟩
  rw [htail] at hsearch
  by_cases hz : lzv = 0
  · subst hz
    have hlast := OWSearch_finish_last
      { t with LastDiscrepancy := 0,
               LastDeviceFlag := if 0 = 0 then true else t.LastDeviceFlag }
      h0 (by simp)
    rw [hlast, hsave] at hsearch
    simp only [if_true, decide_True]
    refine ⟨_, hsearch, ?_, ?_, ?_, ?_, ?_, ?_, ?_⟩
    · exact hrom
    · rfl
    · rfl
    · rfl
    · show ID ((t.OWIDU.set t.iter _).getD s.iter []) = y
      rw [hidu, hiter1, getD_set_self _ _ _ _ hlt]
      show ID ((List.range 8).map (fun k => t.ROM_NO.getD (7 - k) 0)) = y
      rw [hrom, ID_romOf y hy]
    · intro j hj
      show ID ((t.OWIDU.set t.iter _).getD j []) = ID (s.OWIDU.getD j [])
      rw [hidu, hiter1, getD_set_other _ _ _ _ _ (Ne.symm hj)]
    · refine ⟨hrt.1, hrt.2, ?_, ?_, ?_⟩
      · show (t.OWIDU.set t.iter _).length = 16
        rw [List.length_set, hidu]; exact hI1
      · show ∀ id8 ∈ t.OWIDU.set t.iter ((List.range 8).map (fun k => t.ROM_NO.getD (7 - k) 0)), _
        rw [hidu, hiter1, hrom]
        exact hwfset
      · show (0 : Nat) < 256
        decide
  · have hmore := OWSearch_finish_more
      { t with LastDiscrepancy := lzv,
               LastDeviceFlag := if lzv = 0 then true else t.LastDeviceFlag }
      h0 (by simp [hz, hfl, hflag])
    rw [hmore, hsave] at hsearch
    simp only [hz, if_false, decide_False]
    refine ⟨_, hsearch, ?_, ?_, ?_, ?_, ?_, ?_, ?_⟩
    · exact hrom
    · rfl
    · show (if lzv = 0 then true else t.LastDeviceFlag) = false
      rw [if_neg hz, hfl, hflag]
    · show (t.iter + 1) % 256 = _
      rw [hiter1]
      omega
    · show ID ((t.OWIDU.set t.iter _).getD s.iter []) = y
      rw [hidu, hiter1, getD_set_self _ _ _ _ hlt]
      show ID ((List.range 8).map (fun k => t.ROM_NO.getD (7 - k) 0)) = y
      rw [hrom, ID_romOf y hy]
    · intro j hj
      show ID ((t.OWIDU.set t.iter _).getD j []) = ID (s.OWIDU.getD j [])
      rw [hidu, hiter1, getD_set_other _ _ _ _ _ (Ne.symm hj)]
    · refine ⟨hrt.1, hrt.2, ?_, ?_, ?_⟩
      · show (t.OWIDU.set t.iter _).length = 16
        rw [List.length_set, hidu]; exact hI1
      · show ∀ id8 ∈ t.OWIDU.set t.iter ((List.range 8).map (fun k => t.ROM_NO.getD (7 - k) 0)), _
        rw [hidu, hiter1, hrom]
        exact hwfset
      · show (t.iter + 1) % 256 < 256
        exact Nat.mod_lt _ (by decide)

/-! ## A full pass on the simulated bus -/

theorem nodup_split_unique {α : Type} (x : α) :
    ∀ (pre pre' post post' : List α), (pre ++ x :: post).Nodup →
      pre ++ x :: post = pre' ++ x :: post' → pre = pre' ∧ post = post' := by
  intro pre
  induction pre with
  | nil =>
    intro pre' post post' hnd h
    cases pre' with
    | nil => simpa using h
    | cons a t =>
      exfalso
      simp only [List.nil_append, List.cons_append, List.cons.injEq] at h
      obtain ⟨rfl, rfl⟩ := h
      simp at hnd
  | cons a t ih =>
    intro pre' post post' hnd h
    cases pre' with
    | nil =>
      exfalso
      simp only [List.nil_append, List.cons_append, List.cons.injEq] at h
      obtain ⟨rfl, -⟩ := h
      simp at hnd
    | cons b t' =>
      simp only [List.cons_append, List.cons.injEq] at h
      obtain ⟨rfl, h2⟩ := h
      rw [List.cons_append, List.nodup_cons] at hnd
      obtain ⟨e1, e2⟩ := ih t' post post' hnd.2 h2
      exact ⟨by rw [e1], e2⟩

theorem passCodes_succ (m : Nat) :
    passCodes (m + 1) = (if m = 0 then 2 else 1) :: passCodes m := by
  cases m <;> simp [passCodes]

theorem passCodes_count (k : Nat) : ((passCodes k).filter (fun r => r ≠ 0)).length = k := by
  induction k with
  | zero => simp [passCodes]
  | succ m ih =>
    rw [passCodes_succ, List.filter_cons_of_pos (by split_ifs <;> simp), List.length_cons, ih]

theorem agreeBelow_zero (A : List Nat) (x : Nat) : agreeBelow A 0 x := by
  intro a _ q hq
  omega

theorem searchOrder_perm_top (D : List Nat) (hnd : D.Nodup) (h64 : ∀ d ∈ D, d < 2 ^ 64) :
    (searchOrder 64 0 D).Perm D :=
  searchOrder_perm 64 0 D rfl hnd h64 (fun x _ => agreeBelow_zero D x)

/-- A device of the search order has no zero-discrepancy left exactly when
it is the last one. -/
theorem lzOf_zero_iff_last (D : List Nat) (hnd : D.Nodup) (h64 : ∀ d ∈ D, d < 2 ^ 64)
    (pre post : List Nat) (x : Nat) (hL : searchOrder 64 0 D = pre ++ x :: post) :
    lzOf 64 0 D x 0 = 0 ↔ post = [] := by
  have hperm := searchOrder_perm_top D hnd h64
  have hLnd : (pre ++ x :: post).Nodup := by rw [← hL]; exact hperm.nodup_iff.2 hnd
  have hx : x ∈ D := hperm.mem_iff.1 (by rw [hL]; simp)
  constructor
  · intro hz
    obtain ⟨pre', hpre'⟩ := last_of_lzOf_zero 64 0 D x rfl hx hnd h64 (agreeBelow_zero D x) hz
    rw [hL] at hpre'
    exact (nodup_split_unique x pre pre' post [] hLnd hpre').2
  · intro hpost
    by_contra hne
    obtain ⟨y, pre', post', -, -, hso, -⟩ := walk_next D 64 0 D 0
      { State.init with ROM_NO := romOf x, LastDiscrepancy := lzOf 64 0 D x 0 } 64 x rfl
      (le_refl _) hx hnd h64 (agreeBelow_zero D x) rfl rfl hne
    rw [hL] at hso
    have := (nodup_split_unique x pre pre' post (y :: post') hLnd hso).2
    rw [hpost] at this
    simp at this

/-- The `OWNext` loop of a pass on the simulated bus, entered after the
device `x` was found: it finds the devices that follow `x` in the search
order, one per call, and stores them in consecutive registry slots. -/
theorem sim_next_loop (D : List Nat) (fuel i0 : Nat) (hnd : D.Nodup)
    (h64 : ∀ d ∈ D, d < 2 ^ 64) (hfam : ∀ d ∈ D, romByte d 0 ≠ 0)
    (hcap : i0 + D.length ≤ 16) (hfuel : 64 ≤ fuel) :
    ∀ (post pre : List Nat) (x : Nat) (s : State) (w : SimWorld) (n : Nat),
      searchOrder 64 0 D = pre ++ x :: post → s.ROM_NO = romOf x →
      s.LastDiscrepancy = lzOf 64 0 D x 0 →
      s.LastDeviceFlag = decide (s.LastDiscrepancy = 0) → s.wf →
      (s.LastDeviceFlag = false → s.iter = i0 + pre.length + 1) → w.devices = D →
      post.length + 1 ≤ n →
      (∀ i, i ≤ pre.length → s.slotID (i0 + i) = (pre ++ [x]).getD i 0) →
      ∃ s2 w2, OWNext_loop simBus fuel n s w = some (passCodes post.length, s2, w2)
        ∧ ∀ i, i < (searchOrder 64 0 D).length →
            s2.slotID (i0 + i) = (searchOrder 64 0 D).getD i 0 := by
  have hperm := searchOrder_perm_top D hnd h64
  intro post
  induction post with
  | nil =>
    intro pre x s w n hL hrom hld hflag hwf hiter hw hn hslots
    obtain ⟨m, rfl⟩ : ∃ m, n = m + 1 := ⟨n - 1, by simp at hn; omega⟩
    have hz : lzOf 64 0 D x 0 = 0 := (lzOf_zero_iff_last D hnd h64 pre [] x hL).2 rfl
    have hf : s.LastDeviceFlag = true := by rw [hflag, hld, hz]; rfl
    refine ⟨{ s with crc8 := 0, LastDiscrepancy := 0, LastFamilyDiscrepancy := 0,
                     LastDeviceFlag := false, iter := 0 }, w, ?_, ?_⟩
    · rw [OWNext_loop, OWNext, OWSearch_flag_set simBus fuel s w hf]
      rfl
    · intro i hi
      rw [hL] at hi ⊢
      simp only [List.length_append, List.length_cons, List.length_nil] at hi
      exact hslots i (by omega)
  | cons y post ih =>
    intro pre x s w n hL hrom hld hflag hwf hiter hw hn hslots
    obtain ⟨m, rfl⟩ : ∃ m, n = m + 1 := ⟨n - 1, by simp at hn; omega⟩
    have hLnd : (pre ++ x :: y :: post).Nodup := by rw [← hL]; exact hperm.nodup_iff.2 hnd
    have hlen : pre.length + 2 + post.length = D.length := by
      rw [← hperm.length_eq, hL]
      simp only [List.length_append, List.length_cons]
      omega
    have hx : x ∈ D := hperm.mem_iff.1 (by rw [hL]; simp)
    have hne : s.LastDiscrepancy ≠ 0 := by
      rw [hld]
      intro hz
      have := (lzOf_zero_iff_last D hnd h64 pre (y :: post) x hL).1 hz
      simp at this
    have hf : s.LastDeviceFlag = false := by rw [hflag]; simp [hne]
    have hit := hiter hf
    obtain ⟨y1, pre1, post1, t, w1, hso, hy1D, hwalk, hw1, -, hbits⟩ :=
      walk_next D 64 0 D 0 { s with crc8 := 0 } fuel x rfl hfuel hx hnd h64
        (agreeBelow_zero D x) hrom hld.symm hne
    rw [hL] at hso
    obtain ⟨hpre1, hpost1⟩ := nodup_split_unique x pre pre1 (y :: post) (y1 :: post1) hLnd hso
    simp only [List.cons.injEq] at hpost1
    obtain ⟨rfl, rfl⟩ := hpost1
    subst hpre1
    have hLD : D ≠ [] := List.ne_nil_of_mem hx
    obtain ⟨s1, hsearch, hrom1, hld1, hflag1, hiter1, hslot1, hother1, hwf1⟩ :=
      sim_search_of_walk D fuel s w y (lzOf 64 0 D y 0) t w1 hf hLD hw hwf (by omega)
        (h64 y hy1D) (hfam y hy1D) hwalk hbits
    have hL2 : searchOrder 64 0 D = (pre ++ [x]) ++ y :: post := by rw [hL]; simp
    have hcode : (if lzOf 64 0 D y 0 = 0 then 2 else 1) = (if post.length = 0 then 2 else 1) := by
      have := lzOf_zero_iff_last D hnd h64 (pre ++ [x]) post y hL2
      by_cases hp : post = []
      · rw [if_pos (this.2 hp), if_pos (by rw [hp]; rfl)]
      · rw [if_neg (fun h => hp (this.1 h)),
          if_neg (fun h => hp (List.length_eq_zero.1 h))]
    obtain ⟨s2, w2, hloop, hfinal⟩ := ih (pre ++ [x]) y s1 w1 m hL2 hrom1 hld1
      (by rw [hflag1, hld1]) hwf1
      (by
        intro hfl
        have hzn : lzOf 64 0 D y 0 ≠ 0 := by
          intro hz
          rw [hflag1, hz] at hfl
          simp at hfl
        rw [hiter1, if_neg hzn, hit]
        simp only [List.length_append, List.length_singleton]
        omega)
      hw1 (by simp only [List.length_cons] at hn; omega)
      (by
        intro i hi
        simp only [List.length_append, List.length_singleton] at hi
        by_cases hie : i = pre.length + 1
        · subst hie
          have e : i0 + (pre.length + 1) = s.iter := by omega
          rw [e, hslot1, List.getD_append_right _ _ _ _ (by simp)]
          simp
        · rw [hother1 _ (by omega), hslots i (by omega)]
          exact (List.getD_append _ _ _ _ (by simp; omega)).symm)
    refine ⟨s2, w2, ?_, hfinal⟩
    rw [OWNext_loop, OWNext, hsearch]
    dsimp only
    rw [if_pos (by split_ifs <;> simp), hloop, List.length_cons, passCodes_succ, hcode]

/-! ## The registry lookup -/

theorem OWAddr2Num_loop_hit (s : State) (id : Nat) :
    ∀ (n i k : Nat), i ≤ k → k < i + n → s.slotID k = id →
      (∀ j, i ≤ j → j < k → s.slotID j ≠ id) → OWAddr2Num_loop s id n i = (k : Int) := by
  intro n
  induction n with
  | zero => intro i k h1 h2; omega
  | succ n ih =>
    intro i k h1 h2 h3 h4
    rw [OWAddr2Num_loop]
    by_cases hi : s.slotID i = id
    · rw [if_pos hi]
      by_cases hik : i = k
      · rw [hik]
      · exact absurd hi (h4 i (le_refl _) (by omega))
    · rw [if_neg hi]
      have hik : i ≠ k := by rintro rfl; exact hi h3
      exact ih (i + 1) k (by omega) (by omega) h3 (fun j hj1 hj2 => h4 j (by omega) hj2)

theorem OWAddr2Num_loop_miss (s : State) (id : Nat) :
    ∀ (n i : Nat), OWAddr2Num_loop s id n i = -1 ↔ ∀ j, i ≤ j → j < i + n → s.slotID j ≠ id := by
  intro n
  induction n with
  | zero =>
    intro i
    rw [OWAddr2Num_loop]
    exact ⟨fun _ j h1 h2 => by omega, fun _ => rfl⟩
  | succ n ih =>
    intro i
    rw [OWAddr2Num_loop]
    by_cases hi : s.slotID i = id
    · rw [if_pos hi]
      constructor
      · intro h; omega
      · intro h; exact absurd hi (h i (le_refl _) (by omega))
    · rw [if_neg hi, ih]
      constructor
      · intro h j h1 h2
        by_cases hj : j = i
        · rw [hj]; exact hi
        · exact h j (by omega) (by omega)
      · intro h j h1 h2
        exact h j (by omega) (by omega)

/-! ## The copy loop of `OWGetIDs` -/

theorem OWGetIDs_loop_spec (s : State) (beyond : Nat → Nat) :
    ∀ (n i : Nat), (OWGetIDs_loop s beyond n i).1.length = n
      ∧ (∀ k, k < n → i + k < 16 → (OWGetIDs_loop s beyond n i).1.getD k 0 = s.slotID (i + k))
      ∧ (OWGetIDs_loop s beyond n i).2 = (List.range' i n).filter (fun j => decide (16 ≤ j)) := by
  intro n
  induction n with
  | zero => intro i; simp [OWGetIDs_loop]
  | succ n ih =>
    intro i
    obtain ⟨h1, h2, h3⟩ := ih (i + 1)
    rw [OWGetIDs_loop]
    by_cases hi : i < OWID_MAX_ELEMENTS
    · rw [if_pos hi]
      refine ⟨by simp [h1], ?_, ?_⟩
      · intro k hk hik
        cases k with
        | zero => simp
        | succ k =>
          have := h2 k (by omega) (by omega)
          rw [List.getD_cons_succ, this]
          congr 1; omega
      · have hi2 : ¬ 16 ≤ i := by simpa using hi
        simp only [h3, List.range'_succ, List.filter_cons, hi2, decide_False]
        simp
    · rw [if_neg hi]
      refine ⟨by simp [h1], ?_, ?_⟩
      · intro k hk hik
        exact absurd (show i < OWID_MAX_ELEMENTS by show i < 16; omega) hi
      · have hi2 : 16 ≤ i := by simpa using hi
        simp only [h3, List.range'_succ, List.filter_cons, hi2, decide_True]
        simp

/-! ## Traces of the polling loops -/

section
variable {W : Type}

theorem OWReset_presence_trace (env : Env W) (addr start : Nat) (fuel : Nat) :
    ∀ (w : W) (tr : List LinkEvent) (st : Nat) (w1 : W) (tr1 : List LinkEvent),
      OWReset_presence (traceEnv env) addr start fuel (w, tr) = some (st, (w1, tr1)) →
      ∃ evs, tr1 = tr ++ evs := by
  induction fuel with
  | zero => intro w tr st w1 tr1 h; simp [OWReset_presence] at h
  | succ n ih =>
    intro w tr st w1 tr1 h
    unfold OWReset_presence at h
    dsimp only at h
    split_ifs at h with h1 h2
    · obtain ⟨evs, hevs⟩ := ih _ _ _ _ _ h
      refine ⟨[LinkEvent.read addr (env.SW_I2C_Read_Noaddr addr w).1.1
          (env.SW_I2C_Read_Noaddr addr w).1.2,
          LinkEvent.tick (env.xTaskGetTickCount (env.SW_I2C_Read_Noaddr addr w).2).1] ++ evs, ?_⟩
      rw [hevs]
      simp only [traceEnv, List.append_assoc, List.cons_append, List.nil_append]
    · simp only [Option.some.injEq, Prod.mk.injEq] at h
      obtain ⟨_, _, rfl⟩ := h
      refine ⟨[LinkEvent.read addr (env.SW_I2C_Read_Noaddr addr w).1.1
          (env.SW_I2C_Read_Noaddr addr w).1.2,
          LinkEvent.tick (env.xTaskGetTickCount (env.SW_I2C_Read_Noaddr addr w).2).1], ?_⟩
      simp only [traceEnv, List.append_assoc, List.cons_append, List.nil_append]
    · simp only [Option.some.injEq, Prod.mk.injEq] at h
      obtain ⟨_, _, rfl⟩ := h
      refine ⟨[LinkEvent.read addr (env.SW_I2C_Read_Noaddr addr w).1.1
          (env.SW_I2C_Read_Noaddr addr w).1.2], ?_⟩
      simp only [traceEnv]

/-- The busy poll of `OWReset` ends with a status read that has the busy
flag clear, or with a busy status read followed by a tick read that shows the
busy budget used up; its result is the status of that last read. -/
theorem OWReset_busy_trace (env : Env W) (addr start : Nat) (fuel : Nat) :
    ∀ (w : W) (tr : List LinkEvent) (st : Nat) (w1 : W) (tr1 : List LinkEvent),
      OWReset_busy (traceEnv env) addr start fuel (w, tr) = some (st, (w1, tr1)) →
      ∃ pre ok raw post, tr1 = tr ++ pre ++ [LinkEvent.read addr ok raw] ++ post
        ∧ st = raw % 256
        ∧ ((post = [] ∧ raw % 256 &&& STATUS_BUSY = 0)
          ∨ ∃ t, post = [LinkEvent.tick t] ∧ raw % 256 &&& STATUS_BUSY ≠ 0
              ∧ ¬ u32sub t start < BSY_TIMEOUT) := by
  induction fuel with
  | zero => intro w tr st w1 tr1 h; simp [OWReset_busy] at h
  | succ n ih =>
    intro w tr st w1 tr1 h
    unfold OWReset_busy at h
    dsimp only at h
    split_ifs at h with h1 h2
    · obtain ⟨pre, ok, raw, post, htr, hst, hcase⟩ := ih _ _ _ _ _ h
      refine ⟨[LinkEvent.read addr (env.SW_I2C_Read_Noaddr addr w).1.1
          (env.SW_I2C_Read_Noaddr addr w).1.2,
          LinkEvent.tick (env.xTaskGetTickCount (env.SW_I2C_Read_Noaddr addr w).2).1] ++ pre,
        ok, raw, post, ?_, hst, hcase⟩
      rw [htr]
      simp only [traceEnv, List.append_assoc, List.cons_append, List.nil_append]
    · simp only [Option.some.injEq, Prod.mk.injEq] at h
      obtain ⟨hst, _, htr⟩ := h
      refine ⟨[], (env.SW_I2C_Read_Noaddr addr w).1.1, (env.SW_I2C_Read_Noaddr addr w).1.2,
        [LinkEvent.tick (env.xTaskGetTickCount (env.SW_I2C_Read_Noaddr addr w).2).1],
        ?_, hst.symm,
        Or.inr ⟨(env.xTaskGetTickCount (env.SW_I2C_Read_Noaddr addr w).2).1, rfl, h1, h2⟩⟩
      simp only [traceEnv, List.append_assoc, List.cons_append, List.nil_append, List.append_nil]
    · simp only [Option.some.injEq, Prod.mk.injEq] at h
      obtain ⟨hst, _, htr⟩ := h
      refine ⟨[], (env.SW_I2C_Read_Noaddr addr w).1.1, (env.SW_I2C_Read_Noaddr addr w).1.2, [],
        ?_, hst.symm, Or.inl ⟨rfl, ?_⟩⟩
      · simp only [traceEnv, List.append_assoc, List.cons_append, List.nil_append, List.append_nil]
      · simpa using h1

/-- The loop of `OWBusyWait` returns 1 only at a tick read that shows more
than the busy budget elapsed; every tick it read before showed no more. -/
theorem OWBusyWait_loop_trace (env : Env W) (addr start : Nat) (fuel : Nat) :
    ∀ (w : W) (tr : List LinkEvent) (st : Nat) (w1 : W) (tr1 : List LinkEvent),
      OWBusyWait_loop (traceEnv env) addr start fuel (w, tr) = some ((1, st), (w1, tr1)) →
      ∃ pre t, tr1 = tr ++ pre ++ [LinkEvent.tick t] ∧ u32sub t start > BSY_TIMEOUT
        ∧ ∀ t1, LinkEvent.tick t1 ∈ pre → u32sub t1 start ≤ BSY_TIMEOUT := by
  induction fuel with
  | zero => intro w tr st w1 tr1 h; simp [OWBusyWait_loop] at h
  | succ n ih =>
    intro w tr st w1 tr1 h
    unfold OWBusyWait_loop at h
    dsimp only at h
    split_ifs at h with h1 h2
    · simp at h
    · simp only [Option.some.injEq, Prod.mk.injEq] at h
      obtain ⟨_, _, rfl⟩ := h
      refine ⟨[LinkEvent.read addr (env.SW_I2C_Read_Noaddr addr w).1.1
          (env.SW_I2C_Read_Noaddr addr w).1.2], _, ?_, h2, ?_⟩
      · simp only [traceEnv, List.append_assoc, List.cons_append, List.nil_append]
      · intro t1 ht1
        simp at ht1
    · obtain ⟨pre, t, htr, ht, hall⟩ := ih _ _ _ _ _ h
      refine ⟨[LinkEvent.read addr (env.SW_I2C_Read_Noaddr addr w).1.1
          (env.SW_I2C_Read_Noaddr addr w).1.2,
          LinkEvent.tick (env.xTaskGetTickCount (env.SW_I2C_Read_Noaddr addr w).2).1] ++ pre,
        t, ?_, ht, ?_⟩
      · rw [htr]
        simp only [traceEnv, List.append_assoc, List.cons_append, List.nil_append]
      · intro t1 ht1
        simp only [List.cons_append, List.nil_append, List.mem_cons, LinkEvent.tick.injEq] at ht1
        rcases ht1 with ht1 | ht1 | ht1
        · cases ht1
        · rw [ht1]
          simp only [traceEnv] at h2
          exact Nat.le_of_not_lt h2
        · exact hall t1 ht1

/-- While every status read is busy and the tick counter advances, the loop
of `OWBusyWait` ends with result 1 within the fuel that the remaining budget
asks for. -/
theorem OWBusyWait_loop_busy (env : Env W) (addr start : Nat) (clock : W → Nat) (w0 : W)
    (hclock : env.ticking addr clock)
    (hbusy : ∀ v, (env.SW_I2C_Read_Noaddr addr v).1.2 % 256 &&& STATUS_BUSY ≠ 0)
    (hstart : start % 4294967296 = clock w0 % 4294967296) (fuel : Nat) :
    ∀ (w : W), clock w0 ≤ clock w → clock w ≤ clock w0 + 10 + 2097152 →
      clock w0 + 11 < clock w + fuel → 0 < fuel →
      ∃ st w1, OWBusyWait_loop env addr start fuel w = some ((1, st), w1) := by
  obtain ⟨hT, hR, hWr⟩ := hclock
  induction fuel with
  | zero => intro w _ _ _ h; omega
  | succ n ih =>
    intro w h1 h2 h3 _
    unfold OWBusyWait_loop
    dsimp only
    rw [if_neg (by intro hc; exact hbusy w hc.1)]
    obtain ⟨hr1, hr2⟩ := hR w
    obtain ⟨ht1, ht2, ht3⟩ := hT (env.SW_I2C_Read_Noaddr addr w).2
    have hsub : u32sub (env.xTaskGetTickCount (env.SW_I2C_Read_Noaddr addr w).2).1 start
        = clock (env.SW_I2C_Read_Noaddr addr w).2 - clock w0 := by
      unfold u32sub
      rw [ht1, hstart]
      omega
    by_cases hto : u32sub (env.xTaskGetTickCount (env.SW_I2C_Read_Noaddr addr w).2).1 start
        > BSY_TIMEOUT
    · rw [if_pos hto]
      exact ⟨_, _, rfl⟩
    · rw [if_neg hto]
      rw [hsub] at hto
      have hto2 : clock (env.SW_I2C_Read_Noaddr addr w).2 - clock w0 ≤ 10 := Nat.le_of_not_lt hto
      exact ih _ (by omega) (by omega) (by omega) (by omega)

theorem ticking_trace (env : Env W) (addr : Nat) (clock : W → Nat)
    (h : env.ticking addr clock) : (traceEnv env).ticking addr (fun v => clock v.1) := by
  obtain ⟨a, b, c⟩ := h
  exact ⟨fun v => a v.1, fun v => b v.1, fun cmd data v => c cmd data v.1⟩

end

section
variable {W : Type}

/-- With the status register selected, a bridge that stays busy and a tick
counter that advances, `OWBusyWait` returns 1 when given fuel for eleven
rounds. -/
theorem OWBusyWait_busy (env : Env W) (addr fuel : Nat) (clock : W → Nat) (w : W)
    (hclock : env.ticking addr clock)
    (hbusy : ∀ v, (env.SW_I2C_Read_Noaddr addr v).1.2 % 256 &&& STATUS_BUSY ≠ 0)
    (hwrite : ∀ v, (env.SW_I2C_Write_8addr addr OWDSSetReadPtrCommand [StatReg] v).1 = true)
    (hfuel : 11 ≤ fuel) :
    ∃ st w1, OWBusyWait env fuel addr w = some ((1, st), w1) := by
  unfold OWBusyWait
  dsimp only
  rw [if_neg (by rw [hwrite]; simp)]
  obtain ⟨hT, hR, hWr⟩ := hclock
  obtain ⟨ht1, ht2, ht3⟩ := hT w
  obtain ⟨hw1, hw2⟩ := hWr OWDSSetReadPtrCommand [StatReg] (env.xTaskGetTickCount w).2
  exact OWBusyWait_loop_busy env addr _ clock w ⟨hT, hR, hWr⟩ hbusy ht1 fuel _
    (by omega) (by omega) (by omega) (by omega)

end

/-! ## The record of a search step -/

section
variable {W : Type}

theorem OWSearch_of_loop (bus : Bus W) (fuel : Nat) (s : State) (w w1 w2 w3 : W) (x : Nat)
    (l : Locals) (t : State) (hflag : s.LastDeviceFlag = false)
    (hreset : bus.OWReset w = some (true, w1))
    (hwrite : bus.OWWriteByte OWSearchCmd w1 = some (x, w2))
    (hloop : OWSearch_loop bus fuel Locals.init { s with crc8 := 0 } w2 = some (l, t, w3)) :
    OWSearch bus fuel s w = some ((OWSearch_tail l t).1, (OWSearch_tail l t).2, w3) := by
  unfold OWSearch
  dsimp only
  rw [if_pos hflag, hreset]
  dsimp only
  rw [hwrite]
  dsimp only
  rw [hloop]

/-- The three ways a step of `OWSearch` on a recording bus can go: the last
device flag was set (no bus traffic), the reset saw no presence pulse, or the
loop ran after a reset and the search command. -/
theorem OWSearch_log_cases (bus : Bus W) (fuel : Nat) (s : State) (w : W)
    (log0 : List BusEvent) (r : Nat) (s1 : State) (w1 : W) (log : List BusEvent)
    (h : OWSearch (logBus bus) fuel s (w, log0) = some (r, s1, (w1, log))) :
    (s.LastDeviceFlag = true ∧ log = log0 ∧ r = 0)
    ∨ (s.LastDeviceFlag = false ∧ log = log0 ++ [BusEvent.reset false] ∧ r = 0)
    ∨ (s.LastDeviceFlag = false ∧ ∃ w2 l t,
        OWSearch_loop (logBus bus) fuel Locals.init { s with crc8 := 0 }
          (w2, log0 ++ [BusEvent.reset true, BusEvent.write OWSearchCmd]) = some (l, t, (w1, log))
        ∧ r = (OWSearch_tail l t).1 ∧ s1 = (OWSearch_tail l t).2) := by
  unfold OWSearch at h
  dsimp only at h
  by_cases hflag : s.LastDeviceFlag = false
  · rw [if_pos hflag] at h
    right
    cases hres : bus.OWReset w with
    | none => simp [logBus, hres] at h
    | some p =>
      obtain ⟨b, v1⟩ := p
      cases b with
      | false =>
        left
        simp only [logBus, hres, Option.some.injEq, Prod.mk.injEq] at h
        obtain ⟨h1, _, _, h4⟩ := h
        exact ⟨hflag, h4.symm, h1.symm⟩
      | true =>
        right
        refine ⟨hflag, ?_⟩
        cases hwr : bus.OWWriteByte OWSearchCmd v1 with
        | none => simp [logBus, hres, hwr] at h
        | some q =>
          obtain ⟨x, v2⟩ := q
          simp only [logBus, hres, hwr] at h
          cases hloop : OWSearch_loop (logBus bus) fuel Locals.init { s with crc8 := 0 }
              (v2, log0 ++ [BusEvent.reset true] ++ [BusEvent.write OWSearchCmd]) with
          | none =>
            simp only [logBus] at hloop
            rw [hloop] at h
            simp at h
          | some o =>
            obtain ⟨l, t, v3, log3⟩ := o
            simp only [logBus] at hloop
            rw [hloop] at h
            simp only [Option.some.injEq, Prod.mk.injEq] at h
            obtain ⟨h1, h2, h3, h4⟩ := h
            subst h3 h4
            refine ⟨v2, l, t, ?_, h1.symm, h2.symm⟩
            simp only [logBus]
            rw [← hloop]
            simp
  · rw [if_neg hflag] at h
    left
    simp only [Option.some.injEq, Prod.mk.injEq] at h
    obtain ⟨h1, _, _, h4⟩ := h
    rw [OWSearch_finish_none _ _ (Or.inl rfl)] at h1
    exact ⟨by simpa using hflag, h4.symm, h1.symm⟩

end

/-- The preferred direction at bit position `p` (0-based), in terms of the
bit of the ROM buffer at that position. -/
theorem searchDirection_eq (p lz : Nat) (s : State) :
    searchDirection (locAt p lz) s
      = if p + 1 < s.LastDiscrepancy then (if getBit s.ROM_NO p = true then 1 else 0)
        else if p + 1 = s.LastDiscrepancy then 1 else 0 := by
  by_cases h1 : p + 1 < s.LastDiscrepancy
  · rw [if_pos h1, searchDirection_replay p lz s h1]
  · rw [if_neg h1]
    by_cases h2 : p + 1 = s.LastDiscrepancy
    · rw [if_pos h2, searchDirection_branch p lz s h2]
    · rw [if_neg h2, searchDirection_min p lz s (by omega)]

section
variable {W : Type}

/-- The directions the loop of `OWSearch` passes to the triplets, in terms of
the state the loop was entered with. -/
theorem OWSearch_loop_directions (bus : Bus W) :
    ∀ (fuel p lz : Nat) (s : State) (w : W) (log : List BusEvent) (l1 : Locals) (s1 : State)
      (w1 : W) (log1 : List BusEvent), p < 64 → s.ROM_NO.length = 8 →
      OWSearch_loop (logBus bus) fuel (locAt p lz) s (w, log) = some (l1, s1, (w1, log1)) →
      ∃ evs, log1 = log ++ evs ∧ evs.length + p ≤ 64
        ∧ ∀ k e, evs[k]? = some e → ∃ st, e = BusEvent.triplet
            (if p + k + 1 < s.LastDiscrepancy then (if getBit s.ROM_NO (p + k) = true then 1 else 0)
              else if p + k + 1 = s.LastDiscrepancy then 1 else 0) st := by
  intro fuel
  induction fuel with
  | zero => intro p lz s w log l1 s1 w1 log1 _ _ h; simp [OWSearch_loop] at h
  | succ n ih =>
    intro p lz s w log l1 s1 w1 log1 hp hlen h
    rw [OWSearch_loop_step] at h
    cases hb : bus.DS2482_search_triplet (searchDirection (locAt p lz) s) w with
    | none => simp [logBus, hb] at h
    | some r =>
      obtain ⟨st, w2⟩ := r
      simp only [logBus, hb] at h
      have hone : ∀ k e, [BusEvent.triplet (searchDirection (locAt p lz) s) st][k]? = some e →
          ∃ st, e = BusEvent.triplet
            (if p + k + 1 < s.LastDiscrepancy then (if getBit s.ROM_NO (p + k) = true then 1 else 0)
              else if p + k + 1 = s.LastDiscrepancy then 1 else 0) st := by
        intro k e hk
        cases k with
        | zero =>
          simp only [List.getElem?_cons_zero, Option.some.injEq] at hk
          exact ⟨st, by rw [← hk, searchDirection_eq]; rfl⟩
        | succ k => simp at hk
      split_ifs at h with h1 h2
      · simp only [Option.some.injEq, Prod.mk.injEq] at h
        obtain ⟨_, _, _, rfl⟩ := h
        exact ⟨_, rfl, by simp; omega, hone⟩
      · rw [advance_locals] at h
        have hlen2 : (OWSearch_advance (locAt p lz) s st).2.ROM_NO.length = 8 := by
          unfold OWSearch_advance
          simp [hlen]
        obtain ⟨evs, hlog, hl, hall⟩ := ih _ _ _ _ _ _ _ _ _ h2 hlen2 h
        refine ⟨BusEvent.triplet (searchDirection (locAt p lz) s) st :: evs, by simp [hlog],
          by simp; omega, ?_⟩
        intro k e hk
        cases k with
        | zero =>
          simp only [List.getElem?_cons_zero, Option.some.injEq] at hk
          exact ⟨st, by rw [← hk, searchDirection_eq]; rfl⟩
        | succ k =>
          simp only [List.getElem?_cons_succ] at hk
          obtain ⟨st2, he⟩ := hall k e hk
          refine ⟨st2, ?_⟩
          have hg : getBit (OWSearch_advance (locAt p lz) s st).2.ROM_NO (p + 1 + k)
              = getBit s.ROM_NO (p + 1 + k) := by
            rw [advance_getBit p lz s st (p + 1 + k) hp hlen]
            exact if_neg (by omega)
          rw [he, (advance_fields _ _ _).2.2.2.1, hg]
          have e1 : p + 1 + k = p + (k + 1) := by omega
          rw [e1]
      · simp only [Option.some.injEq, Prod.mk.injEq] at h
        obtain ⟨_, _, _, rfl⟩ := h
        exact ⟨_, rfl, by simp; omega, hone⟩

/-- The value of `last_zero` after the loop of `OWSearch`: the 1-based
position of the last recorded triplet whose status has both read bits clear
and direction 0, and the entry value when there is none. -/
theorem OWSearch_loop_last_zero (bus : Bus W) :
    ∀ (fuel p lz : Nat) (s : State) (w : W) (log : List BusEvent) (l1 : Locals) (s1 : State)
      (w1 : W) (log1 : List BusEvent), p < 64 →
      OWSearch_loop (logBus bus) fuel (locAt p lz) s (w, log) = some (l1, s1, (w1, log1)) →
      ∃ evs, log1 = log ++ evs ∧ evs.length + p ≤ 64
        ∧ ((l1.last_zero = lz ∧ ∀ (k d st : Nat), evs[k]? = some (BusEvent.triplet d st) →
              ¬ (idBit st = false ∧ cmpIdBit st = false ∧ dirBit st = 0))
          ∨ ∃ (k d st : Nat), evs[k]? = some (BusEvent.triplet d st)
              ∧ (idBit st = false ∧ cmpIdBit st = false ∧ dirBit st = 0)
              ∧ l1.last_zero = p + k + 1
              ∧ ∀ (k2 d2 st2 : Nat), k < k2 → evs[k2]? = some (BusEvent.triplet d2 st2) →
                  ¬ (idBit st2 = false ∧ cmpIdBit st2 = false ∧ dirBit st2 = 0)) := by
  intro fuel
  induction fuel with
  | zero => intro p lz s w log l1 s1 w1 log1 _ h; simp [OWSearch_loop] at h
  | succ n ih =>
    intro p lz s w log l1 s1 w1 log1 hp h
    rw [OWSearch_loop_step] at h
    cases hb : bus.DS2482_search_triplet (searchDirection (locAt p lz) s) w with
    | none => simp [logBus, hb] at h
    | some r =>
      obtain ⟨st, w2⟩ := r
      simp only [logBus, hb] at h
      split_ifs at h with h1 h2
      · simp only [Option.some.injEq, Prod.mk.injEq] at h
        obtain ⟨rfl, _, _, rfl⟩ := h
        refine ⟨_, rfl, by simp; omega, Or.inl ⟨rfl, ?_⟩⟩
        intro k d st2 hk
        cases k with
        | zero =>
          simp only [List.getElem?_cons_zero, Option.some.injEq, BusEvent.triplet.injEq] at hk
          obtain ⟨_, rfl⟩ := hk
          intro hz
          have := (noDevice_iff st).2 h1
          rw [hz.1] at this
          simp at this
        | succ k => simp at hk
      · rw [advance_locals] at h
        obtain ⟨evs, hlog, hl, hcase⟩ := ih _ _ _ _ _ _ _ _ _ h2 h
        refine ⟨BusEvent.triplet (searchDirection (locAt p lz) s) st :: evs, by simp [hlog],
          by simp; omega, ?_⟩
        rcases hcase with ⟨hlz, hnone⟩ | ⟨k, d, st2, hk, hz, hlz, hlater⟩
        · by_cases hz : idBit st = false ∧ cmpIdBit st = false ∧ dirBit st = 0
          · right
            rw [if_pos hz] at hlz
            refine ⟨0, searchDirection (locAt p lz) s, st, by simp, hz, by omega, ?_⟩
            intro k2 d2 st2 hk2 he
            cases k2 with
            | zero => omega
            | succ k2 =>
              simp only [List.getElem?_cons_succ] at he
              exact hnone k2 d2 st2 he
          · left
            rw [if_neg hz] at hlz
            refine ⟨hlz, ?_⟩
            intro k2 d2 st2 he
            cases k2 with
            | zero =>
              simp only [List.getElem?_cons_zero, Option.some.injEq, BusEvent.triplet.injEq] at he
              obtain ⟨_, rfl⟩ := he
              exact hz
            | succ k2 =>
              simp only [List.getElem?_cons_succ] at he
              exact hnone k2 d2 st2 he
        · right
          refine ⟨k + 1, d, st2, by simpa using hk, hz, by omega, ?_⟩
          intro k2 d2 st3 hk2 he
          cases k2 with
          | zero => omega
          | succ k2 =>
            simp only [List.getElem?_cons_succ] at he
            exact hlater k2 d2 st3 (by omega) he
      · simp only [Option.some.injEq, Prod.mk.injEq] at h
        obtain ⟨rfl, _, _, rfl⟩ := h
        refine ⟨_, rfl, by simp; omega, ?_⟩
        rw [advance_locals]
        simp only [locAt]
        by_cases hz : idBit st = false ∧ cmpIdBit st = false ∧ dirBit st = 0
        · right
          rw [if_pos hz]
          refine ⟨0, searchDirection (locAt p lz) s, st, by simp [locAt], hz, rfl, ?_⟩
          intro k2 d2 st2 hk2 he
          cases k2 with
          | zero => omega
          | succ k2 => simp at he
        · left
          rw [if_neg hz]
          refine ⟨rfl, ?_⟩
          intro k2 d2 st2 he
          cases k2 with
          | zero =>
            simp only [List.getElem?_cons_zero, Option.some.injEq, BusEvent.triplet.injEq] at he
            obtain ⟨_, rfl⟩ := he
            exact hz
          | succ k2 => simp at he

end

/-! ## Two devices that differ at one bit position -/

theorem searchOrder_single (x : Nat) : ∀ (n p : Nat), searchOrder n p [x] = [x] := by
  intro n
  induction n with
  | zero => intro p; simp [searchOrder]
  | succ n ih =>
    intro p
    rw [searchOrder_succ]
    cases hx : wireBit x p <;> simp [List.filter, hx, ih, searchOrder_nil]

theorem lzOf_single (x : Nat) : ∀ (n p lz : Nat), lzOf n p [x] x lz = lz := by
  intro n
  induction n with
  | zero => intro p lz; simp [lzOf]
  | succ n ih =>
    intro p lz
    rw [lzOf]
    have h1 : [x].filter (fun y => wireBit y p == wireBit x p) = [x] := by simp [List.filter]
    rw [h1, ih]
    cases hx : wireBit x p <;> simp [hx]

/-- For two devices that differ at bit position `p` only, `a` with a 0 and
`b` with a 1 there, the search order is `a`, `b`, and the walk to `a` leaves
`p + 1` as last zero-discrepancy. -/
theorem two_order (a b p : Nat) (hap : wireBit a p = false) (hbp : wireBit b p = true)
    (hab : ∀ q, q < 64 → q ≠ p → wireBit a q = wireBit b q) :
    ∀ (n q : Nat), q + n = 64 → q ≤ p → p < 64 →
      searchOrder n q [a, b] = [a, b] ∧ ∀ lz, lzOf n q [a, b] a lz = p + 1 := by
  intro n
  induction n with
  | zero => intro q h1 h2 h3; omega
  | succ n ih =>
    intro q h1 h2 h3
    rw [searchOrder_succ]
    by_cases hq : q = p
    · subst hq
      refine ⟨?_, ?_⟩
      · simp [List.filter, hap, hbp, searchOrder_single]
      · intro lz
        rw [lzOf]
        have hf : [a, b].filter (fun y => wireBit y q == wireBit a q) = [a] := by
          simp [List.filter, hap, hbp]
        rw [hf, lzOf_single]
        simp [hap, hbp]
    · have hqa := hab q (by omega) hq
      obtain ⟨ih1, ih2⟩ := ih (q + 1) (by omega) (by omega) h3
      refine ⟨?_, ?_⟩
      · cases hb : wireBit b q
        · rw [hb] at hqa
          simp [List.filter, hqa, hb, ih1, searchOrder_nil]
        · rw [hb] at hqa
          simp [List.filter, hqa, hb, ih1, searchOrder_nil]
      · intro lz
        rw [lzOf]
        have hf : [a, b].filter (fun y => wireBit y q == wireBit a q) = [a, b] := by
          simp [List.filter, hqa]
        rw [hf, ih2]

/-- What a step leaves when its tail reports a device. -/
theorem OWSearch_tail_found (l : Locals) (t : State) (h : (OWSearch_tail l t).1 ≠ 0) :
    ¬ l.id_bit_number < 65 ∧ t.ROM_NO.getD 0 0 ≠ 0
    ∧ (OWSearch_tail l t).2.ROM_NO = t.ROM_NO
    ∧ (OWSearch_tail l t).2.LastDiscrepancy = l.last_zero
    ∧ (OWSearch_tail l t).2.LastDeviceFlag = (if l.last_zero = 0 then true else t.LastDeviceFlag)
    ∧ (OWSearch_tail l t).1 = (if (if l.last_zero = 0 then true else t.LastDeviceFlag) = true
        then 2 else 1) := by
  unfold OWSearch_tail at h ⊢
  by_cases h65 : l.id_bit_number < 65
  · rw [if_neg (by simpa using h65), OWSearch_finish_none _ _ (Or.inl rfl)] at h
    exact absurd rfl h
  · rw [if_pos h65] at h ⊢
    refine ⟨h65, ?_⟩
    by_cases h0 : t.ROM_NO.getD 0 0 = 0
    · have h3 := OWSearch_finish_none true
        { t with LastDiscrepancy := l.last_zero,
                 LastDeviceFlag := if l.last_zero = 0 then true else t.LastDeviceFlag }
        (Or.inr h0)
      rw [h3] at h
      exact absurd rfl h
    · refine ⟨h0, ?_⟩
      by_cases hf : (if l.last_zero = 0 then true else t.LastDeviceFlag) = true
      · have h3 := OWSearch_finish_last
          { t with LastDiscrepancy := l.last_zero,
                   LastDeviceFlag := if l.last_zero = 0 then true else t.LastDeviceFlag } h0 hf
        rw [h3, if_pos hf]
        have h4 := saveROM_fields
          { t with LastDiscrepancy := l.last_zero,
                   LastDeviceFlag := if l.last_zero = 0 then true else t.LastDeviceFlag }
        dsimp only
        rw [h4.1, h4.2.1, h4.2.2.2.1]
        exact ⟨rfl, rfl, rfl, rfl⟩
      · have hf2 : (if l.last_zero = 0 then true else t.LastDeviceFlag) = false := by
          simpa using hf
        have h3 := OWSearch_finish_more
          { t with LastDiscrepancy := l.last_zero,
                   LastDeviceFlag := if l.last_zero = 0 then true else t.LastDeviceFlag } h0 hf2
        rw [h3, if_neg hf]
        have h4 := saveROM_fields
          { t with LastDiscrepancy := l.last_zero,
                   LastDeviceFlag := if l.last_zero = 0 then true else t.LastDeviceFlag }
        dsimp only
        rw [h4.1, h4.2.1, h4.2.2.2.1]
        exact ⟨rfl, rfl, rfl, rfl⟩

/-- A step whose tail is entered after a complete walk with a non-zero first
ROM byte reports a device. -/
theorem OWSearch_tail_code (l : Locals) (t : State) (h65 : ¬ l.id_bit_number < 65)
    (h0 : t.ROM_NO.getD 0 0 ≠ 0) : (OWSearch_tail l t).1 ≠ 0 := by
  unfold OWSearch_tail
  rw [if_pos h65]
  unfold OWSearch_finish
  dsimp only
  rw [if_neg (by rintro (h1 | h1); exact absurd h1 (by simp); exact h0 h1)]
  split_ifs <;> simp

theorem OWSearch_tail_found_lfd (l : Locals) (t : State) (h : (OWSearch_tail l t).1 ≠ 0) :
    (OWSearch_tail l t).2.LastFamilyDiscrepancy = t.LastFamilyDiscrepancy := by
  obtain ⟨h65, h0, _⟩ := OWSearch_tail_found l t h
  unfold OWSearch_tail
  rw [if_pos h65]
  by_cases hf : (if l.last_zero = 0 then true else t.LastDeviceFlag) = true
  · have h3 := OWSearch_finish_last
      { t with LastDiscrepancy := l.last_zero,
               LastDeviceFlag := if l.last_zero = 0 then true else t.LastDeviceFlag } h0 hf
    rw [h3]
    dsimp only
    rw [(saveROM_fields _).2.2.1]
  · have h3 := OWSearch_finish_more
      { t with LastDiscrepancy := l.last_zero,
               LastDeviceFlag := if l.last_zero = 0 then true else t.LastDeviceFlag } h0
      (by simpa using hf)
    rw [h3]
    dsimp only
    rw [(saveROM_fields _).2.2.1]

/-! ## Independence of a pass from the leftover Search State -/

theorem advance_lfd_congr (l : Locals) (s t : State) (st : Nat)
    (h : s.LastFamilyDiscrepancy = t.LastFamilyDiscrepancy) :
    (OWSearch_advance l s st).2.LastFamilyDiscrepancy
      = (OWSearch_advance l t st).2.LastFamilyDiscrepancy := by
  unfold OWSearch_advance
  dsimp only
  rw [h]

theorem advance_length (l : Locals) (s : State) (st : Nat) (h : s.ROM_NO.length = 8) :
    (OWSearch_advance l s st).2.ROM_NO.length = 8 := by
  unfold OWSearch_advance
  simp [h]

section
variable {W : Type}

/-- Two runs of the loop of `OWSearch` from the same position on the same
bus, from states that agree on `LastDiscrepancy`, `LastFamilyDiscrepancy`,
the ROM bits already written and the ROM bits still to be replayed: they make
the same bus calls, end with the same locals, and after a complete walk the
ROM buffers agree. -/
theorem OWSearch_loop_rel (bus : Bus W) :
    ∀ (fuel p lz : Nat) (s t : State) (w : W), p < 64 →
      s.LastDiscrepancy = t.LastDiscrepancy →
      s.LastFamilyDiscrepancy = t.LastFamilyDiscrepancy →
      s.ROM_NO.length = 8 → t.ROM_NO.length = 8 →
      (∀ q, p ≤ q → q < 64 → q + 1 < s.LastDiscrepancy → getBit s.ROM_NO q = getBit t.ROM_NO q) →
      (∀ q, q < p → getBit s.ROM_NO q = getBit t.ROM_NO q) →
      (OWSearch_loop bus fuel (locAt p lz) s w = none
        ∧ OWSearch_loop bus fuel (locAt p lz) t w = none)
      ∨ ∃ l1 s1 t1 w1, OWSearch_loop bus fuel (locAt p lz) s w = some (l1, s1, w1)
          ∧ OWSearch_loop bus fuel (locAt p lz) t w = some (l1, t1, w1)
          ∧ s1.LastFamilyDiscrepancy = t1.LastFamilyDiscrepancy
          ∧ (¬ l1.id_bit_number < 65 → ∀ q, q < 64 → getBit s1.ROM_NO q = getBit t1.ROM_NO q) := by
  intro fuel
  induction fuel with
  | zero =>
    intro p lz s t w _ _ _ _ _ _ _
    left
    exact ⟨rfl, rfl⟩
  | succ n ih =>
    intro p lz s t w hp hld hlfd hls hlt hfut hpast
    have hdir : searchDirection (locAt p lz) s = searchDirection (locAt p lz) t := by
      rw [searchDirection_eq, searchDirection_eq, ← hld]
      by_cases h1 : p + 1 < s.LastDiscrepancy
      · rw [if_pos h1, if_pos h1, hfut p (le_refl _) hp h1]
      · rw [if_neg h1, if_neg h1]
    rw [OWSearch_loop_step, OWSearch_loop_step, ← hdir]
    cases hb : bus.DS2482_search_triplet (searchDirection (locAt p lz) s) w with
    | none => left; exact ⟨rfl, rfl⟩
    | some r =>
      obtain ⟨st, w1⟩ := r
      dsimp only
      have hbits : ∀ q, q < p + 1 →
          getBit (OWSearch_advance (locAt p lz) s st).2.ROM_NO q
            = getBit (OWSearch_advance (locAt p lz) t st).2.ROM_NO q := by
        intro q hq
        rw [advance_getBit p lz s st q hp hls, advance_getBit p lz t st q hp hlt]
        by_cases hqp : q = p
        · rw [if_pos hqp, if_pos hqp]
        · rw [if_neg hqp, if_neg hqp]
          exact hpast q (by omega)
      by_cases h1 : noDevice st
      · rw [if_pos h1, if_pos h1]
        right
        refine ⟨_, _, _, _, rfl, rfl, hlfd, ?_⟩
        intro h65
        simp only [locAt] at h65
        omega
      · rw [if_neg h1, if_neg h1]
        by_cases h2 : p + 1 < 64
        · rw [if_pos h2, if_pos h2, advance_locals, advance_locals]
          apply ih (p + 1) _ _ _ w1 h2
          · rw [(advance_fields _ _ _).2.2.2.1, (advance_fields _ _ _).2.2.2.1]; exact hld
          · exact advance_lfd_congr _ s t st hlfd
          · exact advance_length _ s st hls
          · exact advance_length _ t st hlt
          · intro q hq1 hq2 hq3
            rw [(advance_fields _ _ _).2.2.2.1] at hq3
            rw [advance_getBit p lz s st q hp hls, advance_getBit p lz t st q hp hlt,
              if_neg (by omega), if_neg (by omega)]
            exact hfut q (by omega) hq2 hq3
          · exact hbits
        · rw [if_neg h2, if_neg h2, advance_locals, advance_locals]
          right
          refine ⟨_, _, _, _, rfl, rfl, advance_lfd_congr _ s t st hlfd, ?_⟩
          intro _ q hq
          exact hbits q (by omega)

/-- The code and the Search State that the tail of `OWSearch` leaves depend
only on the locals and on the Search State it is entered with. -/
theorem OWSearch_tail_rel (l : Locals) (s t : State) (hrom : s.ROM_NO = t.ROM_NO)
    (hlfd : s.LastFamilyDiscrepancy = t.LastFamilyDiscrepancy)
    (hfl : s.LastDeviceFlag = t.LastDeviceFlag) :
    (OWSearch_tail l s).1 = (OWSearch_tail l t).1
    ∧ ((OWSearch_tail l s).1 ≠ 0 → (OWSearch_tail l s).2.search = (OWSearch_tail l t).2.search) := by
  have hcode : (OWSearch_tail l s).1 = (OWSearch_tail l t).1 := by
    by_cases hs : (OWSearch_tail l s).1 = 0
    · by_cases ht : (OWSearch_tail l t).1 = 0
      · rw [hs, ht]
      · obtain ⟨h65, h0, _⟩ := OWSearch_tail_found l t ht
        exact absurd hs (OWSearch_tail_code l s h65 (by rw [hrom]; exact h0))
    · obtain ⟨h65, h0, _, _, _, hc⟩ := OWSearch_tail_found l s hs
      have ht := OWSearch_tail_code l t h65 (by rw [← hrom]; exact h0)
      rw [hc, (OWSearch_tail_found l t ht).2.2.2.2.2, hfl]
  refine ⟨hcode, ?_⟩
  intro hs
  have ht : (OWSearch_tail l t).1 ≠ 0 := by rw [← hcode]; exact hs
  obtain ⟨h65, h0, a1, a2, a3, _⟩ := OWSearch_tail_found l s hs
  obtain ⟨_, _, b1, b2, b3, _⟩ := OWSearch_tail_found l t ht
  have hl := OWSearch_tail_found_lfd l s hs
  have hl2 := OWSearch_tail_found_lfd l t ht
  unfold State.search
  rw [a1, a2, a3, b1, b2, b3, hl, hl2, hrom, hlfd, hfl]

/-- The tail of `OWSearch` does not change the ROM buffer. -/
theorem OWSearch_tail_rom (l : Locals) (s : State) : (OWSearch_tail l s).2.ROM_NO = s.ROM_NO := by
  by_cases hs : (OWSearch_tail l s).1 = 0
  · unfold OWSearch_tail OWSearch_finish at hs ⊢
    dsimp only at hs ⊢
    split_ifs at hs ⊢ <;> rfl
  · exact (OWSearch_tail_found l s hs).2.2.1

end

section
variable {W : Type}

/-- A step of `OWSearch` keeps the typing invariant of the ROM buffer. -/
theorem OWSearch_romOK (bus : Bus W) (fuel : Nat) (s : State) (w : W) (r : Nat) (s1 : State)
    (w1 : W) (h : OWSearch bus fuel s w = some (r, s1, w1)) (hrom : s.romOK) : s1.romOK := by
  unfold OWSearch at h
  dsimp only at h
  by_cases hflag : s.LastDeviceFlag = false
  · rw [if_pos hflag] at h
    cases hres : bus.OWReset w with
    | none => rw [hres] at h; simp at h
    | some p =>
      obtain ⟨b, v1⟩ := p
      rw [hres] at h
      cases b with
      | false =>
        simp only [Option.some.injEq, Prod.mk.injEq] at h
        obtain ⟨_, h2, _⟩ := h
        rw [← h2]
        exact hrom
      | true =>
        dsimp only at h
        cases hwr : bus.OWWriteByte OWSearchCmd v1 with
        | none => rw [hwr] at h; simp at h
        | some q =>
          obtain ⟨x, v2⟩ := q
          rw [hwr] at h
          dsimp only at h
          cases hloop : OWSearch_loop bus fuel Locals.init { s with crc8 := 0 } v2 with
          | none => rw [hloop] at h; simp at h
          | some o =>
            obtain ⟨l, t, v3⟩ := o
            rw [hloop] at h
            simp only [Option.some.injEq, Prod.mk.injEq] at h
            obtain ⟨_, h2, _⟩ := h
            obtain ⟨_, hr⟩ := OWSearch_loop_fields bus fuel _ _ _ _ _ _ hloop
            unfold State.romOK
            rw [← h2, OWSearch_tail_rom]
            exact hr hrom
  · rw [if_neg hflag] at h
    simp only [Option.some.injEq, Prod.mk.injEq] at h
    obtain ⟨_, h2, _⟩ := h
    rw [← h2, OWSearch_finish_none _ _ (Or.inl rfl)]
    exact hrom

/-- Two steps of `OWSearch` from states that agree on `LastDiscrepancy`,
`LastFamilyDiscrepancy`, `LastDeviceFlag` and the ROM bits below
`LastDiscrepancy`, on worlds whose reset responds alike: both fail for lack
of fuel, or they return the same code and world, and after a found device
the same Search State. -/
theorem OWSearch_rel (bus : Bus W) (fuel : Nat) (s t : State) (w v : W)
    (hld : s.LastDiscrepancy = t.LastDiscrepancy)
    (hlfd : s.LastFamilyDiscrepancy = t.LastFamilyDiscrepancy)
    (hfl : s.LastDeviceFlag = t.LastDeviceFlag) (hs : s.romOK) (ht : t.romOK)
    (hbits : ∀ q, q < 64 → q + 1 < s.LastDiscrepancy → getBit s.ROM_NO q = getBit t.ROM_NO q)
    (hreset : bus.OWReset v = bus.OWReset w) (hworld : s.LastDeviceFlag = true → v = w) :
    (OWSearch bus fuel s w = none ∧ OWSearch bus fuel t v = none)
    ∨ ∃ r s1 t1 w1, OWSearch bus fuel s w = some (r, s1, w1)
        ∧ OWSearch bus fuel t v = some (r, t1, w1)
        ∧ (r ≠ 0 → s1.search = t1.search) := by
  unfold OWSearch
  dsimp only
  by_cases hflag : s.LastDeviceFlag = false
  · rw [if_pos hflag, if_pos (by rw [← hfl]; exact hflag), hreset]
    cases hres : bus.OWReset w with
    | none => left; exact ⟨rfl, rfl⟩
    | some p =>
      obtain ⟨b, v1⟩ := p
      cases b with
      | false =>
        right
        exact ⟨_, _, _, _, rfl, rfl, fun h => absurd rfl h⟩
      | true =>
        dsimp only
        cases hwr : bus.OWWriteByte OWSearchCmd v1 with
        | none => left; exact ⟨rfl, rfl⟩
        | some q =>
          obtain ⟨x, v2⟩ := q
          dsimp only
          rcases OWSearch_loop_rel bus fuel 0 0 { s with crc8 := 0 } { t with crc8 := 0 } v2
              (by decide) hld hlfd hs.1 ht.1 (fun q _ h2 h3 => hbits q h2 h3)
              (fun q hq => absurd hq (Nat.not_lt_zero q)) with
            ⟨h1, h2⟩ | ⟨l1, s1, t1, w1, h1, h2, h3, h4⟩
          · left
            rw [show Locals.init = locAt 0 0 from rfl, h1, h2]
            exact ⟨rfl, rfl⟩
          · right
            rw [show Locals.init = locAt 0 0 from rfl, h1, h2]
            dsimp only
            obtain ⟨hf1, hr1⟩ := OWSearch_loop_fields bus fuel _ _ _ _ _ _ h1
            obtain ⟨hf2, hr2⟩ := OWSearch_loop_fields bus fuel _ _ _ _ _ _ h2
            have hfl1 : s1.LastDeviceFlag = t1.LastDeviceFlag := by
              rw [hf1.2.2.2.2.1, hf2.2.2.2.2.1]; exact hfl
            by_cases h65 : l1.id_bit_number < 65
            · have c1 : (OWSearch_tail l1 s1).1 = 0 := by
                unfold OWSearch_tail
                rw [if_neg (by simpa using h65), OWSearch_finish_none _ _ (Or.inl rfl)]
              have c2 : (OWSearch_tail l1 t1).1 = 0 := by
                unfold OWSearch_tail
                rw [if_neg (by simpa using h65), OWSearch_finish_none _ _ (Or.inl rfl)]
              refine ⟨0, _, _, w1, by rw [c1], by rw [c2], fun h => absurd rfl h⟩
            · have hrom : s1.ROM_NO = t1.ROM_NO :=
                rom_ext _ _ (hr1 hs).1 (hr2 ht).1 (hr1 hs).2 (hr2 ht).2 (h4 h65)
              obtain ⟨hc, hsearch⟩ := OWSearch_tail_rel l1 s1 t1 hrom h3 hfl1
              refine ⟨_, _, _, w1, rfl, by rw [hc], hsearch⟩
  · have hflag2 : s.LastDeviceFlag = true := by simpa using hflag
    rw [if_neg hflag, if_neg (by rw [← hfl]; exact hflag), hworld hflag2]
    right
    rw [OWSearch_finish_none _ _ (Or.inl rfl), OWSearch_finish_none _ _ (Or.inl rfl)]
    exact ⟨_, _, _, _, rfl, rfl, fun h => absurd rfl h⟩

/-- States with the same Search State give the same identifiers in the
`OWNext` loop of a pass. -/
theorem OWNext_found_rel (bus : Bus W) (fuel : Nat) :
    ∀ (n : Nat) (s t : State) (w : W), s.search = t.search → s.romOK → t.romOK →
      (OWNext_found bus fuel n t w).map (fun r => (r.1, r.2.2))
        = (OWNext_found bus fuel n s w).map (fun r => (r.1, r.2.2)) := by
  intro n
  induction n with
  | zero => intro s t w _ _ _; rfl
  | succ n ih =>
    intro s t w hst hs ht
    unfold State.search at hst
    simp only [Prod.mk.injEq] at hst
    obtain ⟨e1, e2, e3, e4⟩ := hst
    rw [OWNext_found, OWNext_found]
    unfold OWNext
    rcases OWSearch_rel bus fuel s t w w e2 e3 e4 hs ht (fun q _ _ => by rw [e1]) rfl
        (fun _ => rfl) with ⟨h1, h2⟩ | ⟨r, s1, t1, w1, h1, h2, h3⟩
    · rw [h1, h2]
    · rw [h1, h2]
      dsimp only
      by_cases hr : r = 0
      · rw [if_neg (by simpa using hr), if_neg (by simpa using hr)]
        rfl
      · rw [if_pos hr, if_pos hr]
        have hrec := ih s1 t1 w1 (h3 hr) (OWSearch_romOK bus fuel s w r s1 w1 h1 hs)
          (OWSearch_romOK bus fuel t w r t1 w1 h2 ht)
        have hrom : s1.ROM_NO = t1.ROM_NO := congrArg Prod.fst (h3 hr)
        cases ha : OWNext_found bus fuel n s1 w1 with
        | none =>
          rw [ha] at hrec
          cases hb : OWNext_found bus fuel n t1 w1 with
          | none => rfl
          | some b => rw [hb] at hrec; simp at hrec
        | some a =>
          rw [ha] at hrec
          cases hb : OWNext_found bus fuel n t1 w1 with
          | none => rw [hb] at hrec; simp at hrec
          | some b =>
            rw [hb] at hrec
            simp only [Option.map_some', Option.some.injEq, Prod.mk.injEq] at hrec
            simp only [Option.map_some', Option.some.injEq, Prod.mk.injEq, List.cons.injEq]
            exact ⟨⟨hrom.symm, hrec.1⟩, hrec.2⟩

/-- The identifiers and the final world of a pass depend on the bus only,
through the response of its reset. -/
theorem OWPass_found_rel (bus : Bus W) (fuel : Nat) (s t : State) (w v : W) (hs : s.romOK)
    (ht : t.romOK) (hreset : bus.OWReset v = bus.OWReset w) :
    (OWPass_found bus fuel t v).map (fun r => (r.1, r.2.2))
      = (OWPass_found bus fuel s w).map (fun r => (r.1, r.2.2)) := by
  unfold OWPass_found OWFirst
  rcases OWSearch_rel bus fuel
      { s with LastDiscrepancy := 0, LastDeviceFlag := false, LastFamilyDiscrepancy := 0 }
      { t with LastDiscrepancy := 0, LastDeviceFlag := false, LastFamilyDiscrepancy := 0 }
      w v rfl rfl rfl hs ht (fun q _ h => absurd h (Nat.not_lt_zero _)) hreset
      (fun h => absurd h (by simp)) with ⟨h1, h2⟩ | ⟨r, s1, t1, w1, h1, h2, h3⟩
  · rw [h1, h2]
  · rw [h1, h2]
    dsimp only
    by_cases hr : r = 0
    · rw [if_neg (by simpa using hr), if_neg (by simpa using hr)]
      rfl
    · rw [if_pos hr, if_pos hr]
      have hrec := OWNext_found_rel bus fuel fuel s1 t1 w1 (h3 hr)
        (OWSearch_romOK bus fuel _ w r s1 w1 h1 hs) (OWSearch_romOK bus fuel _ v r t1 w1 h2 ht)
      have hrom : s1.ROM_NO = t1.ROM_NO := congrArg Prod.fst (h3 hr)
      cases ha : OWNext_found bus fuel fuel s1 w1 with
      | none =>
        rw [ha] at hrec
        cases hb : OWNext_found bus fuel fuel t1 w1 with
        | none => rfl
        | some b => rw [hb] at hrec; simp at hrec
      | some a =>
        rw [ha] at hrec
        cases hb : OWNext_found bus fuel fuel t1 w1 with
        | none => rw [hb] at hrec; simp at hrec
        | some b =>
          rw [hb] at hrec
          simp only [Option.map_some', Option.some.injEq, Prod.mk.injEq] at hrec
          simp only [Option.map_some', Option.some.injEq, Prod.mk.injEq, List.cons.injEq]
          exact ⟨⟨hrom.symm, hrec.1⟩, hrec.2⟩

/-- The `OWNext` loop of a pass keeps the typing invariant of the ROM
buffer. -/
theorem OWNext_found_romOK (bus : Bus W) (fuel : Nat) :
    ∀ (n : Nat) (s : State) (w : W) (ids : List (List Nat)) (s1 : State) (w1 : W),
      OWNext_found bus fuel n s w = some (ids, s1, w1) → s.romOK → s1.romOK := by
  intro n
  induction n with
  | zero => intro s w ids s1 w1 h _; simp [OWNext_found] at h
  | succ n ih =>
    intro s w ids s1 w1 h hs
    rw [OWNext_found] at h
    cases hstep : OWNext bus fuel s w with
    | none => rw [hstep] at h; simp at h
    | some p =>
      obtain ⟨r, t, v⟩ := p
      rw [hstep] at h
      dsimp only at h
      have ht := OWSearch_romOK bus fuel s w r t v hstep hs
      by_cases hr : r = 0
      · rw [if_neg (by simpa using hr)] at h
        simp only [Option.some.injEq, Prod.mk.injEq] at h
        rw [← h.2.1]
        exact ht
      · rw [if_pos hr] at h
        cases hrec : OWNext_found bus fuel n t v with
        | none => rw [hrec] at h; simp at h
        | some q =>
          obtain ⟨ids2, t2, v2⟩ := q
          rw [hrec] at h
          simp only [Option.some.injEq, Prod.mk.injEq] at h
          rw [← h.2.1]
          exact ih t v ids2 t2 v2 hrec ht

theorem OWPass_found_romOK (bus : Bus W) (fuel : Nat) (s : State) (w : W)
    (ids : List (List Nat)) (s1 : State) (w1 : W)
    (h : OWPass_found bus fuel s w = some (ids, s1, w1)) (hs : s.romOK) : s1.romOK := by
  unfold OWPass_found at h
  cases hstep : OWFirst bus fuel s w with
  | none => rw [hstep] at h; simp at h
  | some p =>
    obtain ⟨r, t, v⟩ := p
    rw [hstep] at h
    dsimp only at h
    have ht : t.romOK := OWSearch_romOK bus fuel _ w r t v hstep hs
    by_cases hr : r = 0
    · rw [if_neg (by simpa using hr)] at h
      simp only [Option.some.injEq, Prod.mk.injEq] at h
      rw [← h.2.1]
      exact ht
    · rw [if_pos hr] at h
      cases hrec : OWNext_found bus fuel fuel t v with
      | none => rw [hrec] at h; simp at h
      | some q =>
        obtain ⟨ids2, t2, v2⟩ := q
        rw [hrec] at h
        simp only [Option.some.injEq, Prod.mk.injEq] at h
        rw [← h.2.1]
        exact OWNext_found_romOK bus fuel fuel t v ids2 t2 v2 hrec ht

/-- The ghost output does not change what a pass does: `OWPass_found` ends in
the state and the world of `OWPass`. -/
theorem OWNext_found_eq (bus : Bus W) (fuel : Nat) :
    ∀ (n : Nat) (s : State) (w : W),
      (OWNext_found bus fuel n s w).map (fun r => r.2)
        = (OWNext_loop bus fuel n s w).map (fun r => r.2) := by
  intro n
  induction n with
  | zero => intro s w; rfl
  | succ n ih =>
    intro s w
    rw [OWNext_found, OWNext_loop]
    cases hstep : OWNext bus fuel s w with
    | none => rfl
    | some p =>
      obtain ⟨r, t, v⟩ := p
      dsimp only
      by_cases hr : r = 0
      · rw [if_neg (by simpa using hr), if_neg (by simpa using hr)]
        rfl
      · rw [if_pos hr, if_pos hr]
        have hrec := ih t v
        cases ha : OWNext_found bus fuel n t v <;> cases hb : OWNext_loop bus fuel n t v <;>
          rw [ha, hb] at hrec <;> simp_all

theorem OWPass_found_eq (bus : Bus W) (fuel : Nat) (s : State) (w : W) :
    (OWPass_found bus fuel s w).map (fun r => r.2) = (OWPass bus fuel s w).map (fun r => r.2) := by
  unfold OWPass_found OWPass
  cases hstep : OWFirst bus fuel s w with
  | none => rfl
  | some p =>
    obtain ⟨r, t, v⟩ := p
    dsimp only
    by_cases hr : r = 0
    · rw [if_neg (by simpa using hr), if_neg (by simpa using hr)]
      rfl
    · rw [if_pos hr, if_pos hr]
      have hrec := OWNext_found_eq bus fuel fuel t v
      cases ha : OWNext_found bus fuel fuel t v <;> cases hb : OWNext_loop bus fuel fuel t v <;>
        rw [ha, hb] at hrec <;> simp_all

end

/-! ## The iterations of the walk loop -/

section
variable {W : Type}

/-- The ghost output does not change the loop. -/
theorem OWSearch_loop_iters_eq (bus : Bus W) :
    ∀ (fuel : Nat) (l : Locals) (s : State) (w : W),
      (OWSearch_loop_iters bus fuel l s w).map (fun r => r.2) = OWSearch_loop bus fuel l s w := by
  intro fuel
  induction fuel with
  | zero => intro l s w; rfl
  | succ n ih =>
    intro l s w
    rw [OWSearch_loop_iters, OWSearch_loop]
    cases hb : bus.DS2482_search_triplet (searchDirection l s) w with
    | none => rfl
    | some r =>
      obtain ⟨st, w1⟩ := r
      dsimp only
      split_ifs with h1 h2
      · rfl
      · rw [← ih]
        cases OWSearch_loop_iters bus n (OWSearch_advance l s st).1 (OWSearch_advance l s st).2 w1
          <;> rfl
      · rfl

/-- One iteration of the instrumented loop at bit position `p`. -/
theorem OWSearch_loop_iters_step (bus : Bus W) (fuel p lz : Nat) (s : State) (w : W) :
    OWSearch_loop_iters bus (fuel + 1) (locAt p lz) s w =
      match bus.DS2482_search_triplet (searchDirection (locAt p lz) s) w with
      | none => none
      | some (st, w1) =>
        if noDevice st then some ([(locAt p lz, st)], locAt p lz, s, w1)
        else if p + 1 < 64 then
          match OWSearch_loop_iters bus fuel (OWSearch_advance (locAt p lz) s st).1
            (OWSearch_advance (locAt p lz) s st).2 w1 with
          | none => none
          | some (its, r) => some ((locAt p lz, st) :: its, r)
        else some ([(locAt p lz, st)], (OWSearch_advance (locAt p lz) s st).1,
          (OWSearch_advance (locAt p lz) s st).2, w1) := by
  rw [OWSearch_loop_iters]
  cases h : bus.DS2482_search_triplet (searchDirection (locAt p lz) s) w with
  | none => rfl
  | some r =>
    obtain ⟨st, w1⟩ := r
    dsimp only
    simp only [noDevice_iff]
    have e : (OWSearch_advance (locAt p lz) s st).1.rom_byte_number < 8 ↔ p + 1 < 64 := by
      rw [advance_locals]
      simp only [locAt]
      omega
    simp only [e] <;> rfl

/-- On a bus whose triplets always return, the walk loop entered at bit
position `p` ends within `64 - p` iterations; iteration `k` runs with the
locals of position `p + k`; and the loop ends with `id_bit_number = 65` and no
status with both read bits set, or below 65 after such a status. -/
theorem OWSearch_loop_iters_spec (bus : Bus W)
    (htotal : ∀ d v, bus.DS2482_search_triplet d v ≠ none) :
    ∀ (fuel p lz : Nat) (s : State) (w : W), p < 64 → 64 ≤ fuel + p →
      ∃ its l1 s1 w1, OWSearch_loop_iters bus fuel (locAt p lz) s w = some (its, l1, s1, w1)
        ∧ 1 ≤ its.length ∧ its.length + p ≤ 64
        ∧ (∀ k, k < its.length → ∃ lz2 st, its[k]? = some (locAt (p + k) lz2, st))
        ∧ ((l1.id_bit_number = 65 ∧ ∀ it ∈ its, ¬ noDevice it.2)
          ∨ (l1.id_bit_number < 65 ∧ ∃ it ∈ its, noDevice it.2)) := by
  intro fuel
  induction fuel with
  | zero => intro p lz s w h1 h2; omega
  | succ n ih =>
    intro p lz s w hp hfuel
    rw [OWSearch_loop_iters_step]
    cases hb : bus.DS2482_search_triplet (searchDirection (locAt p lz) s) w with
    | none => exact absurd hb (htotal _ _)
    | some r =>
      obtain ⟨st, w1⟩ := r
      dsimp only
      have hone : ∀ k, k < [(locAt p lz, st)].length →
          ∃ lz2 st2, [(locAt p lz, st)][k]? = some (locAt (p + k) lz2, st2) := by
        intro k hk
        simp only [List.length_singleton, Nat.lt_one_iff] at hk
        subst hk
        exact ⟨lz, st, by simp⟩
      by_cases h1 : noDevice st
      · rw [if_pos h1]
        refine ⟨_, _, _, _, rfl, by simp, by simp; omega, hone,
          Or.inr ⟨?_, (locAt p lz, st), by simp, h1⟩⟩
        simp only [locAt]
        omega
      · rw [if_neg h1]
        by_cases h2 : p + 1 < 64
        · rw [if_pos h2, advance_locals]
          obtain ⟨its, l1, s1, w2, hrun, hlen1, hlen, hloc, hcase⟩ :=
            ih (p + 1) _ (OWSearch_advance (locAt p lz) s st).2 w1 h2 (by omega)
          rw [hrun]
          refine ⟨(locAt p lz, st) :: its, l1, s1, w2, rfl, by simp, by simp; omega, ?_, ?_⟩
          · intro k hk
            cases k with
            | zero => exact ⟨lz, st, by simp⟩
            | succ k =>
              obtain ⟨lz2, st2, hk2⟩ := hloc k (by simpa using hk)
              refine ⟨lz2, st2, ?_⟩
              rw [List.getElem?_cons_succ, hk2]
              have e1 : p + 1 + k = p + (k + 1) := by omega
              rw [e1]
          · rcases hcase with ⟨h65, hall⟩ | ⟨h65, it, hit, hnd⟩
            · left
              refine ⟨h65, ?_⟩
              intro it hit
              rcases List.mem_cons.1 hit with rfl | hit
              · exact h1
              · exact hall it hit
            · right
              exact ⟨h65, it, List.mem_cons_of_mem _ hit, hnd⟩
        · rw [if_neg h2]
          refine ⟨_, _, _, _, rfl, by simp, by simp; omega, hone, Or.inl ⟨?_, ?_⟩⟩
          · rw [advance_locals]
            simp only [locAt]
            omega
          · intro it hit
            simp only [List.mem_singleton] at hit
            rw [hit]
            exact h1

end

/-! # Main results -/

/-! ## C1: enumeration of a simulated bus -/

/-- C1, counterexample: a simulated bus with the single device
`0x0012345678ABCD00` (a 64-bit identifier whose ROM byte 0 is zero). The
pass consists of one call that returns 0, so a device is reported 0 times
and not once, and registry slot 0 stays empty. -/
theorem enumeration_misses_zero_family :
    [0x0012345678ABCD00].Nodup ∧ (∀ d ∈ [0x0012345678ABCD00], d < 2 ^ 64)
    ∧ (OWPass simBus 64 State.init (SimWorld.init [0x0012345678ABCD00])).map
        (fun r => (r.1, (r.1.filter (fun c => c ≠ 0)).length, r.2.1.slotID 0))
        = some ([0], 0, 0) := by
  refine ⟨by decide, by decide, by decide⟩

/-- C1 (amended): for every list of `k` devices with distinct 64-bit
identifiers whose ROM byte 0 (family code) is non-zero, on the simulated bus,
from a well-typed state whose registry write index leaves room for them
(`iter + k <= 16`), a pass with enough fuel returns: its calls report a
found device exactly `k` times (codes 1, ..., 1, 2 and the closing 0), the
registry slots `iter`, ..., `iter + k - 1` hold the identifiers in the order
of the depth-first walk that takes the 0 branch first, and that order is a
rearrangement of the device list with no repetition and no zero. -/
theorem enumeration_on_simulated_bus (devs : List Nat) (s : State) (w : SimWorld) (fuel : Nat)
    (hnd : devs.Nodup) (h64 : ∀ d ∈ devs, d < 2 ^ 64) (hfam : ∀ d ∈ devs, romByte d 0 ≠ 0)
    (hcap : s.iter + devs.length ≤ 16) (hwf : s.wf) (hw : w.devices = devs)
    (hfuel : 64 ≤ fuel) :
    ∃ s2 w2, OWPass simBus fuel s w = some (passCodes devs.length, s2, w2)
      ∧ ((passCodes devs.length).filter (fun r => r ≠ 0)).length = devs.length
      ∧ (List.range devs.length).map (fun i => s2.slotID (s.iter + i)) = searchOrder 64 0 devs
      ∧ (searchOrder 64 0 devs).Perm devs ∧ (searchOrder 64 0 devs).Nodup
      ∧ ∀ d ∈ searchOrder 64 0 devs, d ≠ 0 := by
  have hperm := searchOrder_perm_top devs hnd h64
  have hnz : ∀ d ∈ searchOrder 64 0 devs, d ≠ 0 := by
    intro d hd h0
    have := hfam d (hperm.mem_iff.1 hd)
    rw [h0] at this
    exact this (by simp [romByte])
  by_cases hD : devs = []
  · subst hD
    have hreset : simBus.OWReset w = some (false, { w with active := w.devices, pos := 0 }) := by
      simp [simBus, hw]
    obtain ⟨s2, w2, hpass⟩ : ∃ s2 w2, OWPass simBus fuel s w = some (passCodes 0, s2, w2) := by
      refine ⟨{ s with crc8 := 0, LastDiscrepancy := 0, LastDeviceFlag := false,
                       LastFamilyDiscrepancy := 0 },
        { w with active := w.devices, pos := 0 }, ?_⟩
      unfold OWPass OWFirst
      rw [OWSearch_no_presence simBus fuel _ w _ rfl hreset]
      rfl
    exact ⟨s2, w2, hpass, passCodes_count _, by simp [searchOrder_nil], hperm,
      hperm.nodup_iff.2 hnd, hnz⟩
  · obtain ⟨y, post, t, w1, hso, hyD, hwalk, hw1, -, -, hbits⟩ :=
      walk_min devs 64 0 devs 0
        { s with crc8 := 0, LastDiscrepancy := 0, LastDeviceFlag := false,
                 LastFamilyDiscrepancy := 0 }
        fuel rfl hfuel hD (le_refl _) ⟨hwf.1, hwf.2.1⟩
    have hpos : 0 < devs.length := List.length_pos.2 hD
    have hlen : post.length + 1 = devs.length := by
      rw [← hperm.length_eq, hso]
      rfl
    obtain ⟨s1, hsearch, hrom1, hld1, hflag1, hiter1, hslot1, -, hwf1⟩ :=
      sim_search_of_walk devs fuel
        { s with LastDiscrepancy := 0, LastDeviceFlag := false, LastFamilyDiscrepancy := 0 }
        w y (lzOf 64 0 devs y 0) t w1 rfl hD hw hwf (by show s.iter < 16; omega) (h64 y hyD)
        (hfam y hyD) hwalk (fun q hq => hbits q (Nat.zero_le _) hq)
    have hL : searchOrder 64 0 devs = [] ++ y :: post := hso
    obtain ⟨s2, w2, hloop, hfinal⟩ := sim_next_loop devs fuel s.iter hnd h64 hfam hcap hfuel
      post [] y s1 w1 fuel hL hrom1 hld1 (by rw [hflag1, hld1]) hwf1
      (by
        intro hfl
        have hzn : lzOf 64 0 devs y 0 ≠ 0 := by
          intro hz
          rw [hflag1, hz] at hfl
          simp at hfl
        rw [hiter1, if_neg hzn]
        rfl)
      hw1 (by omega)
      (by
        intro i hi
        have hi0 : i = 0 := by simpa using hi
        subst hi0
        exact hslot1)
    have hcode : (if lzOf 64 0 devs y 0 = 0 then 2 else 1)
        = (if post.length = 0 then 2 else 1) := by
      have := lzOf_zero_iff_last devs hnd h64 [] post y hL
      by_cases hp : post = []
      · rw [if_pos (this.2 hp), if_pos (by rw [hp]; rfl)]
      · rw [if_neg (fun h => hp (this.1 h)),
          if_neg (fun h => hp (List.length_eq_zero.1 h))]
    refine ⟨s2, w2, ?_, passCodes_count _, ?_, hperm, hperm.nodup_iff.2 hnd, hnz⟩
    · unfold OWPass OWFirst
      rw [hsearch]
      dsimp only
      rw [if_pos (by split_ifs <;> simp), hloop, ← hlen, passCodes_succ, hcode]
    · apply List.ext_getElem
      · rw [List.length_map, List.length_range, hperm.length_eq]
      · intro i h1 h2
        rw [List.getElem_map, List.getElem_range, hfinal i h2, List.getD_eq_getElem _ _ h2]

/-- C1, witness: the three devices of `threeDevices` on the simulated bus,
from the initial state. -/
theorem enumeration_on_simulated_bus_witness :
    ∃ s2 w2, OWPass simBus 64 State.init (SimWorld.init threeDevices)
        = some (passCodes threeDevices.length, s2, w2)
      ∧ ((passCodes threeDevices.length).filter (fun r => r ≠ 0)).length = threeDevices.length
      ∧ (List.range threeDevices.length).map (fun i => s2.slotID (State.init.iter + i))
          = searchOrder 64 0 threeDevices
      ∧ (searchOrder 64 0 threeDevices).Perm threeDevices
      ∧ (searchOrder 64 0 threeDevices).Nodup
      ∧ ∀ d ∈ searchOrder 64 0 threeDevices, d ≠ 0 :=
  enumeration_on_simulated_bus threeDevices State.init (SimWorld.init threeDevices) 64
    (by decide) (by decide) (by decide) (by decide) (by decide) rfl (by decide)

/-! ## C2, C3: the triplet command -/

/-- C2: the transfers `DS2482_search_triplet` performs do not depend on the
search direction. For every environment the call with direction `d` is the
call with direction 0, world included; on a recorded idle link the triplet
command `0x78` is written with an empty data part for `d = 1` and for
`d = 0`, so no direction byte reaches the bridge and the bytes written for
the two directions are the same. -/
theorem triplet_direction_not_sent :
    (∀ (W : Type) (env : Env W) (fuel addr d : Nat) (w : W),
      DS2482_search_triplet env fuel addr d w = DS2482_search_triplet env fuel addr 0 w)
    ∧ (DS2482_search_triplet scriptEnv 1 0x30 1 ⟨[], [], []⟩).map (fun r => r.2.writes)
        = some [(0x30, 0xE1, [0xF0]), (0x30, 0x78, []), (0x30, 0xE1, [0xF0])]
    ∧ (DS2482_search_triplet scriptEnv 1 0x30 0 ⟨[], [], []⟩).map (fun r => r.2.writes)
        = some [(0x30, 0xE1, [0xF0]), (0x30, 0x78, []), (0x30, 0xE1, [0xF0])] := by
  refine ⟨?_, by decide, by decide⟩
  intro W env fuel addr d w
  rfl

/-- C3: on the scripted link `stuckFirstTriplet` the busy-wait that opens
the first triplet of the search times out (result 1), and yet `OWSearch`
returns 1 (device found), leaves `LastDiscrepancy = 1` and
`LastFamilyDiscrepancy = 1`, and stores the identifier `0xFEFFFFFFFFFFFFFF`
in registry slot 0: the timeout code 1 is decoded as a status byte with both
read bits 0 and direction 0. -/
theorem search_after_triplet_timeout :
    (((OWReset scriptEnv 2 0x30 stuckFirstTriplet).bind
        (fun r => OWWriteByte scriptEnv 2 0x30 OWSearchCmd r.2)).bind
        (fun r => OWBusyWait scriptEnv 2 0x30 r.2)).map (fun r => r.1.1) = some 1
    ∧ (OWSearch (realBus scriptEnv 2 0x30) 64 State.init stuckFirstTriplet).map
        (fun r => (r.1, r.2.1.LastDiscrepancy, r.2.1.LastFamilyDiscrepancy, r.2.1.slotID 0))
        = some (1, 1, 1, 0xFEFFFFFFFFFFFFFF) := by
  constructor
  · decide
  · decide

/-! ## C4, C5, C6: search steps that end without a device -/

/-- A state whose search counters are zero is treated by `OWNext` as by
`OWFirst`. -/
theorem OWFirst_eq_OWNext {V : Type} (bus : Bus V) (fuel : Nat) (s : State) (v : V)
    (h1 : s.LastDiscrepancy = 0) (h2 : s.LastFamilyDiscrepancy = 0)
    (h3 : s.LastDeviceFlag = false) : OWNext bus fuel s v = OWFirst bus fuel s v := by
  cases s
  simp only at h1 h2 h3
  subst h1 h2 h3
  rfl

/-- C4: let `OWSearch` run on a recording bus, from an empty record. If the
record of the call holds, at index `i`, a triplet whose status has both the
bit-read flag (bit 5) and the complement flag (bit 6) set, then that triplet
is the last event of the record (no further triplet, nor anything else, was
issued), the call returns 0, the registry is unchanged, `LastDiscrepancy`,
`LastFamilyDiscrepancy`, `LastDeviceFlag` and the write index `iter` are
zero, and on every bus a following `OWNext` is the same computation as
`OWFirst`. -/
theorem search_abort_no_device {W : Type} (bus : Bus W) (fuel : Nat) (s : State) (w : W)
    (r : Nat) (s1 : State) (w1 : W) (log1 : List BusEvent)
    (h : OWSearch (logBus bus) fuel s (w, []) = some (r, s1, (w1, log1)))
    (i d st : Nat) (hi : log1[i]? = some (BusEvent.triplet d st)) (hnd : noDevice st) :
    i + 1 = log1.length ∧ r = 0 ∧ s1.OWIDU = s.OWIDU ∧ s1.oob = s.oob
    ∧ s1.LastDiscrepancy = 0 ∧ s1.LastFamilyDiscrepancy = 0 ∧ s1.LastDeviceFlag = false
    ∧ s1.iter = 0
    ∧ ∀ (V : Type) (bus2 : Bus V) (fuel2 : Nat) (v : V),
        OWNext bus2 fuel2 s1 v = OWFirst bus2 fuel2 s1 v := by
  have hmem : BusEvent.triplet d st ∈ log1 := List.getElem?_mem hi
  unfold OWSearch at h
  dsimp only at h
  split_ifs at h with hflag
  · cases hr : bus.OWReset w with
    | none => simp [logBus, hr] at h
    | some rr =>
      obtain ⟨pres, w2⟩ := rr
      cases pres with
      | false =>
        simp only [logBus, hr, Option.some.injEq, Prod.mk.injEq] at h
        obtain ⟨-, -, -, rfl⟩ := h
        simp at hmem
      | true =>
        cases hw : bus.OWWriteByte OWSearchCmd w2 with
        | none => simp [logBus, hr, hw] at h
        | some ww =>
          obtain ⟨x, w3⟩ := ww
          simp only [logBus, hr, hw, List.nil_append] at h
          split at h
          · simp at h
          · rename_i l2 s2 w4 hloop
            obtain ⟨w4, log4⟩ := w4
            simp only [Option.some.injEq, Prod.mk.injEq] at h
            obtain ⟨hr1, hs1, rfl, rfl⟩ := h
            obtain ⟨hf, evs, hlog, hcase⟩ :=
              OWSearch_loop_log bus fuel 0 0 _ _ _ _ _ _ _ (by decide) hloop
            rcases hcase with ⟨-, hall⟩ | ⟨h65, pre, d2, st2, hevs, -, hall⟩
            · exfalso
              rw [hlog] at hmem
              simp only [List.mem_append, List.mem_singleton, List.mem_cons, List.not_mem_nil,
                or_false] at hmem
              rcases hmem with (hm | hm) | hm
              · cases hm
              · cases hm
              · obtain ⟨d3, st3, he, hn⟩ := hall _ hm
                cases he
                exact hn hnd
            · have htail : OWSearch_tail l2 s2 = OWSearch_finish false s2 := by
                unfold OWSearch_tail
                rw [if_neg (by simpa using h65)]
              rw [htail, OWSearch_finish_none _ _ (Or.inl rfl)] at hr1 hs1
              subst hr1 hs1
              refine ⟨?_, rfl, hf.1, hf.2.1, rfl, rfl, rfl, rfl, ?_⟩
              · have hl : log4 = ([BusEvent.reset true, BusEvent.write OWSearchCmd] ++ pre)
                    ++ [BusEvent.triplet d2 st2] := by
                  rw [hlog, hevs]
                  simp
                have hfront : ∀ e ∈ [BusEvent.reset true, BusEvent.write OWSearchCmd] ++ pre,
                    e ≠ BusEvent.triplet d st := by
                  intro e he heq
                  subst heq
                  simp only [List.mem_append, List.mem_cons, List.mem_singleton,
                    List.not_mem_nil, or_false] at he
                  rcases he with (hm | hm) | hm
                  · cases hm
                  · cases hm
                  · obtain ⟨d3, st3, he3, hn⟩ := hall _ hm
                    cases he3
                    exact hn hnd
                rw [hl] at hi ⊢
                by_cases hlt : i < ([BusEvent.reset true, BusEvent.write OWSearchCmd] ++ pre).length
                · rw [List.getElem?_append_left hlt] at hi
                  exact absurd rfl (hfront _ (List.getElem?_mem hi))
                · rw [List.getElem?_append_right (Nat.le_of_not_lt hlt)] at hi
                  have h0 : i - ([BusEvent.reset true, BusEvent.write OWSearchCmd] ++ pre).length
                      = 0 := by
                    by_contra hne
                    obtain ⟨k, hk⟩ := Nat.exists_eq_succ_of_ne_zero hne
                    rw [hk] at hi
                    simp at hi
                  rw [List.length_append, List.length_singleton]
                  omega
              · intro V bus2 fuel2 v
                exact OWFirst_eq_OWNext bus2 fuel2 _ v rfl rfl rfl
  · simp only [Option.some.injEq, Prod.mk.injEq] at h
    obtain ⟨-, -, -, rfl⟩ := h
    simp at hmem

/-- C4, witness: a bus whose first triplet answers `0x60`. -/
theorem search_abort_no_device_witness :
    2 + 1 = [BusEvent.reset true, BusEvent.write OWSearchCmd, BusEvent.triplet 0 0x60].length
    ∧ (0 : Nat) = 0 ∧ State.init.OWIDU = State.init.OWIDU ∧ State.init.oob = State.init.oob
    ∧ State.init.LastDiscrepancy = 0 ∧ State.init.LastFamilyDiscrepancy = 0
    ∧ State.init.LastDeviceFlag = false ∧ State.init.iter = 0
    ∧ ∀ (V : Type) (bus2 : Bus V) (fuel2 : Nat) (v : V),
        OWNext bus2 fuel2 State.init v = OWFirst bus2 fuel2 State.init v :=
  search_abort_no_device replayBus 64 State.init [0x60] 0 State.init []
    [BusEvent.reset true, BusEvent.write OWSearchCmd, BusEvent.triplet 0 0x60] (by decide)
    2 0 0x60 (by decide) (by decide)

/-- C5: let the bus reset report no presence pulse. Then `OWSearch`, entered
with `LastDeviceFlag` clear (so that the reset takes place), returns 0 with
the world as the reset left it (on a recording bus the record holds the
reset alone: no search command, no triplet), the registry and `iter`
untouched and `LastDiscrepancy`, `LastFamilyDiscrepancy`, `LastDeviceFlag`
zero; and `OWDeviceSearch`, whose first step clears `LastDeviceFlag`
itself, returns 0 from every state. -/
theorem search_no_presence {W : Type} (bus : Bus W) (fuel : Nat) (s : State) (w w1 : W)
    (hreset : bus.OWReset w = some (false, w1)) :
    (s.LastDeviceFlag = false →
      OWSearch bus fuel s w
          = some (0, { s with crc8 := 0, LastDiscrepancy := 0, LastFamilyDiscrepancy := 0 }, w1)
      ∧ OWSearch (logBus bus) fuel s (w, [])
          = some (0, { s with crc8 := 0, LastDiscrepancy := 0, LastFamilyDiscrepancy := 0 },
              (w1, [BusEvent.reset false])))
    ∧ (OWDeviceSearch bus fuel s w).map (fun r => (r.1, r.2.2)) = some (0, w1) := by
  refine ⟨fun hflag => ⟨OWSearch_no_presence bus fuel s w w1 hflag hreset, ?_⟩, ?_⟩
  · exact OWSearch_no_presence (logBus bus) fuel s (w, []) (w1, [BusEvent.reset false]) hflag
      (by simp [logBus, hreset])
  · simp [OWDeviceSearch, OWPass, OWFirst, OWSearch, hreset]

/-- C5, witness: the simulated bus without devices. -/
theorem search_no_presence_witness :
    (OWSearch simBus 64 State.init (SimWorld.init [])
        = some (0, { State.init with crc8 := 0, LastDiscrepancy := 0,
                                     LastFamilyDiscrepancy := 0 }, SimWorld.init [])
      ∧ OWSearch (logBus simBus) 64 State.init (SimWorld.init [], [])
          = some (0, { State.init with crc8 := 0, LastDiscrepancy := 0,
                                       LastFamilyDiscrepancy := 0 },
              (SimWorld.init [], [BusEvent.reset false])))
    ∧ (OWDeviceSearch simBus 64 State.init (SimWorld.init [])).map (fun r => (r.1, r.2.2))
        = some (0, SimWorld.init []) :=
  ⟨(search_no_presence simBus 64 State.init (SimWorld.init []) (SimWorld.init []) rfl).1 rfl,
    (search_no_presence simBus 64 State.init (SimWorld.init []) (SimWorld.init []) rfl).2⟩

/-- C6: when `LastDeviceFlag` is set on entry, `OWSearch` returns 0 with the
world unchanged (no bus operation, whatever the bus), the registry unchanged
and `LastDiscrepancy`, `LastFamilyDiscrepancy`, `LastDeviceFlag` (and
`iter`) zero; and a call that returns 2, the code of the step that found the
last device, leaves `LastDeviceFlag` set, so the `OWNext` after it returns 0
without touching the bus. -/
theorem search_after_last_device {W : Type} (bus : Bus W) (fuel : Nat) (s : State) (w : W) :
    (s.LastDeviceFlag = true →
      OWSearch bus fuel s w
        = some (0, { s with crc8 := 0, LastDiscrepancy := 0, LastFamilyDiscrepancy := 0,
                            LastDeviceFlag := false, iter := 0 }, w))
    ∧ (∀ (s1 : State) (w1 : W), OWSearch bus fuel s w = some (2, s1, w1) →
        s1.LastDeviceFlag = true
        ∧ OWNext bus fuel s1 w1
          = some (0, { s1 with crc8 := 0, LastDiscrepancy := 0, LastFamilyDiscrepancy := 0,
                               LastDeviceFlag := false, iter := 0 }, w1)) := by
  refine ⟨OWSearch_flag_set bus fuel s w, ?_⟩
  intro s1 w1 h
  have hflag : s1.LastDeviceFlag = true := OWSearch_two bus fuel s w s1 w1 h
  exact ⟨hflag, OWSearch_flag_set bus fuel s1 w1 hflag⟩

/-- C6, witness: the state left by the step that found the only device of a
simulated bus, and that step itself. -/
theorem search_after_last_device_witness :
    OWSearch simBus 64 State.oneFound ⟨[0x280000001234AB7E], [0x280000001234AB7E], 64⟩
        = some (0, { State.oneFound with crc8 := 0, LastDiscrepancy := 0,
                                         LastFamilyDiscrepancy := 0, LastDeviceFlag := false,
                                         iter := 0 },
            ⟨[0x280000001234AB7E], [0x280000001234AB7E], 64⟩)
    ∧ (State.oneFound.LastDeviceFlag = true
      ∧ OWNext simBus 64 State.oneFound ⟨[0x280000001234AB7E], [0x280000001234AB7E], 64⟩
        = some (0, { State.oneFound with crc8 := 0, LastDiscrepancy := 0,
                                         LastFamilyDiscrepancy := 0, LastDeviceFlag := false,
                                         iter := 0 },
            ⟨[0x280000001234AB7E], [0x280000001234AB7E], 64⟩)) :=
  ⟨(search_after_last_device simBus 64 State.oneFound
      ⟨[0x280000001234AB7E], [0x280000001234AB7E], 64⟩).1 rfl,
    (search_after_last_device simBus 64 State.init (SimWorld.init [0x280000001234AB7E])).2
      State.oneFound ⟨[0x280000001234AB7E], [0x280000001234AB7E], 64⟩ (by decide)⟩

/-! ## C7, C8: the registry and the ROM bytes -/

/-- C7, counterexample: on the simulated bus with the single device
`0x280000001234AB7E`, `OWFirst` reports the device as found with the ROM
buffer `28 00 00 00 12 34 AB 7E`; the least significant byte of the stored
identifier is `0x7E`, not ROM byte 0 (`0x28`), and its most significant byte
is `0x28`, not ROM byte 7 (`0x7E`). -/
theorem family_code_not_least_significant :
    (OWFirst simBus 64 State.init (SimWorld.init [0x280000001234AB7E])).map
        (fun r => (r.1, r.2.1.ROM_NO, r.2.1.slotID 0 % 256, r.2.1.slotID 0 / 2 ^ 56))
        = some (2, [0x28, 0, 0, 0, 0x12, 0x34, 0xAB, 0x7E], 0x7E, 0x28)
    ∧ (0x7E : Nat) ≠ 0x28 := by
  refine ⟨by decide, by decide⟩

/-- C7 (amended): for every bus and every well-typed state with `iter < 16`,
when `OWSearch` reports a device as found, the identifier stored in slot
`iter` of the registry has ROM byte 0 (the family code) as its most
significant byte and ROM byte 7 (the CRC byte) as its least significant
byte: it is the big-endian value of the ROM buffer. -/
theorem registry_byte_order {W : Type} (bus : Bus W) (fuel : Nat) (s : State) (w : W) (r : Nat)
    (s1 : State) (w1 : W) (hwf : s.wf) (hiter : s.iter < 16)
    (h : OWSearch bus fuel s w = some (r, s1, w1)) (hr : r ≠ 0) :
    s1.slotID s.iter / 2 ^ 56 = s1.ROM_NO.getD 0 0
    ∧ s1.slotID s.iter % 256 = s1.ROM_NO.getD 7 0
    ∧ s1.slotID s.iter
        = s1.ROM_NO.getD 0 0 * 2 ^ 56 + s1.ROM_NO.getD 1 0 * 2 ^ 48 + s1.ROM_NO.getD 2 0 * 2 ^ 40
          + s1.ROM_NO.getD 3 0 * 2 ^ 32 + s1.ROM_NO.getD 4 0 * 2 ^ 24 + s1.ROM_NO.getD 5 0 * 2 ^ 16
          + s1.ROM_NO.getD 6 0 * 2 ^ 8 + s1.ROM_NO.getD 7 0 := by
  obtain ⟨⟨hlen, hb⟩, -, hidu, -, -⟩ := OWSearch_found_store bus fuel s w r s1 w1 hwf hiter h hr
  have hlt : s.iter < s.OWIDU.length := by have := hwf.2.2.1; omega
  obtain ⟨a, b, c, d, e, f, g, k, hl⟩ := list8 _ hlen
  have hslot : s1.slotID s.iter = ID [k, g, f, e, d, c, b, a] := by
    unfold State.slotID
    rw [hidu, getD_set_self _ _ _ _ hlt, hl]
    simp [List.range_succ]
  rw [hslot, hl]
  rw [hl] at hb
  have ha := hb a (by simp)
  have hb' := hb b (by simp)
  have hc := hb c (by simp)
  have hd := hb d (by simp)
  have he := hb e (by simp)
  have hf := hb f (by simp)
  have hg := hb g (by simp)
  have hk := hb k (by simp)
  simp only [ID, List.getD_cons_zero, List.getD_cons_succ]
  norm_num
  refine ⟨?_, ?_, ?_⟩ <;> omega

/-- C7, witness: the step that finds the device `0x280000001234AB7E`. -/
theorem registry_byte_order_witness :
    State.oneFound.slotID State.init.iter / 2 ^ 56 = State.oneFound.ROM_NO.getD 0 0
    ∧ State.oneFound.slotID State.init.iter % 256 = State.oneFound.ROM_NO.getD 7 0
    ∧ State.oneFound.slotID State.init.iter
        = State.oneFound.ROM_NO.getD 0 0 * 2 ^ 56 + State.oneFound.ROM_NO.getD 1 0 * 2 ^ 48
          + State.oneFound.ROM_NO.getD 2 0 * 2 ^ 40 + State.oneFound.ROM_NO.getD 3 0 * 2 ^ 32
          + State.oneFound.ROM_NO.getD 4 0 * 2 ^ 24 + State.oneFound.ROM_NO.getD 5 0 * 2 ^ 16
          + State.oneFound.ROM_NO.getD 6 0 * 2 ^ 8 + State.oneFound.ROM_NO.getD 7 0 :=
  registry_byte_order simBus 64 State.init (SimWorld.init [0x280000001234AB7E]) 2 State.oneFound
    ⟨[0x280000001234AB7E], [0x280000001234AB7E], 64⟩ (by decide) (by decide) (by decide)
    (by decide)

/-- C8: let `OWSearch`, on any bus and from a well-typed state with
`iter < 16`, report a device as found, with ROM buffer `r[0..7]`. Then the
address bytes that `DS18B20_init` and `DS18B20_readTemp` take from slot
`iter` and hand to `OWWriteByte` after the match-ROM command are
`r[0], ..., r[7]` in that order; and on a recorded link to an idle bridge the
bytes put on the 1-Wire bus are `0x55 r[0] ... r[7]` followed by the
scratchpad write (`DS18B20_init`), and `0x55 r[0] ... r[7] 0x44` followed by
`0x55 r[0] ... r[7] 0xBE` (`DS18B20_readTemp`). -/
theorem address_round_trip {W V : Type} (bus : Bus V) (env : Env W) (fuel fuel2 : Nat)
    (s : State) (v : V) (r : Nat) (s1 : State) (v1 : V) (w : W) (hwf : s.wf)
    (hiter : s.iter < 16) (h : OWSearch bus fuel s v = some (r, s1, v1)) (hr : r ≠ 0)
    (hidle : env.idle s1.OWDAddress) :
    addressBytes s1 s.iter = s1.ROM_NO
    ∧ (DS18B20_init (logEnv env) (fuel2 + 1) s1 s.iter (w, [])).map (fun x => wireBytes x.2.2)
        = some ([OWMatchROMCmd] ++ s1.ROM_NO ++ [OWWritePad, 0xFF, 0xFF, 0x1F, OWCopyPad])
    ∧ (DS18B20_readTemp (logEnv env) (fuel2 + 1) s1 s.iter (w, [])).map
          (fun x => wireBytes x.2.2)
        = some ([OWMatchROMCmd] ++ s1.ROM_NO ++ [OWConvertTCmd]
            ++ ([OWMatchROMCmd] ++ s1.ROM_NO ++ [OWReadPad])) := by
  obtain ⟨⟨hlen, hb⟩, -, hidu, -, -⟩ := OWSearch_found_store bus fuel s v r s1 v1 hwf hiter h hr
  have hlt : s.iter < s.OWIDU.length := by have := hwf.2.2.1; omega
  obtain ⟨a, b, c, d, e, f, g, k, hl⟩ := list8 _ hlen
  have haddr : addressBytes s1 s.iter = s1.ROM_NO := by
    unfold addressBytes
    rw [hidu, getD_set_self _ _ _ _ hlt, hl]
    simp [List.range_succ]
  have hmod : s1.ROM_NO.map (fun b => b % 256) = s1.ROM_NO := by
    conv_rhs => rw [← List.map_id s1.ROM_NO]
    apply List.map_congr_left
    intro x hx
    exact Nat.mod_eq_of_lt (hb x hx)
  refine ⟨haddr, ?_, ?_⟩
  · unfold DS18B20_init
    rw [if_neg (by show ¬ s.iter ≥ 16; omega)]
    obtain ⟨w1, h1, hb1⟩ := OWResetWait_idle env fuel2 _ hidle (w, [])
    rw [h1]
    dsimp only
    rw [if_neg (by decide)]
    obtain ⟨w2, h2, hb2⟩ := OWWriteBytes_idle env fuel2 _ hidle
      ([OWMatchROMCmd] ++ addressBytes s1 s.iter
        ++ [OWWritePad, 0xFF, 0xFF, 0x1F, OWCopyPad]) w1
    rw [h2]
    dsimp only
    obtain ⟨rc, w3, h3, hb3⟩ := OWDWriteConfig_idle env fuel2 _
      ⟨true, false, true, false, false, false, false, false⟩ hidle w2
    rw [h3]
    simp only [Option.map_some', logEnv, hb3, hb2, hb1, haddr]
    simp [wireBytes, hmod]
    decide
  · unfold DS18B20_readTemp
    rw [if_neg (by show ¬ s.iter ≥ 16; omega)]
    obtain ⟨w1, h1, hb1⟩ := OWResetWait_idle env fuel2 _ hidle (w, [])
    rw [h1]
    dsimp only
    rw [if_neg (by decide)]
    obtain ⟨w2, h2, hb2⟩ := OWWriteBytes_idle env fuel2 _ hidle
      ([OWMatchROMCmd] ++ addressBytes s1 s.iter ++ [OWConvertTCmd]) w1
    rw [h2]
    dsimp only
    obtain ⟨rc, w3, h3, hb3⟩ := OWDWriteConfig_idle env fuel2 _
      ⟨true, false, true, false, false, false, false, false⟩ hidle w2
    rw [h3]
    dsimp only
    obtain ⟨w4, h4, hb4⟩ := OWResetWait_idle env fuel2 _ hidle
      ((logEnv env).vTaskDelay 100 w3)
    rw [h4]
    dsimp only
    rw [if_neg (by decide)]
    obtain ⟨w5, h5, hb5⟩ := OWWriteBytes_idle env fuel2 _ hidle
      ([OWMatchROMCmd] ++ addressBytes s1 s.iter ++ [OWReadPad]) w4
    rw [h5]
    dsimp only
    obtain ⟨st, w6, h6, hb6⟩ := OWBusyWait_idle env fuel2 _ hidle w5
    rw [h6]
    have hdelay : ((logEnv env).vTaskDelay 100 w3).2 = w3.2 := rfl
    simp only [Option.map_some', readDataByte_wire, hb6, hb5, hb4, hdelay, hb3, hb2, hb1, haddr]
    simp [wireBytes, hmod]
    decide

/-- C8, witness: the device `0x280000001234AB7E`, found on the simulated bus
and addressed over the idle link `idleEnv`. -/
theorem address_round_trip_witness :
    addressBytes State.oneFound State.init.iter = State.oneFound.ROM_NO
    ∧ (DS18B20_init (logEnv idleEnv) (0 + 1) State.oneFound State.init.iter ((), [])).map
          (fun x => wireBytes x.2.2)
        = some ([OWMatchROMCmd] ++ State.oneFound.ROM_NO
            ++ [OWWritePad, 0xFF, 0xFF, 0x1F, OWCopyPad])
    ∧ (DS18B20_readTemp (logEnv idleEnv) (0 + 1) State.oneFound State.init.iter ((), [])).map
          (fun x => wireBytes x.2.2)
        = some ([OWMatchROMCmd] ++ State.oneFound.ROM_NO ++ [OWConvertTCmd]
            ++ ([OWMatchROMCmd] ++ State.oneFound.ROM_NO ++ [OWReadPad])) :=
  address_round_trip simBus idleEnv 64 0 State.init (SimWorld.init [0x280000001234AB7E]) 2
    State.oneFound ⟨[0x280000001234AB7E], [0x280000001234AB7E], 64⟩ () (by decide) (by decide)
    (by decide) (by decide)
    ⟨fun _ => ⟨rfl, by show 0x02 % 256 &&& STATUS_BUSY = 0; decide,
        by show 0x02 % 256 &&& STATUS_PPD ≠ 0; decide⟩,
      fun _ _ _ => rfl⟩

/-! ## C9, C10: the configuration write -/

/-- C9, counterexample: on the scripted link `configTimeout` the busy-wait
of `OWDWriteConfig` times out and the call returns 1; on `configMismatch`
the busy-wait succeeds, the flags read back (`0x00`) differ from the flags
written (APU set) and the call returns 1 as well. -/
theorem config_mismatch_same_code_as_timeout :
    (OWBusyWait scriptEnv 1 0x30 configTimeout).map (fun r => r.1.1) = some 1
    ∧ (OWDWriteConfig scriptEnv 1 0x30 ⟨true, false, false, false, false, false, false, false⟩
        configTimeout).map (fun r => r.1.1) = some 1
    ∧ (OWBusyWait scriptEnv 1 0x30 configMismatch).map (fun r => r.1.1) = some 0
    ∧ (OWDWriteConfig scriptEnv 1 0x30 ⟨true, false, false, false, false, false, false, false⟩
        configMismatch).map (fun r => r.1.1) = some 1 := by
  decide

/-- C9 (amended): `OWDWriteConfig` has one failure code. When its busy-wait
times out it returns 1 without writing; when the busy-wait succeeds it
writes the configuration byte, reads one byte back, and returns 1 if the
APU, SPU, WS flags read back differ from those written or `res_0` reads back
set, and 0 otherwise. A mismatch and a timeout are both reported as 1. -/
theorem config_result {W : Type} (env : Env W) (fuel addr : Nat) (c : DS2480Config) (w : W)
    (bw : (Nat × Nat) × W) (hbw : OWBusyWait env fuel addr w = some bw) :
    let rd := env.SW_I2C_Read_Noaddr addr
      (env.SW_I2C_Write_8addr addr OWDSConfig [c.complete.toByte] bw.2).2
    let tmp := DS2480Config.ofByte (rd.1.2 % 256)
    let ok := tmp.APU = c.APU ∧ tmp.SPU = c.SPU ∧ tmp.WS = c.WS ∧ tmp.res_0 = false
    (bw.1.1 = 1 → OWDWriteConfig env fuel addr c w = some ((1, c.complete), bw.2))
    ∧ (bw.1.1 ≠ 1 → ¬ ok → OWDWriteConfig env fuel addr c w = some ((1, c.complete), rd.2))
    ∧ (bw.1.1 ≠ 1 → ok → OWDWriteConfig env fuel addr c w = some ((0, c.complete), rd.2)) := by
  intro rd tmp ok
  obtain ⟨⟨ret, st⟩, w1⟩ := bw
  refine ⟨?_, ?_, ?_⟩
  · intro h
    simp only at h
    simp [OWDWriteConfig, hbw, h]
  · intro h hok
    simp only at h
    simp only [OWDWriteConfig, hbw, h, if_false]
    rw [if_neg]
    simpa [ok, tmp, rd, DS2480Config.complete] using hok
  · intro h hok
    simp only at h
    simp only [OWDWriteConfig, hbw, h, if_false]
    rw [if_pos]
    simpa [ok, tmp, rd, DS2480Config.complete] using hok

/-- C9, witness: the link `configMismatch`, whose busy-wait succeeds. -/
theorem config_result_witness :
    let bw : (Nat × Nat) × Script := ((0, 0), ⟨[], [0x00], [(0x30, 0xE1, [0xF0])]⟩)
    let c : DS2480Config := ⟨true, false, false, false, false, false, false, false⟩
    let rd := scriptEnv.SW_I2C_Read_Noaddr 0x30
      (scriptEnv.SW_I2C_Write_8addr 0x30 OWDSConfig [c.complete.toByte] bw.2).2
    let tmp := DS2480Config.ofByte (rd.1.2 % 256)
    let ok := tmp.APU = c.APU ∧ tmp.SPU = c.SPU ∧ tmp.WS = c.WS ∧ tmp.res_0 = false
    (bw.1.1 = 1 → OWDWriteConfig scriptEnv 1 0x30 c configMismatch = some ((1, c.complete), bw.2))
    ∧ (bw.1.1 ≠ 1 → ¬ ok →
        OWDWriteConfig scriptEnv 1 0x30 c configMismatch = some ((1, c.complete), rd.2))
    ∧ (bw.1.1 ≠ 1 → ok →
        OWDWriteConfig scriptEnv 1 0x30 c configMismatch = some ((0, c.complete), rd.2)) :=
  config_result scriptEnv 1 0x30 ⟨true, false, false, false, false, false, false, false⟩
    configMismatch ((0, 0), ⟨[], [0x00], [(0x30, 0xE1, [0xF0])]⟩) (by decide)

/-- C10: for every content of the caller's structure, the byte that
`OWDWriteConfig` builds has bit 0 = APU, bit 1 = 0, bit 2 = SPU, bit 3 = WS
and bits 4..7 the complements of bits 0..3, so its upper nibble is the
bitwise NOT of its lower nibble; when the busy-wait does not time out the
call writes the configuration command with that byte; every configuration
write the call records on a recording link carries exactly that byte; and
the APU, SPU and WS fields of the caller's structure are unchanged. -/
theorem config_byte_layout {W : Type} (env : Env W) (fuel addr : Nat) (c : DS2480Config)
    (w : W) :
    (c.complete.toByte.testBit 0 = c.APU ∧ c.complete.toByte.testBit 1 = false
      ∧ c.complete.toByte.testBit 2 = c.SPU ∧ c.complete.toByte.testBit 3 = c.WS
      ∧ c.complete.toByte.testBit 4 = !c.complete.toByte.testBit 0
      ∧ c.complete.toByte.testBit 5 = !c.complete.toByte.testBit 1
      ∧ c.complete.toByte.testBit 6 = !c.complete.toByte.testBit 2
      ∧ c.complete.toByte.testBit 7 = !c.complete.toByte.testBit 3
      ∧ c.complete.toByte / 16 = 15 - c.complete.toByte % 16)
    ∧ (∀ r, OWDWriteConfig (logEnv env) fuel addr c (w, []) = some r →
        (∀ e ∈ r.2.2, e.2.1 = OWDSConfig → e = (addr, OWDSConfig, [c.complete.toByte]))
        ∧ r.1.2.APU = c.APU ∧ r.1.2.SPU = c.SPU ∧ r.1.2.WS = c.WS)
    ∧ (∀ bw, OWBusyWait (logEnv env) fuel addr (w, []) = some bw → bw.1.1 ≠ 1 →
        ∃ r, OWDWriteConfig (logEnv env) fuel addr c (w, []) = some r
          ∧ (addr, OWDSConfig, [c.complete.toByte]) ∈ r.2.2) := by
  refine ⟨?_, ?_, ?_⟩
  · obtain ⟨a, b, c1, d, e, f, g, h⟩ := c
    cases a <;> cases c1 <;> cases d <;>
      simp [DS2480Config.complete, DS2480Config.toByte] <;> decide
  · intro r h
    unfold OWDWriteConfig at h
    dsimp only at h
    split at h
    · simp at h
    · rename_i ret st w1 hbw
      have hlog := OWBusyWait_log env fuel addr _ _ hbw
      simp only [List.nil_append] at hlog
      split_ifs at h with h1 h2
      · simp only [Option.some.injEq] at h
        subst h
        refine ⟨?_, rfl, rfl, rfl⟩
        intro e he hc
        simp only [hlog, List.mem_singleton] at he
        subst he
        simp at hc
      · simp only [Option.some.injEq] at h
        subst h
        refine ⟨?_, rfl, rfl, rfl⟩
        intro e he hc
        simp only [logEnv, hlog, List.singleton_append, List.mem_cons, List.mem_singleton,
          List.not_mem_nil, or_false] at he
        rcases he with he | he
        · subst he
          simp at hc
        · exact he
      · simp only [Option.some.injEq] at h
        subst h
        refine ⟨?_, rfl, rfl, rfl⟩
        intro e he hc
        simp only [logEnv, hlog, List.singleton_append, List.mem_cons, List.mem_singleton,
          List.not_mem_nil, or_false] at he
        rcases he with he | he
        · subst he
          simp at hc
        · exact he
  · intro bw hbw hne
    obtain ⟨⟨ret, st⟩, w1⟩ := bw
    simp only at hne
    unfold OWDWriteConfig
    dsimp only
    rw [hbw]
    dsimp only
    rw [if_neg hne]
    split_ifs
    · refine ⟨_, rfl, ?_⟩
      simp [logEnv]
    · refine ⟨_, rfl, ?_⟩
      simp [logEnv]

/-- C10, witness: the configuration APU = 1, SPU = 1, WS = 0 written over
the idle link, whose read-back `0x02` does not match. -/
theorem config_byte_layout_witness :
    (∀ e ∈ [((0x30 : Nat), (0xE1 : Nat), [(0xF0 : Nat)]), (0x30, 0xD2, [0xA5])],
        e.2.1 = OWDSConfig →
        e = (0x30, OWDSConfig,
          [(DS2480Config.mk true false true false false false false false).complete.toByte]))
    ∧ (DS2480Config.mk true false true false false true false true).APU = true
    ∧ (DS2480Config.mk true false true false false true false true).SPU = true
    ∧ (DS2480Config.mk true false true false false true false true).WS = false :=
  (config_byte_layout idleEnv 1 0x30 ⟨true, false, true, false, false, false, false, false⟩
    ()).2.1 ((1, ⟨true, false, true, false, false, true, false, true⟩),
      ((), [(0x30, 0xE1, [0xF0]), (0x30, 0xD2, [0xA5])])) rfl

/-- C11 (counterexample): `OWReset` returns true although a poll ran out of
its budget. First run: the presence poll reads a status without the presence
flag and then a tick 5 units after the start, so its budget is used up; the
busy poll then reads `0x02` and the call returns true. Second run: the busy
poll reads `0x03` (busy, presence) and a tick 10 units after the start, so
its budget is used up with the busy flag still set; the call returns true. -/
theorem reset_true_after_exhausted_poll :
    OWReset (traceEnv scriptEnv) 4 0x30 (⟨[0, 5], [0x00, 0x02], []⟩, [])
      = some (true, (⟨[], [], [(0x30, 0xB4, [])]⟩,
          [LinkEvent.tick 0, LinkEvent.write 0x30 0xB4 [] true, LinkEvent.read 0x30 true 0x00,
            LinkEvent.tick 5, LinkEvent.read 0x30 true 0x02]))
    ∧ OWReset (traceEnv scriptEnv) 4 0x30 (⟨[0, 10], [0x02, 0x03], []⟩, [])
      = some (true, (⟨[], [], [(0x30, 0xB4, [])]⟩,
          [LinkEvent.tick 0, LinkEvent.write 0x30 0xB4 [] true, LinkEvent.read 0x30 true 0x02,
            LinkEvent.read 0x30 true 0x03, LinkEvent.tick 10])) := by
  constructor <;> decide

/-- C11 (amended): the result of `OWReset` is the presence flag of the last
status byte it read. That read ends the busy poll: either it has the busy
flag clear, or it has the busy flag set and is followed by a tick read that
shows the busy budget used up. In particular `OWReset` returns true only if a
status byte with the presence flag set was read. -/
theorem reset_result_is_last_status {W : Type} (env : Env W) (fuel addr : Nat) (w w1 : W)
    (b : Bool) (tr : List LinkEvent)
    (h : OWReset (traceEnv env) fuel addr (w, []) = some (b, (w1, tr))) :
    ∃ t0 ok0 pre ok raw post,
      tr = [LinkEvent.tick t0, LinkEvent.write addr OWDSResetCommand [] ok0] ++ pre
            ++ [LinkEvent.read addr ok raw] ++ post
      ∧ b = decide (raw % 256 &&& STATUS_PPD ≠ 0)
      ∧ ((post = [] ∧ raw % 256 &&& STATUS_BUSY = 0)
        ∨ ∃ t, post = [LinkEvent.tick t] ∧ raw % 256 &&& STATUS_BUSY ≠ 0
            ∧ ¬ u32sub t t0 < BSY_TIMEOUT) := by
  unfold OWReset at h
  dsimp only at h
  cases hp : OWReset_presence (traceEnv env) addr ((traceEnv env).xTaskGetTickCount (w, [])).1 fuel
      ((traceEnv env).SW_I2C_Write_8addr addr OWDSResetCommand []
        ((traceEnv env).xTaskGetTickCount (w, [])).2).2 with
  | none => rw [hp] at h; simp at h
  | some r1 =>
    obtain ⟨st1, v1, tr1⟩ := r1
    rw [hp] at h
    dsimp only at h
    cases hb : OWReset_busy (traceEnv env) addr ((traceEnv env).xTaskGetTickCount (w, [])).1 fuel
        (v1, tr1) with
    | none => rw [hb] at h; simp at h
    | some r2 =>
      obtain ⟨st2, v2, tr2⟩ := r2
      rw [hb] at h
      simp only [Option.some.injEq, Prod.mk.injEq] at h
      obtain ⟨hb1, hv, htr⟩ := h
      obtain ⟨evs, hevs⟩ := OWReset_presence_trace env addr _ fuel _ _ _ _ _ hp
      obtain ⟨pre, ok, raw, post, htr2, hst, hcase⟩ := OWReset_busy_trace env addr _ fuel _ _ _ _ _ hb
      refine ⟨(env.xTaskGetTickCount w).1,
        (env.SW_I2C_Write_8addr addr OWDSResetCommand [] (env.xTaskGetTickCount w).2).1,
        evs ++ pre, ok, raw, post, ?_, ?_, hcase⟩
      · rw [← htr, htr2, hevs]
        simp only [traceEnv, List.append_assoc, List.cons_append, List.nil_append]
      · rw [← hb1, hst]

/-- C11 (amended), on a scripted link: the presence poll sees the presence
flag at once and the busy poll reads a busy status, then a ready one. -/
theorem reset_result_is_last_status_witness :
    ∃ t0 ok0 pre ok raw post,
      [LinkEvent.tick 0, LinkEvent.write 0x30 0xB4 [] true, LinkEvent.read 0x30 true 0x03,
          LinkEvent.read 0x30 true 0x03, LinkEvent.tick 1, LinkEvent.read 0x30 true 0x02]
        = [LinkEvent.tick t0, LinkEvent.write 0x30 OWDSResetCommand [] ok0] ++ pre
            ++ [LinkEvent.read 0x30 ok raw] ++ post
      ∧ true = decide (raw % 256 &&& STATUS_PPD ≠ 0)
      ∧ ((post = [] ∧ raw % 256 &&& STATUS_BUSY = 0)
        ∨ ∃ t, post = [LinkEvent.tick t] ∧ raw % 256 &&& STATUS_BUSY ≠ 0
            ∧ ¬ u32sub t t0 < BSY_TIMEOUT) :=
  reset_result_is_last_status scriptEnv 4 0x30 ⟨[0, 1], [0x03, 0x03, 0x02], []⟩
    ⟨[], [], [(0x30, 0xB4, [])]⟩ true _ (by decide)

/-- C12 (counterexample): on a link where the transfer that selects the
status register is not acknowledged, `OWBusyWait` returns 1 at once: it has
read the start tick only and observed no elapsed time. The tick counter of
this link advances and every status byte read on it would have the busy flag
set. -/
theorem busy_wait_fails_at_once :
    deafEnv.ticking 0x30 id
    ∧ (∀ v, (deafEnv.SW_I2C_Read_Noaddr 0x30 v).1.2 % 256 &&& STATUS_BUSY ≠ 0)
    ∧ OWBusyWait (traceEnv deafEnv) 11 0x30 (0, [])
      = some ((1, 0), (1, [LinkEvent.tick 0, LinkEvent.write 0x30 0xE1 [0xF0] false])) := by
  refine ⟨?_, ?_, by decide⟩
  · unfold Env.ticking deafEnv
    simp only [id]
    refine ⟨fun w => ⟨?_, ?_, ?_⟩, fun w => ⟨?_, ?_⟩, fun _ _ w => ⟨?_, ?_⟩⟩ <;> omega
  · intro v
    show ((255 : Nat) % 256 &&& STATUS_BUSY) ≠ 0
    decide

/-- C12 (amended): if the transfer that selects the status register
succeeds, every status byte read has the busy flag set and the tick counter
keeps advancing, then `OWBusyWait` (with fuel for eleven rounds) terminates
and returns 1, and the record of its calls ends with a tick read whose
elapsed time from the start tick, modulo `2 ^ 32`, exceeds the 10-tick
budget, while every earlier tick read showed no more than the budget. -/
theorem busy_wait_timeout {W : Type} (env : Env W) (addr fuel : Nat) (clock : W → Nat) (w : W)
    (hclock : env.ticking addr clock)
    (hbusy : ∀ v, (env.SW_I2C_Read_Noaddr addr v).1.2 % 256 &&& STATUS_BUSY ≠ 0)
    (hwrite : ∀ v, (env.SW_I2C_Write_8addr addr OWDSSetReadPtrCommand [StatReg] v).1 = true)
    (hfuel : 11 ≤ fuel) :
    (∃ st w1, OWBusyWait env fuel addr w = some ((1, st), w1))
    ∧ ∃ st w1 t0 pre t,
        OWBusyWait (traceEnv env) fuel addr (w, [])
          = some ((1, st), (w1,
              [LinkEvent.tick t0, LinkEvent.write addr OWDSSetReadPtrCommand [StatReg] true]
                ++ pre ++ [LinkEvent.tick t]))
        ∧ u32sub t t0 > BSY_TIMEOUT
        ∧ ∀ t1, LinkEvent.tick t1 ∈ pre → u32sub t1 t0 ≤ BSY_TIMEOUT := by
  refine ⟨OWBusyWait_busy env addr fuel clock w hclock hbusy hwrite hfuel, ?_⟩
  obtain ⟨st, ⟨w1, tr1⟩, hrun⟩ := OWBusyWait_busy (traceEnv env) addr fuel (fun v => clock v.1)
    (w, []) (ticking_trace env addr clock hclock) (fun v => hbusy v.1) (fun v => hwrite v.1) hfuel
  have hloop := hrun
  unfold OWBusyWait at hloop
  dsimp only at hloop
  rw [if_neg (by simp only [traceEnv]; rw [hwrite]; simp)] at hloop
  obtain ⟨pre, t, htr, ht, hall⟩ := OWBusyWait_loop_trace env addr _ fuel _ _ _ _ _ hloop
  refine ⟨st, w1, (env.xTaskGetTickCount w).1, pre, t, ?_, ht, hall⟩
  rw [hrun, htr]
  simp only [traceEnv, hwrite, List.nil_append, List.cons_append, List.append_assoc]

/-- C12 (amended), on the link `busyEnv`, starting at clock 0 with fuel for
eleven rounds. -/
theorem busy_wait_timeout_witness :
    (∃ st w1, OWBusyWait busyEnv 11 0x30 0 = some ((1, st), w1))
    ∧ ∃ st w1 t0 pre t,
        OWBusyWait (traceEnv busyEnv) 11 0x30 (0, [])
          = some ((1, st), (w1,
              [LinkEvent.tick t0, LinkEvent.write 0x30 OWDSSetReadPtrCommand [StatReg] true]
                ++ pre ++ [LinkEvent.tick t]))
        ∧ u32sub t t0 > BSY_TIMEOUT
        ∧ ∀ t1, LinkEvent.tick t1 ∈ pre → u32sub t1 t0 ≤ BSY_TIMEOUT :=
  busy_wait_timeout busyEnv 0x30 11 id 0
    (by
      unfold Env.ticking busyEnv
      simp only [id]
      refine ⟨fun w => ⟨?_, ?_, ?_⟩, fun w => ⟨?_, ?_⟩, fun _ _ w => ⟨?_, ?_⟩⟩ <;> omega)
    (fun _ => by
      show ((1 : Nat) % 256 &&& STATUS_BUSY) ≠ 0
      decide)
    (fun _ => rfl) (by decide)

/-- C13: the identifiers a full pass reports depend on the bus only. If a
pass from state `s` and world `w` reports the identifiers `ids` and ends in
state `s1` and world `w1`, and the bus reset responds in `w1` as it did in
`w` (every pass begins with a reset, so the bus gives the same responses
again), then the pass run next, from `s1` and `w1`, reports the same `ids`
in the same order; and so does a first pass from any other state `s'`,
whatever `LastDiscrepancy`, `LastFamilyDiscrepancy`, `LastDeviceFlag` and the
ROM buffer (8 bytes) hold in it. The ghost output `ids` does not change the
pass: `OWPass` ends in the same state and world. -/
theorem pass_identifiers_repeat {W : Type} (bus : Bus W) (fuel : Nat) (s s' s1 : State)
    (w w1 w' : W) (ids : List (List Nat)) (hrom : s.romOK) (hrom' : s'.romOK)
    (hpass : OWPass_found bus fuel s w = some (ids, s1, w1))
    (hagain : bus.OWReset w1 = bus.OWReset w) (hother : bus.OWReset w' = bus.OWReset w) :
    (∃ s2, OWPass_found bus fuel s1 w1 = some (ids, s2, w1))
    ∧ (∃ s2, OWPass_found bus fuel s' w' = some (ids, s2, w1))
    ∧ (OWPass bus fuel s w).map (fun r => r.2) = some (s1, w1) := by
  have key : ∀ (t : State) (v : W), t.romOK → bus.OWReset v = bus.OWReset w →
      ∃ s2, OWPass_found bus fuel t v = some (ids, s2, w1) := by
    intro t v ht hv
    have h := OWPass_found_rel bus fuel s t w v hrom ht hv
    rw [hpass] at h
    cases hp : OWPass_found bus fuel t v with
    | none => rw [hp] at h; simp at h
    | some p =>
      obtain ⟨ids2, s2, w2⟩ := p
      rw [hp] at h
      simp only [Option.map_some', Option.some.injEq, Prod.mk.injEq] at h
      exact ⟨s2, by rw [h.1, h.2]⟩
  refine ⟨key s1 w1 (OWPass_found_romOK bus fuel s w ids s1 w1 hpass hrom) hagain,
    key s' w' hrom' hother, ?_⟩
  rw [← OWPass_found_eq, hpass]
  rfl

/-- C13, on the simulated bus with the single device `0x280000001234AB7E`:
the first pass starts from the leftover state `State.branchFound`, the other
one from the initial state and a world in the middle of a walk. -/
theorem pass_identifiers_repeat_witness :
    (∃ s2, OWPass_found simBus 64
        { State.oneFound with
            OWIDU := [0xFF, 0xFF, 0xFF, 0xFF, 0xFF, 0xFF, 0xFF, 0xFE]
              :: [0x7E, 0xAB, 0x34, 0x12, 0, 0, 0, 0x28]
              :: List.replicate 14 (List.replicate 8 0),
            LastDeviceFlag := false }
        ⟨[0x280000001234AB7E], [0x280000001234AB7E], 64⟩
      = some ([[0x28, 0, 0, 0, 0x12, 0x34, 0xAB, 0x7E]], s2,
          ⟨[0x280000001234AB7E], [0x280000001234AB7E], 64⟩))
    ∧ (∃ s2, OWPass_found simBus 64 State.init ⟨[0x280000001234AB7E], [], 17⟩
      = some ([[0x28, 0, 0, 0, 0x12, 0x34, 0xAB, 0x7E]], s2,
          ⟨[0x280000001234AB7E], [0x280000001234AB7E], 64⟩))
    ∧ (OWPass simBus 64 State.branchFound (SimWorld.init [0x280000001234AB7E])).map (fun r => r.2)
      = some ({ State.oneFound with
            OWIDU := [0xFF, 0xFF, 0xFF, 0xFF, 0xFF, 0xFF, 0xFF, 0xFE]
              :: [0x7E, 0xAB, 0x34, 0x12, 0, 0, 0, 0x28]
              :: List.replicate 14 (List.replicate 8 0),
            LastDeviceFlag := false },
          ⟨[0x280000001234AB7E], [0x280000001234AB7E], 64⟩) :=
  pass_identifiers_repeat simBus 64 State.branchFound State.init _
    (SimWorld.init [0x280000001234AB7E]) _ ⟨[0x280000001234AB7E], [], 17⟩ _
    (by decide) (by decide) (by decide) (by decide) (by decide)

/-- C14 (failing input): a pass does not always start at slot 0. On the
scripted bus `lostPresence` the first pass finds one device with `OWFirst`,
stores it in slot 0 and ends because the reset of `OWNext` sees no presence
pulse: that return path leaves `iter = 1`. The second pass finds its only
device with `OWFirst` and stores it in slot 1; slot 0 still holds the
identifier of the first pass, and `OWDeviceSearch` then counts two devices. -/
theorem first_device_not_in_slot_zero :
    (OWPass presenceBus 64 State.init lostPresence).map
        (fun r => (r.1, r.2.1.iter, r.2.1.slotID 0, r.2.1.slotID 1))
      = some ([1, 0], 1, 0xFEFFFFFFFFFFFFFF, 0)
    ∧ ((OWPass presenceBus 64 State.init lostPresence).bind
        (fun r => OWPass presenceBus 64 r.2.1 r.2.2)).map
        (fun r => (r.1, r.2.1.iter, r.2.1.slotID 0, r.2.1.slotID 1))
      = some ([2, 0], 0, 0xFEFFFFFFFFFFFFFF, 0xFFFFFFFFFFFFFFFF)
    ∧ ((OWDeviceSearch presenceBus 64 State.init lostPresence).bind
        (fun r => OWDeviceSearch presenceBus 64 r.2.1 r.2.2)).map (fun r => r.1) = some 2 := by
  refine ⟨by decide, by decide, by decide⟩

set_option maxRecDepth 100000 in
/-- C15 (failing input): with 17 devices on the simulated bus the 17th found
identifier is stored through `OWIDU[16]`, behind the last slot of the
registry: the pass returns the codes of 17 found devices and the eight byte
stores of the 17th go to slot index 16. -/
theorem seventeenth_device_stored_out_of_bounds :
    (OWPass simBus 64 State.init (SimWorld.init seventeenDevices)).map
        (fun r => (r.1, r.2.1.oob))
      = some (List.replicate 16 1 ++ [2, 0],
          [(16, 7, 0x28), (16, 6, 0), (16, 5, 0), (16, 4, 0), (16, 3, 0), (16, 2, 0), (16, 1, 0),
            (16, 0, 0x0F)]) := by
  decide

/-- C16 (as the code stands): `OWGetIDs` copies the first `len` slots,
occupied or not, and returns `len`. With one occupied slot and `len = 3` it
returns 3, and with `len = 17` it reads `OWIDU[16]`, behind the registry. -/
theorem getIDs_returns_len (beyond : Nat → Nat) :
    OWGetIDs State.oneFound beyond 3 = ([0x280000001234AB7E, 0, 0], 3, [])
    ∧ (OWGetIDs State.oneFound beyond 17).2.2 = [16]
    ∧ ∀ (s : State) (len : Nat), (OWGetIDs s beyond len).2.1 = (len : Int)
        ∧ (OWGetIDs s beyond len).1.length = len
        ∧ ∀ k, k < len → k < 16 → (OWGetIDs s beyond len).1.getD k 0 = s.slotID k := by
  refine ⟨rfl, rfl, ?_⟩
  intro s len
  obtain ⟨h1, h2, _⟩ := OWGetIDs_loop_spec s beyond len 0
  refine ⟨rfl, h1, ?_⟩
  intro k hk hk16
  have := h2 k hk (by omega)
  simpa using this

/-- C17: `OWAddr2Num s id` is -1 when no slot 0..15 holds `id`, and
otherwise the smallest index of a slot that holds `id`; it is -1 exactly when
no slot holds `id`. -/
theorem addr2num_smallest (s : State) (id : Nat) :
    ((OWAddr2Num s id = -1 ∧ ∀ i : Nat, i < 16 → s.slotID i ≠ id)
      ∨ ∃ i : Nat, i < 16 ∧ OWAddr2Num s id = (i : Int) ∧ s.slotID i = id
          ∧ ∀ j : Nat, j < i → s.slotID j ≠ id)
    ∧ (OWAddr2Num s id = -1 ↔ ∀ i : Nat, i < 16 → s.slotID i ≠ id) := by
  have hmiss := OWAddr2Num_loop_miss s id 16 0
  have hiff : OWAddr2Num s id = -1 ↔ ∀ i : Nat, i < 16 → s.slotID i ≠ id := by
    unfold OWAddr2Num
    rw [hmiss]
    constructor
    · intro h i hi; exact h i (Nat.zero_le _) (by omega)
    · intro h j _ hj; exact h j (by omega)
  refine ⟨?_, hiff⟩
  by_cases h : ∃ i : Nat, i < 16 ∧ s.slotID i = id
  · right
    classical
    refine ⟨Nat.find h, (Nat.find_spec h).1, ?_, (Nat.find_spec h).2, ?_⟩
    · unfold OWAddr2Num
      apply OWAddr2Num_loop_hit s id 16 0 (Nat.find h) (Nat.zero_le _)
        (by have := (Nat.find_spec h).1; omega) (Nat.find_spec h).2
      intro j _ hj hid
      exact Nat.find_min h hj ⟨by have := (Nat.find_spec h).1; omega, hid⟩
    · intro j hj hid
      exact Nat.find_min h hj ⟨by have := (Nat.find_spec h).1; omega, hid⟩
  · left
    have hn : ∀ i : Nat, i < 16 → s.slotID i ≠ id := fun i hi hid => h ⟨i, hi, hid⟩
    exact ⟨hiff.2 hn, hn⟩

/-- C18: in the record of an `OWSearch` call, the event after the reset and
the search command that belongs to bit position `n` (1..64) is a triplet
whose preferred direction is the bit the ROM buffer held at position `n` on
entry if `n < LastDiscrepancy`, 1 if `n = LastDiscrepancy` and 0 if
`n > LastDiscrepancy`, for the entry value of `LastDiscrepancy`. -/
theorem preferred_direction {W : Type} (bus : Bus W) (fuel : Nat) (s : State) (w w1 : W)
    (r : Nat) (s1 : State) (log : List BusEvent) (hrom : s.ROM_NO.length = 8)
    (h : OWSearch (logBus bus) fuel s (w, []) = some (r, s1, (w1, log))) :
    ∀ (n : Nat) (e : BusEvent), log[n + 1]? = some e →
      (n = 0 ∧ e = BusEvent.write OWSearchCmd)
      ∨ (1 ≤ n ∧ n ≤ 64 ∧ ∃ st, e = BusEvent.triplet
          (if n < s.LastDiscrepancy then (if getBit s.ROM_NO (n - 1) = true then 1 else 0)
            else if n = s.LastDiscrepancy then 1 else 0) st) := by
  intro n e he
  rcases OWSearch_log_cases bus fuel s w [] r s1 w1 log h with
    ⟨_, hlog, _⟩ | ⟨_, hlog, _⟩ | ⟨_, w2, l, t, hloop, _, _⟩
  · rw [hlog] at he
    simp at he
  · rw [hlog] at he
    simp at he
  · obtain ⟨evs, hlog, hlen, hall⟩ := OWSearch_loop_directions bus fuel 0 0 { s with crc8 := 0 }
      w2 _ l t w1 log (by decide) hrom hloop
    rw [hlog] at he
    cases n with
    | zero =>
      left
      simp only [List.nil_append, List.cons_append, zero_add, List.getElem?_cons_succ,
        List.getElem?_cons_zero, Option.some.injEq] at he
      exact ⟨rfl, he.symm⟩
    | succ k =>
      right
      simp only [List.nil_append, List.cons_append, List.getElem?_cons_succ] at he
      obtain ⟨st, hst⟩ := hall k e he
      have hk : k < evs.length := by
        by_contra hc
        rw [List.getElem?_eq_none (by omega)] at he
        simp at he
      refine ⟨by omega, by omega, st, ?_⟩
      rw [hst]
      simp only [zero_add, Nat.add_sub_cancel]

/-- C18, on a replayed bus: entered with `LastDiscrepancy = 1`, the call
prefers 1 at position 1; the walk stops at position 2. -/
theorem preferred_direction_witness :
    (1 = 0 ∧ BusEvent.triplet 1 0x00 = BusEvent.write OWSearchCmd)
    ∨ (1 ≤ 1 ∧ 1 ≤ 64 ∧ ∃ st, BusEvent.triplet 1 0x00 = BusEvent.triplet
        (if 1 < ({ State.init with LastDiscrepancy := 1 } : State).LastDiscrepancy then
            (if getBit ({ State.init with LastDiscrepancy := 1 } : State).ROM_NO (1 - 1) = true
              then 1 else 0)
          else if 1 = ({ State.init with LastDiscrepancy := 1 } : State).LastDiscrepancy then 1
          else 0) st) :=
  preferred_direction replayBus 64 { State.init with LastDiscrepancy := 1 } [0x00] []
    0 State.init
    [BusEvent.reset true, BusEvent.write 0xF0, BusEvent.triplet 1 0x00, BusEvent.triplet 0 0x60]
    (by decide) (by decide) 1 (BusEvent.triplet 1 0x00) (by decide)

/-- C19: when a recorded `OWSearch` call reports a device (non-zero code),
`LastDiscrepancy` on return is the largest position `n` in 1..64 whose
triplet status has both read bits clear and direction 0, and 0 when there is
no such position, and `LastDeviceFlag` is true exactly when it is 0. For two
devices on the simulated bus whose identifiers differ at bit position `p + 1`
only, `OWFirst` and the following `OWNext` return, and when the first reports
a device it leaves `LastDiscrepancy = p + 1`, and when the second reports a
device it sets `LastDeviceFlag`; with non-zero family codes they report
codes 1 and 2. -/
theorem last_discrepancy_after_found {W : Type} (bus : Bus W) (fuel : Nat) (s : State)
    (w w1 : W) (r : Nat) (s1 : State) (log : List BusEvent) (a b p fuel2 : Nat) (s0 : State)
    (h : OWSearch (logBus bus) fuel s (w, []) = some (r, s1, (w1, log))) (hr : r ≠ 0)
    (ha : a < 2 ^ 64) (hb : b < 2 ^ 64) (hp : p < 64)
    (hap : wireBit a p = false) (hbp : wireBit b p = true)
    (hab : ∀ q, q < 64 → q ≠ p → wireBit a q = wireBit b q)
    (hrom : s0.romOK) (hfuel : 64 ≤ fuel2) :
    (((s1.LastDiscrepancy = 0 ∧ ∀ (n d st : Nat), log[n + 1]? = some (BusEvent.triplet d st) →
          ¬ (idBit st = false ∧ cmpIdBit st = false ∧ dirBit st = 0))
        ∨ ∃ (n d st : Nat), 1 ≤ n ∧ n ≤ 64 ∧ s1.LastDiscrepancy = n
            ∧ log[n + 1]? = some (BusEvent.triplet d st)
            ∧ (idBit st = false ∧ cmpIdBit st = false ∧ dirBit st = 0)
            ∧ ∀ (n2 d2 st2 : Nat), n < n2 → log[n2 + 1]? = some (BusEvent.triplet d2 st2) →
                ¬ (idBit st2 = false ∧ cmpIdBit st2 = false ∧ dirBit st2 = 0))
      ∧ (s1.LastDeviceFlag = true ↔ s1.LastDiscrepancy = 0))
    ∧ ∃ r1 t1 v1, OWFirst simBus fuel2 s0 (SimWorld.init [a, b]) = some (r1, t1, v1)
        ∧ (romByte a 0 ≠ 0 → r1 = 1)
        ∧ (r1 ≠ 0 → t1.LastDiscrepancy = p + 1 ∧ t1.ROM_NO = romOf a
            ∧ ∃ r2 t2 v2, OWNext simBus fuel2 t1 v1 = some (r2, t2, v2)
                ∧ (romByte b 0 ≠ 0 → r2 = 2)
                ∧ (r2 ≠ 0 → t2.LastDeviceFlag = true ∧ t2.ROM_NO = romOf b)) := by
  constructor
  · rcases OWSearch_log_cases bus fuel s w [] r s1 w1 log h with
      ⟨_, _, h0⟩ | ⟨_, _, h0⟩ | ⟨hflag, w2, l, t, hloop, hr1, hs1⟩
    · exact absurd h0 hr
    · exact absurd h0 hr
    · rw [hr1] at hr
      obtain ⟨h65, _, _, hld, hfl, _⟩ := OWSearch_tail_found l t hr
      obtain ⟨hf, _⟩ := OWSearch_loop_fields (logBus bus) fuel _ _ _ _ _ _ hloop
      have htf : t.LastDeviceFlag = false := by rw [hf.2.2.2.2.1]; exact hflag
      rw [← hs1] at hld hfl
      obtain ⟨evs, hlog, hlen, hcase⟩ := OWSearch_loop_last_zero bus fuel 0 0 { s with crc8 := 0 }
        w2 _ l t w1 log (by decide) hloop
      have hidx : ∀ n : Nat, log[n + 1 + 1]? = evs[n]? := by
        intro n
        rw [hlog]
        simp
      constructor
      · rcases hcase with ⟨hlz, hnone⟩ | ⟨k, d, st, hk, hz, hlz, hlater⟩
        · left
          refine ⟨by rw [hld, hlz], ?_⟩
          intro n d st he
          cases n with
          | zero => rw [hlog] at he; simp at he
          | succ n =>
            rw [hidx] at he
            exact hnone n d st he
        · right
          have hkl : k < evs.length := by
            by_contra hc
            rw [List.getElem?_eq_none (by omega)] at hk
            simp at hk
          refine ⟨k + 1, d, st, by omega, by omega, by rw [hld, hlz]; omega, ?_, hz, ?_⟩
          · rw [hidx]; exact hk
          · intro n2 d2 st2 hn2 he
            cases n2 with
            | zero => omega
            | succ n2 =>
              rw [hidx] at he
              exact hlater n2 d2 st2 (by omega) he
      · rw [hfl, hld, htf]
        by_cases hz : l.last_zero = 0 <;> simp [hz]
  · have hD : ([a, b] : List Nat) ≠ [] := by simp
    have hne : a ≠ b := by
      intro hc
      rw [hc, hbp] at hap
      exact absurd hap (by simp)
    have hnd : ([a, b] : List Nat).Nodup := by simp [hne]
    have h64 : ∀ d ∈ ([a, b] : List Nat), d < 2 ^ 64 := by
      intro d hd
      simp only [List.mem_cons, List.mem_singleton, List.not_mem_nil, or_false] at hd
      rcases hd with rfl | rfl
      · exact ha
      · exact hb
    obtain ⟨hso, hlz⟩ := two_order a b p hap hbp hab 64 0 rfl (Nat.zero_le _) hp
    -- the walk of `OWFirst`
    obtain ⟨y, post, t, w1f, hy, _, hwalk, hdev, hromt, _, hbits⟩ := walk_min [a, b] 64 0 [a, b] 0
      { s0 with LastDiscrepancy := 0, LastDeviceFlag := false, LastFamilyDiscrepancy := 0,
                crc8 := 0 } fuel2 rfl hfuel hD (Nat.le_refl _) hrom
    rw [hso] at hy
    simp only [List.cons.injEq] at hy
    obtain ⟨hya, _⟩ := hy
    subst hya
    rw [hlz 0] at hwalk
    unfold OWSearch_loopFrom at hwalk
    rw [if_pos (by decide)] at hwalk
    have hrt : t.ROM_NO = romOf a := by
      apply rom_ext _ _ hromt.1 (romOf_wf a).1 hromt.2 (romOf_wf a).2
      intro q hq
      rw [hbits q (Nat.zero_le _) hq, getBit_romOf a q hq]
    have hfirst := OWSearch_of_loop simBus fuel2
      { s0 with LastDiscrepancy := 0, LastDeviceFlag := false, LastFamilyDiscrepancy := 0 }
      (SimWorld.init [a, b]) ⟨[a, b], [a, b], 0⟩ ⟨[a, b], [a, b], 0⟩ w1f 1 _ t rfl
      (by simp [simBus, SimWorld.init]) rfl hwalk
    obtain ⟨hf, _⟩ := OWSearch_loop_fields simBus fuel2 _ _ _ _ _ _ hwalk
    have htf : t.LastDeviceFlag = false := hf.2.2.2.2.1
    refine ⟨_, _, _, hfirst, ?_, ?_⟩
    · intro hfam
      have h0 : t.ROM_NO.getD 0 0 ≠ 0 := by
        rw [hrt, romOf_getD a 0 (by decide)]; exact hfam
      have hc := OWSearch_tail_code (locAt 64 (p + 1)) t (by simp [locAt]) h0
      rw [(OWSearch_tail_found _ t hc).2.2.2.2.2]
      simp [locAt, htf]
    · intro hr1
      obtain ⟨_, _, hrom1, hld1, hfl1, _⟩ := OWSearch_tail_found _ t hr1
      have hld1b : (OWSearch_tail (locAt 64 (p + 1)) t).2.LastDiscrepancy = p + 1 := hld1
      have hfl1b : (OWSearch_tail (locAt 64 (p + 1)) t).2.LastDeviceFlag = false := by
        rw [hfl1]; simp [locAt, htf]
      refine ⟨hld1b, by rw [hrom1, hrt], ?_⟩
      -- the walk of `OWNext`
      obtain ⟨y2, pre, post2, t2, w2f, hso2, _, hwalk2, hdev2, hromt2, hbits2⟩ :=
        walk_next [a, b] 64 0 [a, b] 0
          { (OWSearch_tail (locAt 64 (p + 1)) t).2 with crc8 := 0 } fuel2 a rfl hfuel
          (by simp) hnd h64 (agreeBelow_zero _ a) (by rw [← hrt]; exact hrom1)
          (by rw [hlz 0]; exact hld1b.symm) (by rw [show _ = p + 1 from hld1b]; omega)
      rw [hso] at hso2
      have hy2 : y2 = b ∧ pre = [] ∧ post2 = [] := by
        cases pre with
        | nil =>
          simp only [List.nil_append, List.cons.injEq, true_and] at hso2
          exact ⟨hso2.1.symm, rfl, hso2.2.symm⟩
        | cons c pre =>
          have hl := congrArg List.length hso2
          simp at hl
          omega
      obtain ⟨rfl, rfl, rfl⟩ := hy2
      have hlzb : lzOf 64 0 [a, y2] y2 0 = 0 :=
        (lzOf_zero_iff_last [a, y2] hnd h64 [a] [] y2 (by rw [hso]; rfl)).2 rfl
      rw [hlzb] at hwalk2
      unfold OWSearch_loopFrom at hwalk2
      rw [if_pos (by decide)] at hwalk2
      have hrt2 : t2.ROM_NO = romOf y2 := by
        apply rom_ext _ _ hromt2.1 (romOf_wf y2).1 hromt2.2 (romOf_wf y2).2
        intro q hq
        rw [hbits2 q hq, getBit_romOf y2 q hq]
      have hnext := OWSearch_of_loop simBus fuel2 (OWSearch_tail (locAt 64 (p + 1)) t).2
        w1f ⟨[a, y2], [a, y2], 0⟩ ⟨[a, y2], [a, y2], 0⟩ w2f 1 _ t2 hfl1b
        (by simp [simBus, hdev]) rfl hwalk2
      refine ⟨_, _, _, hnext, ?_, ?_⟩
      · intro hfam
        have h0 : t2.ROM_NO.getD 0 0 ≠ 0 := by
          rw [hrt2, romOf_getD y2 0 (by decide)]; exact hfam
        have hc := OWSearch_tail_code (locAt 64 0) t2 (by simp [locAt]) h0
        rw [(OWSearch_tail_found _ t2 hc).2.2.2.2.2]
        simp [locAt]
      · intro hr2
        obtain ⟨_, _, hrom2, _, hfl2, _⟩ := OWSearch_tail_found _ t2 hr2
        refine ⟨by rw [hfl2]; simp [locAt], by rw [hrom2, hrt2]⟩

/-- C19, on a replayed bus whose walk takes the 0 branch at a discrepancy at
position 1, and for the simulated devices `0x2800000000000000` and
`0x2800000000000001`, which differ at position 57 only. -/
theorem last_discrepancy_after_found_witness :
    (((State.branchFound.LastDiscrepancy = 0
          ∧ ∀ (n d st : Nat),
              ([BusEvent.reset true, BusEvent.write 0xF0, BusEvent.triplet 0 0x00]
                ++ List.replicate 63 (BusEvent.triplet 0 0xA0))[n + 1]?
                = some (BusEvent.triplet d st) →
              ¬ (idBit st = false ∧ cmpIdBit st = false ∧ dirBit st = 0))
        ∨ ∃ (n d st : Nat), 1 ≤ n ∧ n ≤ 64 ∧ State.branchFound.LastDiscrepancy = n
            ∧ ([BusEvent.reset true, BusEvent.write 0xF0, BusEvent.triplet 0 0x00]
                ++ List.replicate 63 (BusEvent.triplet 0 0xA0))[n + 1]?
                = some (BusEvent.triplet d st)
            ∧ (idBit st = false ∧ cmpIdBit st = false ∧ dirBit st = 0)
            ∧ ∀ (n2 d2 st2 : Nat), n < n2 →
                ([BusEvent.reset true, BusEvent.write 0xF0, BusEvent.triplet 0 0x00]
                  ++ List.replicate 63 (BusEvent.triplet 0 0xA0))[n2 + 1]?
                  = some (BusEvent.triplet d2 st2) →
                ¬ (idBit st2 = false ∧ cmpIdBit st2 = false ∧ dirBit st2 = 0))
      ∧ (State.branchFound.LastDeviceFlag = true ↔ State.branchFound.LastDiscrepancy = 0))
    ∧ ∃ r1 t1 v1, OWFirst simBus 64 State.init
          (SimWorld.init [0x2800000000000000, 0x2800000000000001]) = some (r1, t1, v1)
        ∧ (romByte 0x2800000000000000 0 ≠ 0 → r1 = 1)
        ∧ (r1 ≠ 0 → t1.LastDiscrepancy = 56 + 1 ∧ t1.ROM_NO = romOf 0x2800000000000000
            ∧ ∃ r2 t2 v2, OWNext simBus 64 t1 v1 = some (r2, t2, v2)
                ∧ (romByte 0x2800000000000001 0 ≠ 0 → r2 = 2)
                ∧ (r2 ≠ 0 → t2.LastDeviceFlag = true ∧ t2.ROM_NO = romOf 0x2800000000000001)) :=
  last_discrepancy_after_found replayBus 64 State.init ([0x00] ++ List.replicate 63 0xA0) []
    1 State.branchFound _ 0x2800000000000000 0x2800000000000001 56 64 State.init
    (by decide) (by decide) (by decide) (by decide) (by decide) (by decide) (by decide)
    (by decide) (by decide) (by decide)

/-- C20 (counterexample): a walk that completes all 64 positions and
produces the identifier bytes `00 FF FF FF FF FF FF FF` is treated as empty:
`OWSearch` returns 0 and stores nothing, although seven of the eight bytes
are non-zero. -/
theorem completed_walk_zero_family :
    OWSearch_loop replayBus 64 Locals.init State.init zeroFamilyWalk
        = some (⟨65, 0, 8, 1⟩,
            { State.init with ROM_NO := [0, 255, 255, 255, 255, 255, 255, 255] }, [])
    ∧ OWSearch replayBus 64 State.init zeroFamilyWalk
        = some (0, { State.init with ROM_NO := [0, 255, 255, 255, 255, 255, 255, 255] }, []) := by
  constructor <;> decide

/-- C20 (amended): a walk that completes all 64 bit positions is treated as
empty exactly when byte 0 of the identifier it produced (the family code) is
zero: then `OWSearch` returns 0, resets the Search State and leaves the
registry as it was. When byte 0 is non-zero the call returns a non-zero code
and, for `iter < 16`, slot `iter` holds the identifier bytes in reverse
order. -/
theorem completed_walk_family_code {W : Type} (bus : Bus W) (fuel : Nat) (s : State)
    (w w1 w2 w3 : W) (x : Nat) (l : Locals) (t : State)
    (hwf : s.wf)
    (hflag : s.LastDeviceFlag = false)
    (hreset : bus.OWReset w = some (true, w1))
    (hwrite : bus.OWWriteByte OWSearchCmd w1 = some (x, w2))
    (hloop : OWSearch_loop bus fuel Locals.init { s with crc8 := 0 } w2 = some (l, t, w3))
    (hdone : l.id_bit_number = 65) :
    ∃ r s1, OWSearch bus fuel s w = some (r, s1, w3) ∧ s1.ROM_NO = t.ROM_NO
      ∧ (t.ROM_NO.getD 0 0 = 0 →
          r = 0 ∧ s1.LastDiscrepancy = 0 ∧ s1.LastFamilyDiscrepancy = 0
          ∧ s1.LastDeviceFlag = false ∧ s1.OWIDU = s.OWIDU ∧ s1.oob = s.oob)
      ∧ (t.ROM_NO.getD 0 0 ≠ 0 →
          r ≠ 0 ∧ (s.iter < 16 →
            s1.OWIDU = s.OWIDU.set s.iter
              ((List.range 8).map (fun k => t.ROM_NO.getD (7 - k) 0)))) := by
  have hS : OWSearch bus fuel s w = some ((OWSearch_tail l t).1, (OWSearch_tail l t).2, w3) := by
    unfold OWSearch
    dsimp only
    rw [if_pos hflag, hreset]
    dsimp only
    rw [hwrite]
    dsimp only
    rw [hloop]
  refine ⟨_, _, hS, ?_, ?_, ?_⟩
  · unfold OWSearch_tail
    rw [if_pos (by omega)]
    unfold OWSearch_finish
    dsimp only
    split_ifs <;> simp [(saveROM_fields _).1]
  · intro h0
    unfold OWSearch_tail
    rw [if_pos (by omega)]
    have hfin := OWSearch_finish_none true
      { t with LastDiscrepancy := l.last_zero,
               LastDeviceFlag := if l.last_zero = 0 then true else t.LastDeviceFlag } (Or.inr h0)
    rw [hfin]
    obtain ⟨hf, _⟩ := OWSearch_loop_fields bus fuel _ _ _ _ _ _ hloop
    exact ⟨rfl, rfl, rfl, rfl, hf.1, hf.2.1⟩
  · intro h0
    have hr : (OWSearch_tail l t).1 ≠ 0 := by
      unfold OWSearch_tail
      rw [if_pos (by omega)]
      unfold OWSearch_finish
      dsimp only
      rw [if_neg (by rintro (h1 | h1); exact absurd h1 (by simp); exact h0 h1)]
      split_ifs <;> simp
    refine ⟨hr, ?_⟩
    intro hi
    obtain ⟨_, _, h3, _, _⟩ := OWSearch_found_store bus fuel s w _ _ w3 hwf hi hS hr
    rw [h3]
    congr 2
    funext k
    congr 1
    revert k
    unfold OWSearch_tail
    rw [if_pos (by omega)]
    unfold OWSearch_finish
    dsimp only
    rw [if_neg (by rintro (h1 | h1); exact absurd h1 (by simp); exact h0 h1)]
    split_ifs <;> simp [(saveROM_fields _).1]

/-- C20 (amended), on the simulated bus with the single device
`0x280000001234AB7E`, starting from the initial state. -/
theorem completed_walk_family_code_witness :
    ∃ r s1, OWSearch simBus 64 State.init (SimWorld.init [0x280000001234AB7E])
        = some (r, s1, ⟨[0x280000001234AB7E], [0x280000001234AB7E], 64⟩)
      ∧ s1.ROM_NO = [0x28, 0, 0, 0, 0x12, 0x34, 0xAB, 0x7E]
      ∧ ((([0x28, 0, 0, 0, 0x12, 0x34, 0xAB, 0x7E] : List Nat).getD 0 0 = 0 →
          r = 0 ∧ s1.LastDiscrepancy = 0 ∧ s1.LastFamilyDiscrepancy = 0
          ∧ s1.LastDeviceFlag = false ∧ s1.OWIDU = State.init.OWIDU ∧ s1.oob = State.init.oob))
      ∧ ((([0x28, 0, 0, 0, 0x12, 0x34, 0xAB, 0x7E] : List Nat).getD 0 0 ≠ 0 →
          r ≠ 0 ∧ (State.init.iter < 16 →
            s1.OWIDU = State.init.OWIDU.set State.init.iter
              ((List.range 8).map
                (fun k => ([0x28, 0, 0, 0, 0x12, 0x34, 0xAB, 0x7E] : List Nat).getD (7 - k) 0))))) :=
  completed_walk_family_code simBus 64 State.init (SimWorld.init [0x280000001234AB7E])
    ⟨[0x280000001234AB7E], [0x280000001234AB7E], 0⟩ ⟨[0x280000001234AB7E], [0x280000001234AB7E], 0⟩
    ⟨[0x280000001234AB7E], [0x280000001234AB7E], 64⟩ 1 ⟨65, 0, 8, 1⟩
    { State.init with ROM_NO := [0x28, 0, 0, 0, 0x12, 0x34, 0xAB, 0x7E] }
    (by decide) rfl rfl rfl (by decide) rfl

/-- C21: on a bus whose triplets always return, whatever status bytes they
return, the walk loop of `OWSearch` (given fuel for 64 iterations) terminates
after at least one and at most 64 triplets; the iteration for bit position
`n` runs with `id_bit_number = n`, byte index `(n - 1) / 8`, which is at most
7, and mask `1 << ((n - 1) % 8)`; and the loop leaves `id_bit_number = 65`
exactly when no triplet returned a status with both read bits set. The ghost
record of the iterations does not change the loop. -/
theorem walk_loop_bounds {W : Type} (bus : Bus W) (fuel : Nat) (s : State) (w : W)
    (htotal : ∀ d v, bus.DS2482_search_triplet d v ≠ none) (hfuel : 64 ≤ fuel) :
    ∃ its l1 s1 w1, OWSearch_loop_iters bus fuel Locals.init s w = some (its, l1, s1, w1)
      ∧ OWSearch_loop bus fuel Locals.init s w = some (l1, s1, w1)
      ∧ 1 ≤ its.length ∧ its.length ≤ 64
      ∧ (∀ n, 1 ≤ n → n ≤ its.length → ∃ l st, its[n - 1]? = some (l, st)
          ∧ l.id_bit_number = n ∧ l.rom_byte_number = (n - 1) / 8 ∧ l.rom_byte_number ≤ 7
          ∧ l.rom_byte_mask = 1 <<< ((n - 1) % 8))
      ∧ (l1.id_bit_number = 65 ↔ ∀ it ∈ its, ¬ noDevice it.2) := by
  obtain ⟨its, l1, s1, w1, hrun, hlen1, hlen, hloc, hcase⟩ :=
    OWSearch_loop_iters_spec bus htotal fuel 0 0 s w (by decide) (by omega)
  have hrun2 : OWSearch_loop_iters bus fuel Locals.init s w = some (its, l1, s1, w1) := hrun
  refine ⟨its, l1, s1, w1, hrun2, ?_, hlen1, by omega, ?_, ?_⟩
  · rw [← OWSearch_loop_iters_eq, hrun2]
    rfl
  · intro n hn1 hn2
    obtain ⟨lz2, st, hk⟩ := hloc (n - 1) (by omega)
    refine ⟨locAt (0 + (n - 1)) lz2, st, hk, ?_, ?_, ?_, ?_⟩
    · simp only [locAt]; omega
    · simp only [locAt, Nat.zero_add]
    · simp only [locAt]; omega
    · simp only [locAt, Nat.zero_add, Nat.shiftLeft_eq, Nat.one_mul]
  · rcases hcase with ⟨h65, hall⟩ | ⟨h65, it, hit, hnd⟩
    · exact ⟨fun _ => hall, fun _ => h65⟩
    · constructor
      · intro h; omega
      · intro h; exact absurd hnd (h it hit)

/-- C21, on a replayed bus whose second triplet reports both read bits set:
the loop makes two triplets and leaves `id_bit_number = 2`. -/
theorem walk_loop_bounds_witness :
    ∃ its l1 s1 w1,
      OWSearch_loop_iters replayBus 64 Locals.init State.init [0xA0, 0x60]
        = some (its, l1, s1, w1)
      ∧ OWSearch_loop replayBus 64 Locals.init State.init [0xA0, 0x60] = some (l1, s1, w1)
      ∧ 1 ≤ its.length ∧ its.length ≤ 64
      ∧ (∀ n, 1 ≤ n → n ≤ its.length → ∃ l st, its[n - 1]? = some (l, st)
          ∧ l.id_bit_number = n ∧ l.rom_byte_number = (n - 1) / 8 ∧ l.rom_byte_number ≤ 7
          ∧ l.rom_byte_mask = 1 <<< ((n - 1) % 8))
      ∧ (l1.id_bit_number = 65 ↔ ∀ it ∈ its, ¬ noDevice it.2) :=
  walk_loop_bounds replayBus 64 State.init [0xA0, 0x60]
    (fun d v => by cases v <;> simp [replayBus]) (by decide)

end DS2482
